import Mathlib

/-!
# Pairing-check components over an R1CS blueprint

Verification development for `pairing_checks.hpp` (the components
`check_e_equals_e_component` and `check_e_equals_ee_component`) and for the
field-extension components exercised by the component tests.

The blueprint substrate, the Miller-loop and final-exponentiation components
and the field-extension components live in headers that are not part of the
sources at hand; they are modelled from the specification and every such
definition says so in its doc comment.
-/

namespace snark

/-! ## Constraint-system substrate -/

/-- Modelled from the spec: a linear combination is an ordered sequence of
(coefficient, variable) pairs plus a constant term (substrate header absent).
A variable is a handle identifying one cell of a blueprint's assignment
vector: its index. -/
structure linear_combination (F : Type) where
  terms : List (F × Nat)
  constant : F

/-- Modelled from the spec: a constraint is an ordered triple (A, B, C) of
linear combinations (substrate header absent). -/
structure r1cs_constraint (F : Type) where
  a : linear_combination F
  b : linear_combination F
  c : linear_combination F

/-- Modelled from the spec: a blueprint owns the variable assignment (one cell
per allocated variable, holding a value only once one was written) and the
append-only constraint sequence (substrate header absent). -/
structure blueprint (F : Type) where
  values : List (Option F)
  constraints : List (r1cs_constraint F)

variable {F : Type}

/-- The variables a linear combination refers to. -/
def linear_combination.vars (l : linear_combination F) : List Nat :=
  l.terms.map Prod.snd

/-- The linear combination consisting of the single variable `v`. -/
def linear_combination.of_variable [Zero F] [One F] (v : Nat) :
    linear_combination F :=
  { terms := [(1, v)], constant := 0 }

/-- The constant linear combination `x`. -/
def linear_combination.of_constant (x : F) : linear_combination F :=
  { terms := [], constant := x }

/-- Modelled from the spec: a linear combination evaluates to a field element
given an assignment; there is no value when a referenced variable lacks one. -/
def linear_combination.evaluate [Add F] [Mul F] (l : linear_combination F)
    (a : List (Option F)) : Option F :=
  l.terms.foldr
    (fun t acc =>
      match a.getD t.2 none, acc with
      | some v, some s => some (t.1 * v + s)
      | _, _ => none)
    (some l.constant)

/-- The variables a constraint refers to. -/
def r1cs_constraint.vars (k : r1cs_constraint F) : List Nat :=
  k.a.vars ++ k.b.vars ++ k.c.vars

/-- Modelled from the spec: a constraint is satisfied under an assignment iff
`eval(A) * eval(B) == eval(C)`, and is not when a referenced variable lacks a
value. -/
def r1cs_constraint.is_satisfied [Add F] [Mul F] [DecidableEq F] (k : r1cs_constraint F)
    (a : List (Option F)) : Bool :=
  match k.a.evaluate a, k.b.evaluate a, k.c.evaluate a with
  | some x, some y, some z => decide (x * y = z)
  | _, _, _ => false

namespace blueprint

/-- The blueprint as created: no variable, no constraint. -/
def empty : blueprint F :=
  { values := [], constraints := [] }

/-- Number of allocated variables. -/
def num_variables (bp : blueprint F) : Nat :=
  bp.values.length

/-- Modelled from the spec: `num_constraints` is a read-only query. -/
def num_constraints (bp : blueprint F) : Nat :=
  bp.constraints.length

/-- Modelled from the spec: `allocate(n)` returns `n` fresh variables with
unspecified initial value; the assignment vector grows monotonically. -/
def allocate (bp : blueprint F) (n : Nat) : List Nat × blueprint F :=
  (List.range' bp.values.length n, { bp with values := bp.values ++ List.replicate n none })

/-- Modelled from the spec: `add_constraint(A,B,C)` appends one constraint. -/
def add_r1cs_constraint (bp : blueprint F) (k : r1cs_constraint F) : blueprint F :=
  { bp with constraints := bp.constraints ++ [k] }

/-- Modelled from the spec: `get_value(var)` reads the assignment. -/
def val (bp : blueprint F) (v : Nat) : Option F :=
  bp.values.getD v none

/-- Modelled from the spec: `set_value(var, value)` writes the assignment. -/
def set_val (bp : blueprint F) (v : Nat) (x : F) : blueprint F :=
  { bp with values := bp.values.set v (some x) }

/-- Writes the values `xs` to the variables `vs`, in order. -/
def set_vals (bp : blueprint F) (vs : List Nat) (xs : List F) : blueprint F :=
  (vs.zip xs).foldl (fun b p => b.set_val p.1 p.2) bp

/-- Reads the values of the variables `vs`. -/
def get_vals (bp : blueprint F) (vs : List Nat) : List (Option F) :=
  vs.map bp.val

/-- The same blueprint under another assignment. -/
def with_values (bp : blueprint F) (a : List (Option F)) : blueprint F :=
  { bp with values := a }

/-- Modelled from the spec: `is_satisfied()` evaluates every constraint against
the current assignment. -/
def is_satisfied [Add F] [Mul F] [DecidableEq F] (bp : blueprint F) : Bool :=
  bp.constraints.all (fun k => k.is_satisfied bp.values)

end blueprint

/-! ## Components -/

/-- Modelled from the spec: a component of a header that is absent. It holds
references to the variables it reads (`reads`), writes the variables it owns and
its outputs (`writes`) with values that are a function of the values read
(`compute`), and emits a fixed list of constraints. -/
structure component (F : Type) where
  reads : List Nat
  writes : List Nat
  compute : List (Option F) → Nat → F
  constraints : List (r1cs_constraint F)

/-- Modelled from the spec: emitting constraints appends them, one by one. -/
def component.generate_r1cs_constraints (c : component F) (bp : blueprint F) : blueprint F :=
  c.constraints.foldl blueprint.add_r1cs_constraint bp

/-- Modelled from the spec: the witness pass computes the values from the
variables read and records them. -/
def component.generate_r1cs_witness (c : component F) (bp : blueprint F) : blueprint F :=
  c.writes.foldl (fun b v => b.set_val v (c.compute (bp.get_vals c.reads) v)) bp

/-! ## Pairing parameters and the components the pairing checks are built from -/

/-- Modelled from the spec: a field-extension variable is a bundle of base-field
variables, one per coordinate (`Fqk_variable`, header absent). -/
structure Fqk_variable where
  vars : List Nat

/-- Modelled from the spec: a precomputation is a fixed-shape bundle of
variables holding the line-function coefficients derived from one element of
the first group (`G1_precomputation`, header absent). -/
structure G1_precomputation where
  vars : List Nat

/-- Modelled from the spec: the precomputation of an element of the second
group (`G2_precomputation`, header absent). -/
structure G2_precomputation where
  vars : List Nat

/-- Modelled from the spec: the capability set a curve provides, standing for
the template parameter `CurveType` and the absent headers `pairing_params.hpp`,
`weierstrass_miller_loop.hpp` and `weierstrass_final_exponentiation.hpp`.
Native side: the coordinates of an element of the target field `K` over the
base field, the Miller loop on two native precomputations (given by their
coordinates) and the final exponent. Circuit side: for each Miller-loop and
final-exponentiation component the number of intermediate variables it
allocates and the component it is, given its inputs, its output and those
intermediate variables. -/
structure CurveType (F K : Type) where
  Fqk_size : Nat
  Fqk_coordinates : K → List F
  affine_ate_miller_loop : List F → List F → K
  final_exponent : Nat
  e_over_e_aux : Nat
  e_over_e_miller_loop : G1_precomputation → G2_precomputation → G1_precomputation →
    G2_precomputation → Fqk_variable → List Nat → component F
  e_times_e_over_e_aux : Nat
  e_times_e_over_e_miller_loop : G1_precomputation → G2_precomputation → G1_precomputation →
    G2_precomputation → G1_precomputation → G2_precomputation → Fqk_variable →
    List Nat → component F
  final_exp_aux : Nat
  final_exp : Fqk_variable → Nat → List Nat → component F

variable {K : Type}

/-- Modelled from the spec: the native final exponentiation raises its input to
the pairing's final exponent. -/
def CurveType.final_exponentiation [Monoid K] (C : CurveType F K) (x : K) : K :=
  x ^ C.final_exponent

/-- The pairing `e`: the final exponentiation of the Miller loop. -/
def CurveType.reduced_pairing [Monoid K] (C : CurveType F K) (p q : List F) : K :=
  C.final_exponentiation (C.affine_ate_miller_loop p q)

/-- Modelled from the spec: `Fqk_variable<CurveType>(bp)` allocates one fresh
variable per coordinate. -/
def Fqk_variable.construct (C : CurveType F K) (bp : blueprint F) :
    Fqk_variable × blueprint F :=
  ({ vars := (bp.allocate C.Fqk_size).1 }, (bp.allocate C.Fqk_size).2)

/-- Modelled from the spec: constructing the ratio Miller loop allocates its
intermediate variables on the blueprint. -/
def e_over_e_miller_loop_component (C : CurveType F K) (bp : blueprint F)
    (prec_P1 : G1_precomputation) (prec_Q1 : G2_precomputation)
    (prec_P2 : G1_precomputation) (prec_Q2 : G2_precomputation) (result : Fqk_variable) :
    component F × blueprint F :=
  (C.e_over_e_miller_loop prec_P1 prec_Q1 prec_P2 prec_Q2 result
      (bp.allocate C.e_over_e_aux).1,
    (bp.allocate C.e_over_e_aux).2)

/-- Modelled from the spec: constructing the product-over-one Miller loop
allocates its intermediate variables on the blueprint. -/
def e_times_e_over_e_miller_loop_component (C : CurveType F K) (bp : blueprint F)
    (prec_P1 : G1_precomputation) (prec_Q1 : G2_precomputation)
    (prec_P2 : G1_precomputation) (prec_Q2 : G2_precomputation)
    (prec_P3 : G1_precomputation) (prec_Q3 : G2_precomputation) (result : Fqk_variable) :
    component F × blueprint F :=
  (C.e_times_e_over_e_miller_loop prec_P1 prec_Q1 prec_P2 prec_Q2 prec_P3 prec_Q3 result
      (bp.allocate C.e_times_e_over_e_aux).1,
    (bp.allocate C.e_times_e_over_e_aux).2)

/-- Modelled from the spec: constructing the final exponentiation allocates its
intermediate variables on the blueprint. -/
def final_exp_component (C : CurveType F K) (bp : blueprint F) (el : Fqk_variable)
    (result_is_one : Nat) : component F × blueprint F :=
  (C.final_exp el result_is_one (bp.allocate C.final_exp_aux).1,
    (bp.allocate C.final_exp_aux).2)

/-! ## `pairing_checks.hpp` -/

/-- The component `check_e_equals_e_component`: its members. -/
structure check_e_equals_e_component (F : Type) where
  ratio : Fqk_variable
  compute_ratio : component F
  check_finexp : component F
  lhs_G1 : G1_precomputation
  lhs_G2 : G2_precomputation
  rhs_G1 : G1_precomputation
  rhs_G2 : G2_precomputation
  result : Nat

/-- The constructor of `check_e_equals_e_component`: allocates `ratio`, then
builds the ratio Miller loop on `(lhs_G1, lhs_G2, rhs_G1, rhs_G2, *ratio)` and
the final exponentiation on `(*ratio, result)`. -/
def check_e_equals_e_component.construct (C : CurveType F K) (bp : blueprint F)
    (lhs_G1 : G1_precomputation) (lhs_G2 : G2_precomputation)
    (rhs_G1 : G1_precomputation) (rhs_G2 : G2_precomputation)
    (result : Nat) : check_e_equals_e_component F × blueprint F :=
  let r := Fqk_variable.construct C bp
  let m := e_over_e_miller_loop_component C r.2 lhs_G1 lhs_G2 rhs_G1 rhs_G2 r.1
  let f := final_exp_component C m.2 r.1 result
  ({ ratio := r.1, compute_ratio := m.1, check_finexp := f.1,
     lhs_G1 := lhs_G1, lhs_G2 := lhs_G2, rhs_G1 := rhs_G1, rhs_G2 := rhs_G2,
     result := result }, f.2)

/-- The method `check_e_equals_e_component::generate_r1cs_constraints`: the
constraints of `compute_ratio`, then those of `check_finexp`. -/
def check_e_equals_e_component.generate_r1cs_constraints (g : check_e_equals_e_component F)
    (bp : blueprint F) : blueprint F :=
  g.check_finexp.generate_r1cs_constraints (g.compute_ratio.generate_r1cs_constraints bp)

/-- The method `check_e_equals_e_component::generate_r1cs_witness`: the witness
of `compute_ratio`, then that of `check_finexp`. -/
def check_e_equals_e_component.generate_r1cs_witness (g : check_e_equals_e_component F)
    (bp : blueprint F) : blueprint F :=
  g.check_finexp.generate_r1cs_witness (g.compute_ratio.generate_r1cs_witness bp)

/-- The component `check_e_equals_ee_component`: its members. -/
structure check_e_equals_ee_component (F : Type) where
  ratio : Fqk_variable
  compute_ratio : component F
  check_finexp : component F
  lhs_G1 : G1_precomputation
  lhs_G2 : G2_precomputation
  rhs1_G1 : G1_precomputation
  rhs1_G2 : G2_precomputation
  rhs2_G1 : G1_precomputation
  rhs2_G2 : G2_precomputation
  result : Nat

/-- The constructor of `check_e_equals_ee_component`: allocates `ratio`, then
builds the product-over-one Miller loop on
`(rhs1_G1, rhs1_G2, rhs2_G1, rhs2_G2, lhs_G1, lhs_G2, *ratio)` and the final
exponentiation on `(*ratio, result)`. -/
def check_e_equals_ee_component.construct (C : CurveType F K) (bp : blueprint F)
    (lhs_G1 : G1_precomputation) (lhs_G2 : G2_precomputation)
    (rhs1_G1 : G1_precomputation) (rhs1_G2 : G2_precomputation)
    (rhs2_G1 : G1_precomputation) (rhs2_G2 : G2_precomputation)
    (result : Nat) : check_e_equals_ee_component F × blueprint F :=
  let r := Fqk_variable.construct C bp
  let m := e_times_e_over_e_miller_loop_component C r.2 rhs1_G1 rhs1_G2 rhs2_G1 rhs2_G2
    lhs_G1 lhs_G2 r.1
  let f := final_exp_component C m.2 r.1 result
  ({ ratio := r.1, compute_ratio := m.1, check_finexp := f.1,
     lhs_G1 := lhs_G1, lhs_G2 := lhs_G2, rhs1_G1 := rhs1_G1, rhs1_G2 := rhs1_G2,
     rhs2_G1 := rhs2_G1, rhs2_G2 := rhs2_G2, result := result }, f.2)

/-- The method `check_e_equals_ee_component::generate_r1cs_constraints`: the
constraints of `compute_ratio`, then those of `check_finexp`. -/
def check_e_equals_ee_component.generate_r1cs_constraints
    (g : check_e_equals_ee_component F) (bp : blueprint F) : blueprint F :=
  g.check_finexp.generate_r1cs_constraints (g.compute_ratio.generate_r1cs_constraints bp)

/-- The method `check_e_equals_ee_component::generate_r1cs_witness`: the witness
of `compute_ratio`, then that of `check_finexp`. -/
def check_e_equals_ee_component.generate_r1cs_witness
    (g : check_e_equals_ee_component F) (bp : blueprint F) : blueprint F :=
  g.check_finexp.generate_r1cs_witness (g.compute_ratio.generate_r1cs_witness bp)

/-- The test flow of `check_e_equals_e_component`: the component is built on
`bp` and emits its constraints; then, on the assignment `a` of the variables,
it computes its witness. -/
def check_e_equals_e_component.run (C : CurveType F K) (bp : blueprint F)
    (lhs_G1 : G1_precomputation) (lhs_G2 : G2_precomputation)
    (rhs_G1 : G1_precomputation) (rhs_G2 : G2_precomputation)
    (result : Nat) (a : List (Option F)) : blueprint F :=
  (check_e_equals_e_component.construct C bp lhs_G1 lhs_G2 rhs_G1 rhs_G2
      result).1.generate_r1cs_witness
    (((check_e_equals_e_component.construct C bp lhs_G1 lhs_G2 rhs_G1 rhs_G2
        result).1.generate_r1cs_constraints
      (check_e_equals_e_component.construct C bp lhs_G1 lhs_G2 rhs_G1 rhs_G2
        result).2).with_values a)

/-- The test flow of `check_e_equals_ee_component`: the component is built on
`bp` and emits its constraints; then, on the assignment `a` of the variables,
it computes its witness. -/
def check_e_equals_ee_component.run (C : CurveType F K) (bp : blueprint F)
    (lhs_G1 : G1_precomputation) (lhs_G2 : G2_precomputation)
    (rhs1_G1 : G1_precomputation) (rhs1_G2 : G2_precomputation)
    (rhs2_G1 : G1_precomputation) (rhs2_G2 : G2_precomputation)
    (result : Nat) (a : List (Option F)) : blueprint F :=
  (check_e_equals_ee_component.construct C bp lhs_G1 lhs_G2 rhs1_G1 rhs1_G2 rhs2_G1 rhs2_G2
      result).1.generate_r1cs_witness
    (((check_e_equals_ee_component.construct C bp lhs_G1 lhs_G2 rhs1_G1 rhs1_G2 rhs2_G1
        rhs2_G2 result).1.generate_r1cs_constraints
      (check_e_equals_ee_component.construct C bp lhs_G1 lhs_G2 rhs1_G1 rhs1_G2 rhs2_G1
        rhs2_G2 result).2).with_values a)

/-! ## Contracts of the absent components -/

/-- The variables `vs` hold the values `xs`. -/
def blueprint.holds (bp : blueprint F) (vs : List Nat) (xs : List F) : Prop :=
  bp.get_vals vs = xs.map some

/-- Modelled from the spec: the interface discipline of a component. It reads
only the input variables supplied by its caller, writes every output variable,
writes only output variables and the intermediate variables `aux` it allocated,
and its constraints refer to no other variable. -/
def component.respects (c : component F) (inputs outputs aux : List Nat) : Prop :=
  (∀ v ∈ c.reads, v ∈ inputs) ∧
  (∀ v ∈ outputs, v ∈ c.writes) ∧
  (∀ v ∈ c.writes, v ∈ outputs ∨ v ∈ aux) ∧
  (∀ k ∈ c.constraints, ∀ v ∈ k.vars, v ∈ inputs ∨ v ∈ outputs ∨ v ∈ aux)

/-- Modelled from the spec: the contract of the ratio Miller loop
(`e_over_e_miller_loop_component`, header absent), as
`test_mnt_e_over_e_miller_loop` asserts it. The component built on the four
precomputations, the output `result` and the intermediate variables `aux`
respects its interface and, on every assignment of `n` variables in which the
precomputations hold native precomputations with invertible Miller values, its
witness pass leaves in `result` the coordinates of
`miller(P1,Q1) * miller(P2,Q2).inversed()` and satisfies its constraints. -/
def e_over_e_miller_loop_contract [Field K] [Add F] [Mul F] [DecidableEq F]
    (C : CurveType F K)
    (prec_P1 : G1_precomputation) (prec_Q1 : G2_precomputation)
    (prec_P2 : G1_precomputation) (prec_Q2 : G2_precomputation)
    (result : Fqk_variable) (aux : List Nat) (n : Nat) : Prop :=
  (C.e_over_e_miller_loop prec_P1 prec_Q1 prec_P2 prec_Q2 result aux).respects
    (prec_P1.vars ++ prec_Q1.vars ++ prec_P2.vars ++ prec_Q2.vars) result.vars aux ∧
  ∀ (b : blueprint F) (x1 y1 x2 y2 : List F), b.values.length = n →
    b.holds prec_P1.vars x1 → b.holds prec_Q1.vars y1 →
    b.holds prec_P2.vars x2 → b.holds prec_Q2.vars y2 →
    C.affine_ate_miller_loop x1 y1 ≠ 0 → C.affine_ate_miller_loop x2 y2 ≠ 0 →
    ((C.e_over_e_miller_loop prec_P1 prec_Q1 prec_P2 prec_Q2 result aux).generate_r1cs_witness
        b).holds result.vars
        (C.Fqk_coordinates
          (C.affine_ate_miller_loop x1 y1 * (C.affine_ate_miller_loop x2 y2)⁻¹)) ∧
      ∀ k ∈ (C.e_over_e_miller_loop prec_P1 prec_Q1 prec_P2 prec_Q2 result aux).constraints,
        k.is_satisfied
          ((C.e_over_e_miller_loop prec_P1 prec_Q1 prec_P2 prec_Q2 result
            aux).generate_r1cs_witness b).values = true

/-- Modelled from the spec: the contract of the product-over-one Miller loop
(`e_times_e_over_e_miller_loop_component`, header absent), as
`test_mnt_e_times_e_over_e_miller_loop` asserts it: the component respects its
interface and its witness pass leaves in `result` the coordinates of
`miller(P1,Q1) * miller(P2,Q2) * miller(P3,Q3).inversed()` and satisfies its
constraints. -/
def e_times_e_over_e_miller_loop_contract [Field K] [Add F] [Mul F] [DecidableEq F]
    (C : CurveType F K)
    (prec_P1 : G1_precomputation) (prec_Q1 : G2_precomputation)
    (prec_P2 : G1_precomputation) (prec_Q2 : G2_precomputation)
    (prec_P3 : G1_precomputation) (prec_Q3 : G2_precomputation)
    (result : Fqk_variable) (aux : List Nat) (n : Nat) : Prop :=
  (C.e_times_e_over_e_miller_loop prec_P1 prec_Q1 prec_P2 prec_Q2 prec_P3 prec_Q3 result
      aux).respects
    (prec_P1.vars ++ prec_Q1.vars ++ prec_P2.vars ++ prec_Q2.vars ++ prec_P3.vars
      ++ prec_Q3.vars) result.vars aux ∧
  ∀ (b : blueprint F) (x1 y1 x2 y2 x3 y3 : List F), b.values.length = n →
    b.holds prec_P1.vars x1 → b.holds prec_Q1.vars y1 →
    b.holds prec_P2.vars x2 → b.holds prec_Q2.vars y2 →
    b.holds prec_P3.vars x3 → b.holds prec_Q3.vars y3 →
    C.affine_ate_miller_loop x1 y1 ≠ 0 → C.affine_ate_miller_loop x2 y2 ≠ 0 →
    C.affine_ate_miller_loop x3 y3 ≠ 0 →
    ((C.e_times_e_over_e_miller_loop prec_P1 prec_Q1 prec_P2 prec_Q2 prec_P3 prec_Q3 result
        aux).generate_r1cs_witness b).holds result.vars
        (C.Fqk_coordinates
          (C.affine_ate_miller_loop x1 y1 * C.affine_ate_miller_loop x2 y2
            * (C.affine_ate_miller_loop x3 y3)⁻¹)) ∧
      ∀ k ∈ (C.e_times_e_over_e_miller_loop prec_P1 prec_Q1 prec_P2 prec_Q2 prec_P3 prec_Q3
          result aux).constraints,
        k.is_satisfied
          ((C.e_times_e_over_e_miller_loop prec_P1 prec_Q1 prec_P2 prec_Q2 prec_P3 prec_Q3
            result aux).generate_r1cs_witness b).values = true

/-- Modelled from the spec: the contract of the final exponentiation
(`final_exp_component`, header absent). The component built on the input `el`,
the output `result_is_one` and the intermediate variables `aux` respects its
interface and, on every assignment of `n` variables in which `el` holds a
nonzero `x`, its witness pass sets `result_is_one` to one when the final
exponentiation of `x` is the multiplicative identity and to zero otherwise, and
satisfies its constraints whichever it is. -/
def final_exp_contract [Field K] [DecidableEq K] [Field F] [DecidableEq F]
    (C : CurveType F K) (el : Fqk_variable) (result_is_one : Nat) (aux : List Nat)
    (n : Nat) : Prop :=
  (C.final_exp el result_is_one aux).respects el.vars [result_is_one] aux ∧
  ∀ (b : blueprint F) (x : K), b.values.length = n →
    b.holds el.vars (C.Fqk_coordinates x) → x ≠ 0 →
    ((C.final_exp el result_is_one aux).generate_r1cs_witness b).val result_is_one
        = some (if C.final_exponentiation x = 1 then 1 else 0) ∧
      ∀ k ∈ (C.final_exp el result_is_one aux).constraints,
        k.is_satisfied ((C.final_exp el result_is_one aux).generate_r1cs_witness b).values
          = true

/-- The setting in which `check_e_equals_e_component` is used. The caller built
it on the blueprint `bp` with precomputations and a result variable allocated
on `bp`, the result variable being none of the precomputation variables; the
constraints already on `bp` mention variables of `bp` other than `result` and
hold under the assignment `a`; the two children built by the constructor (on
the freshly allocated `ratio` and their own fresh intermediate variables) meet
the contracts of the absent components; `a` assigns all the variables and in it
the precomputations hold the native precomputations `P1, Q1` (left-hand side)
and `P2, Q2` (right-hand side), whose Miller values are invertible, as those of
points are. -/
structure check_e_equals_e_component.setting [Field F] [DecidableEq F] [Field K]
    [DecidableEq K] (C : CurveType F K) (bp : blueprint F)
    (lhs_G1 : G1_precomputation) (lhs_G2 : G2_precomputation)
    (rhs_G1 : G1_precomputation) (rhs_G2 : G2_precomputation)
    (result : Nat) (a : List (Option F)) (P1 Q1 P2 Q2 : List F) : Prop where
  inputs_allocated : ∀ v ∈ lhs_G1.vars ++ lhs_G2.vars ++ rhs_G1.vars ++ rhs_G2.vars,
    v < bp.num_variables ∧ v ≠ result
  result_allocated : result < bp.num_variables
  miller_loop : e_over_e_miller_loop_contract C lhs_G1 lhs_G2 rhs_G1 rhs_G2
    { vars := List.range' bp.num_variables C.Fqk_size }
    (List.range' (bp.num_variables + C.Fqk_size) C.e_over_e_aux)
    (bp.num_variables + C.Fqk_size + C.e_over_e_aux + C.final_exp_aux)
  final_exp : final_exp_contract C { vars := List.range' bp.num_variables C.Fqk_size } result
    (List.range' (bp.num_variables + C.Fqk_size + C.e_over_e_aux) C.final_exp_aux)
    (bp.num_variables + C.Fqk_size + C.e_over_e_aux + C.final_exp_aux)
  earlier_constraints : ∀ k ∈ bp.constraints,
    (∀ v ∈ k.vars, v < bp.num_variables ∧ v ≠ result) ∧ k.is_satisfied a = true
  assignment_size :
    a.length = bp.num_variables + C.Fqk_size + C.e_over_e_aux + C.final_exp_aux
  holds_lhs_G1 : (blueprint.with_values bp a).holds lhs_G1.vars P1
  holds_lhs_G2 : (blueprint.with_values bp a).holds lhs_G2.vars Q1
  holds_rhs_G1 : (blueprint.with_values bp a).holds rhs_G1.vars P2
  holds_rhs_G2 : (blueprint.with_values bp a).holds rhs_G2.vars Q2
  miller_lhs_invertible : C.affine_ate_miller_loop P1 Q1 ≠ 0
  miller_rhs_invertible : C.affine_ate_miller_loop P2 Q2 ≠ 0

/-- The setting in which `check_e_equals_ee_component` is used: as for
`check_e_equals_e_component`, with the native precomputations `P1, Q1` in the
left-hand pair, `P2, Q2` in the first and `P3, Q3` in the second right-hand
pair. The Miller-loop child is the one the constructor builds: on
`(rhs1_G1, rhs1_G2, rhs2_G1, rhs2_G2, lhs_G1, lhs_G2)`. -/
structure check_e_equals_ee_component.setting [Field F] [DecidableEq F] [Field K]
    [DecidableEq K] (C : CurveType F K) (bp : blueprint F)
    (lhs_G1 : G1_precomputation) (lhs_G2 : G2_precomputation)
    (rhs1_G1 : G1_precomputation) (rhs1_G2 : G2_precomputation)
    (rhs2_G1 : G1_precomputation) (rhs2_G2 : G2_precomputation)
    (result : Nat) (a : List (Option F)) (P1 Q1 P2 Q2 P3 Q3 : List F) : Prop where
  inputs_allocated : ∀ v ∈ lhs_G1.vars ++ lhs_G2.vars ++ rhs1_G1.vars ++ rhs1_G2.vars
    ++ rhs2_G1.vars ++ rhs2_G2.vars, v < bp.num_variables ∧ v ≠ result
  result_allocated : result < bp.num_variables
  miller_loop : e_times_e_over_e_miller_loop_contract C rhs1_G1 rhs1_G2 rhs2_G1 rhs2_G2
    lhs_G1 lhs_G2
    { vars := List.range' bp.num_variables C.Fqk_size }
    (List.range' (bp.num_variables + C.Fqk_size) C.e_times_e_over_e_aux)
    (bp.num_variables + C.Fqk_size + C.e_times_e_over_e_aux + C.final_exp_aux)
  final_exp : final_exp_contract C { vars := List.range' bp.num_variables C.Fqk_size } result
    (List.range' (bp.num_variables + C.Fqk_size + C.e_times_e_over_e_aux) C.final_exp_aux)
    (bp.num_variables + C.Fqk_size + C.e_times_e_over_e_aux + C.final_exp_aux)
  earlier_constraints : ∀ k ∈ bp.constraints,
    (∀ v ∈ k.vars, v < bp.num_variables ∧ v ≠ result) ∧ k.is_satisfied a = true
  assignment_size :
    a.length = bp.num_variables + C.Fqk_size + C.e_times_e_over_e_aux + C.final_exp_aux
  holds_lhs_G1 : (blueprint.with_values bp a).holds lhs_G1.vars P1
  holds_lhs_G2 : (blueprint.with_values bp a).holds lhs_G2.vars Q1
  holds_rhs1_G1 : (blueprint.with_values bp a).holds rhs1_G1.vars P2
  holds_rhs1_G2 : (blueprint.with_values bp a).holds rhs1_G2.vars Q2
  holds_rhs2_G1 : (blueprint.with_values bp a).holds rhs2_G1.vars P3
  holds_rhs2_G2 : (blueprint.with_values bp a).holds rhs2_G2.vars Q3
  miller_lhs_invertible : C.affine_ate_miller_loop P1 Q1 ≠ 0
  miller_rhs1_invertible : C.affine_ate_miller_loop P2 Q2 ≠ 0
  miller_rhs2_invertible : C.affine_ate_miller_loop P3 Q3 ≠ 0

/-! ## A small curve instance

An instance of the capability set over the rationals, on which the contracts
above can be checked by computation: precomputations of one coordinate, the
Miller value of a pair is the product of the two coordinates, and the final
exponent is two. -/

/-- The value of the `i`-th variable read, zero when it lacks one. -/
def read_at {F : Type} [Zero F] (ins : List (Option F)) (i : Nat) : F :=
  (ins.getD i none).getD 0

/-- The constraint `A * B = C` between three variables. -/
def r1cs_constraint.product [Zero F] [One F] (x y z : Nat) : r1cs_constraint F :=
  { a := linear_combination.of_variable x, b := linear_combination.of_variable y,
    c := linear_combination.of_variable z }

/-- The ratio Miller loop of the small instance: `aux` holds the two Miller
values, and `result * miller(P2,Q2) = miller(P1,Q1)` is enforced. -/
def small_e_over_e (p1 : G1_precomputation) (q1 : G2_precomputation)
    (p2 : G1_precomputation) (q2 : G2_precomputation) (result : Fqk_variable)
    (aux : List Nat) : component ℚ :=
  { reads := p1.vars ++ q1.vars ++ p2.vars ++ q2.vars
    writes := result.vars ++ aux
    compute := fun ins v =>
      if v = aux.getD 0 0 then read_at ins 0 * read_at ins 1
      else if v = aux.getD 1 0 then read_at ins 2 * read_at ins 3
      else read_at ins 0 * read_at ins 1 * (read_at ins 2 * read_at ins 3)⁻¹
    constraints :=
      [ r1cs_constraint.product (p1.vars.getD 0 0) (q1.vars.getD 0 0) (aux.getD 0 0),
        r1cs_constraint.product (p2.vars.getD 0 0) (q2.vars.getD 0 0) (aux.getD 1 0),
        r1cs_constraint.product (result.vars.getD 0 0) (aux.getD 1 0) (aux.getD 0 0) ] }

/-- The product-over-one Miller loop of the small instance: `aux` holds the
three Miller values and the product of the first two, and
`result * miller(P3,Q3) = miller(P1,Q1) * miller(P2,Q2)` is enforced. -/
def small_e_times_e_over_e (p1 : G1_precomputation) (q1 : G2_precomputation)
    (p2 : G1_precomputation) (q2 : G2_precomputation)
    (p3 : G1_precomputation) (q3 : G2_precomputation) (result : Fqk_variable)
    (aux : List Nat) : component ℚ :=
  { reads := p1.vars ++ q1.vars ++ p2.vars ++ q2.vars ++ p3.vars ++ q3.vars
    writes := result.vars ++ aux
    compute := fun ins v =>
      if v = aux.getD 0 0 then read_at ins 0 * read_at ins 1
      else if v = aux.getD 1 0 then read_at ins 2 * read_at ins 3
      else if v = aux.getD 2 0 then read_at ins 4 * read_at ins 5
      else if v = aux.getD 3 0 then
        read_at ins 0 * read_at ins 1 * (read_at ins 2 * read_at ins 3)
      else read_at ins 0 * read_at ins 1 * (read_at ins 2 * read_at ins 3)
        * (read_at ins 4 * read_at ins 5)⁻¹
    constraints :=
      [ r1cs_constraint.product (p1.vars.getD 0 0) (q1.vars.getD 0 0) (aux.getD 0 0),
        r1cs_constraint.product (p2.vars.getD 0 0) (q2.vars.getD 0 0) (aux.getD 1 0),
        r1cs_constraint.product (p3.vars.getD 0 0) (q3.vars.getD 0 0) (aux.getD 2 0),
        r1cs_constraint.product (aux.getD 0 0) (aux.getD 1 0) (aux.getD 3 0),
        r1cs_constraint.product (result.vars.getD 0 0) (aux.getD 2 0) (aux.getD 3 0) ] }

/-- The final exponentiation of the small instance: `aux` holds the square of
the input, and `result_is_one * (1 - square) = 0` is enforced. -/
def small_final_exp (el : Fqk_variable) (result_is_one : Nat) (aux : List Nat) :
    component ℚ :=
  { reads := el.vars
    writes := result_is_one :: aux
    compute := fun ins v =>
      if v = aux.getD 0 0 then read_at ins 0 * read_at ins 0
      else if read_at ins 0 * read_at ins 0 = 1 then 1 else 0
    constraints :=
      [ r1cs_constraint.product (el.vars.getD 0 0) (el.vars.getD 0 0) (aux.getD 0 0),
        { a := linear_combination.of_variable result_is_one,
          b := { terms := [(-1, aux.getD 0 0)], constant := 1 },
          c := linear_combination.of_constant 0 } ] }

/-- The small curve instance. -/
def small_curve : CurveType ℚ ℚ :=
  { Fqk_size := 1
    Fqk_coordinates := fun x => [x]
    affine_ate_miller_loop := fun p q => p.getD 0 0 * q.getD 0 0
    final_exponent := 2
    e_over_e_aux := 2
    e_over_e_miller_loop := small_e_over_e
    e_times_e_over_e_aux := 4
    e_times_e_over_e_miller_loop := small_e_times_e_over_e
    final_exp_aux := 1
    final_exp := small_final_exp }

/-- A blueprint of five variables (four precomputations of one coordinate each,
then the result flag) carrying one earlier constraint. -/
def small_blueprint : blueprint ℚ :=
  { values := [none, none, none, none, none]
    constraints := [r1cs_constraint.product 0 0 0] }

/-- An assignment of the nine variables of the small `check_e_equals_e` on which
the two pairings agree. -/
def small_assignment : List (Option ℚ) :=
  [some 1, some 6, some 2, some 3, none, none, none, none, none]

/-- An assignment of the nine variables of the small `check_e_equals_e` on which
the two pairings differ. -/
def small_assignment_failing : List (Option ℚ) :=
  [some 1, some 6, some 2, some 4, none, none, none, none, none]

/-- A blueprint of seven variables (six precomputations of one coordinate each,
then the result flag) carrying one earlier constraint. -/
def small_blueprint_ee : blueprint ℚ :=
  { values := [none, none, none, none, none, none, none]
    constraints := [r1cs_constraint.product 2 2 2] }

/-- An assignment of the thirteen variables of the small `check_e_equals_ee` on
which the left-hand pairing is the product of the two right-hand ones. -/
def small_assignment_ee : List (Option ℚ) :=
  [some 2, some 6, some 1, some 3, some 2, some 2, none, none, none, none, none, none, none]

/-- The assignment `small_assignment_ee` with the last right-hand
precomputation perturbed, so that the equation fails. -/
def small_assignment_ee_failing : List (Option ℚ) :=
  [some 2, some 6, some 1, some 3, some 2, some 3, none, none, none, none, none, none, none]

/-- The assignment `small_assignment` on the precomputations, with stale values
left in the result flag, in the ratio and in the intermediate variables. -/
def small_assignment_stale : List (Option ℚ) :=
  [some 1, some 6, some 2, some 3, some 0, some 7, some 7, some 7, some 7]

/-- The assignment `small_assignment_ee` on the precomputations, with stale
values left in the result flag, in the ratio and in the intermediate
variables. -/
def small_assignment_ee_stale : List (Option ℚ) :=
  [some 2, some 6, some 1, some 3, some 2, some 2, some 0, some 7, some 7, some 7, some 7,
    some 7, some 7]

/-! ## Field-extension components

The headers `fp2_components.hpp`, `fp3_components.hpp`, `fp4_components.hpp`
and `fp6_components.hpp` and the native fields are absent; what follows is
modelled from the specification of the multiplication and squaring components
and from the flow of `test_mul` and `test_sqr`. -/

/-- Modelled from the spec: an extension field of some degree over the base
field, as the native field collaborator presents it to the components: the
coordinates of a value over the base field and the tower's multiplication
formula, given by the coefficient `structure_constant i j k` of the `k`-th basis
element in the product of the `i`-th and the `j`-th (template parameter
`FpExtT`). -/
structure FpExtT (F : Type) where
  degree : Nat
  structure_constant : Nat → Nat → Nat → F

/-- Modelled from the spec: the native field product `x * y` of two values given
by their coordinates. -/
def FpExtT.mul [Field F] (E : FpExtT F) (x y : List F) : List F :=
  (List.range E.degree).map fun k =>
    ((List.range E.degree).map fun i =>
      ((List.range E.degree).map fun j =>
        E.structure_constant i j k * (x.getD i 0 * y.getD j 0)).sum).sum

/-- Modelled from the spec: the native square `x.squared()`. -/
def FpExtT.squared [Field F] (E : FpExtT F) (x : List F) : List F :=
  E.mul x x

/-- The extension obtained by adjoining a `d`-th root of `non_residue`, in the
basis of the powers of that root. -/
def FpExtT.binomial [Field F] (d : Nat) (non_residue : F) : FpExtT F :=
  { degree := d
    structure_constant := fun i j k =>
      if i + j = k then 1 else if i + j = k + d then non_residue else 0 }

/-- Modelled from the spec: an extension-element variable, one base-field
variable per coordinate (template parameter `VarT`). -/
structure VarT where
  vars : List Nat

/-- Modelled from the spec: `VarT<FpExtT> x(bp)` allocates the coordinates. -/
def VarT.construct (E : FpExtT F) (bp : blueprint F) : VarT × blueprint F :=
  ({ vars := (bp.allocate E.degree).1 }, (bp.allocate E.degree).2)

/-- Modelled from the spec: `x.generate_r1cs_witness(el)` records the
coordinates of a concrete value. -/
def VarT.generate_r1cs_witness (x : VarT) (bp : blueprint F) (el : List F) : blueprint F :=
  bp.set_vals x.vars el

/-- Modelled from the spec: `x.get_element()` reads the coordinates. -/
def VarT.get_element (x : VarT) (bp : blueprint F) : List (Option F) :=
  bp.get_vals x.vars

/-- The coordinates read from a variable, zero where a value is lacking. -/
def VarT.coordinates [Zero F] (x : VarT) (bp : blueprint F) : List F :=
  (bp.get_vals x.vars).map fun o => o.getD 0

/-- The base-field multiplications of a product: every pair of coordinates. -/
def mul_pairs (d : Nat) : List (Nat × Nat) :=
  (List.range d).flatMap fun i => (List.range d).map fun j => (i, j)

/-- The base-field multiplications of a square: the pairs `(i, j)` with
`i ≤ j`, the product of coordinates `j` and `i` being that of `i` and `j`. -/
def sqr_pairs (d : Nat) : List (Nat × Nat) :=
  (List.range d).flatMap fun i => ((List.range d).filter fun j => i ≤ j).map fun j => (i, j)

/-- The coefficient of the product of coordinates `i ≤ j` of `x` in coordinate
`k` of the square of `x`. -/
def FpExtT.sqr_coefficient [Field F] (E : FpExtT F) (i j k : Nat) : F :=
  if i = j then E.structure_constant i i k
  else E.structure_constant i j k + E.structure_constant j i k

/-- Modelled from the spec: the base-field multiplications of the formula, one
constraint `A_i * B_j = product` per pair. -/
def product_constraints [Field F] (A B : VarT) (pairs : List (Nat × Nat))
    (products : List Nat) : List (r1cs_constraint F) :=
  (pairs.zip products).map fun q =>
    r1cs_constraint.product (A.vars.getD q.1.1 0) (B.vars.getD q.1.2 0) q.2

/-- Modelled from the spec: the combination of the products with the
coefficients of the formula for coordinate `k` of the result. -/
def product_combination [Field F] (coefficient : Nat → Nat → Nat → F)
    (pairs : List (Nat × Nat)) (products : List Nat) (k : Nat) : linear_combination F :=
  { terms := (pairs.zip products).map fun q => (coefficient q.1.1 q.1.2 k, q.2)
    constant := 0 }

/-- Modelled from the spec: the linear combination of the formula for
coordinate `k` of the result: the combination of the products, times one, is
`result_k`. -/
def linear_constraint [Field F] (coefficient : Nat → Nat → Nat → F)
    (pairs : List (Nat × Nat)) (products : List Nat) (result : VarT) (k : Nat) :
    r1cs_constraint F :=
  { a := product_combination coefficient pairs products k
    b := linear_combination.of_constant 1
    c := linear_combination.of_variable (result.vars.getD k 0) }

/-- Modelled from the spec: the linear combinations of the formula, one
constraint per coordinate of the result. -/
def linear_constraints [Field F] (coefficient : Nat → Nat → Nat → F)
    (pairs : List (Nat × Nat)) (products : List Nat) (result : VarT) (d : Nat) :
    List (r1cs_constraint F) :=
  (List.range d).map fun k => linear_constraint coefficient pairs products result k

/-- Modelled from the spec: the multiplication component (template parameter
`MulT`): its operands, its result and the variables of its base-field
products. -/
structure MulT (F : Type) where
  E : FpExtT F
  A : VarT
  B : VarT
  result : VarT
  products : List Nat

/-- Modelled from the spec: `MulT<FpExtT> mul(bp, x, y, xy)` allocates one
variable per base-field multiplication. -/
def MulT.construct (E : FpExtT F) (bp : blueprint F) (A B result : VarT) :
    MulT F × blueprint F :=
  ({ E := E, A := A, B := B, result := result,
     products := (bp.allocate (mul_pairs E.degree).length).1 },
    (bp.allocate (mul_pairs E.degree).length).2)

/-- Modelled from the spec: the constraint set implementing the tower's
multiplication formula, decomposed into base-field multiplications plus linear
combinations. -/
def MulT.constraints [Field F] (g : MulT F) : List (r1cs_constraint F) :=
  product_constraints g.A g.B (mul_pairs g.E.degree) g.products
    ++ linear_constraints g.E.structure_constant (mul_pairs g.E.degree) g.products g.result
      g.E.degree

/-- Modelled from the spec: the multiplication component emits its constraint
set. -/
def MulT.generate_r1cs_constraints [Field F] (g : MulT F) (bp : blueprint F) :
    blueprint F :=
  g.constraints.foldl blueprint.add_r1cs_constraint bp

/-- Modelled from the spec: the witness pass records the base-field products,
evaluates `x * y` via the field collaborator and records it in the result. -/
def MulT.generate_r1cs_witness [Field F] (g : MulT F) (bp : blueprint F) : blueprint F :=
  (bp.set_vals g.products
      ((mul_pairs g.E.degree).map fun p =>
        (g.A.coordinates bp).getD p.1 0 * (g.B.coordinates bp).getD p.2 0)).set_vals
    g.result.vars (g.E.mul (g.A.coordinates bp) (g.B.coordinates bp))

/-- Modelled from the spec: the squaring component (template parameter `SqrT`),
the specialization of multiplication with `x = y` using fewer base-field
multiplications. -/
structure SqrT (F : Type) where
  E : FpExtT F
  A : VarT
  result : VarT
  products : List Nat

/-- Modelled from the spec: `SqrT<FpExtT> sqr(bp, x, xsq)` allocates one
variable per base-field multiplication. -/
def SqrT.construct (E : FpExtT F) (bp : blueprint F) (A result : VarT) :
    SqrT F × blueprint F :=
  ({ E := E, A := A, result := result,
     products := (bp.allocate (sqr_pairs E.degree).length).1 },
    (bp.allocate (sqr_pairs E.degree).length).2)

/-- Modelled from the spec: the constraint set of the squaring component. -/
def SqrT.constraints [Field F] (g : SqrT F) : List (r1cs_constraint F) :=
  product_constraints g.A g.A (sqr_pairs g.E.degree) g.products
    ++ linear_constraints g.E.sqr_coefficient (sqr_pairs g.E.degree) g.products g.result
      g.E.degree

/-- Modelled from the spec: the squaring component emits its constraint set. -/
def SqrT.generate_r1cs_constraints [Field F] (g : SqrT F) (bp : blueprint F) :
    blueprint F :=
  g.constraints.foldl blueprint.add_r1cs_constraint bp

/-- Modelled from the spec: the witness pass records the base-field products,
evaluates `x.squared()` via the field collaborator and records it. -/
def SqrT.generate_r1cs_witness [Field F] (g : SqrT F) (bp : blueprint F) : blueprint F :=
  (bp.set_vals g.products
      ((sqr_pairs g.E.degree).map fun p =>
        (g.A.coordinates bp).getD p.1 0 * (g.A.coordinates bp).getD p.2 0)).set_vals
    g.result.vars (g.E.squared (g.A.coordinates bp))

/-- The test `test_mul`, up to its loop: a fresh blueprint, the variables `x`, `y`, `xy`,
the multiplication component and its constraints. Returns `x`, `y`, `xy`, the
component and the blueprint. -/
def test_mul_setup [Field F] (E : FpExtT F) :
    VarT × VarT × VarT × MulT F × blueprint F :=
  let x := VarT.construct E (blueprint.empty : blueprint F)
  let y := VarT.construct E x.2
  let xy := VarT.construct E y.2
  let mul := MulT.construct E xy.2 x.1 y.1 xy.1
  (x.1, y.1, xy.1, mul.1, mul.1.generate_r1cs_constraints mul.2)

/-- The test `test_mul`, one turn of its loop, entered with the assignment `a` (what the
earlier turns left): the witness passes of `x`, `y` and the multiplication
component. -/
def test_mul [Field F] (E : FpExtT F) (a : List (Option F)) (x_val y_val : List F) :
    blueprint F :=
  (test_mul_setup E).2.2.2.1.generate_r1cs_witness
    ((test_mul_setup E).2.1.generate_r1cs_witness
      ((test_mul_setup E).1.generate_r1cs_witness
        ((test_mul_setup E).2.2.2.2.with_values a) x_val) y_val)

/-- The test `test_sqr`, up to its loop: a fresh blueprint, the variables `x`, `xsq`, the
squaring component and its constraints. -/
def test_sqr_setup [Field F] (E : FpExtT F) : VarT × VarT × SqrT F × blueprint F :=
  let x := VarT.construct E (blueprint.empty : blueprint F)
  let xsq := VarT.construct E x.2
  let sqr := SqrT.construct E xsq.2 x.1 xsq.1
  (x.1, xsq.1, sqr.1, sqr.1.generate_r1cs_constraints sqr.2)

/-- The test `test_sqr`, one turn of its loop, entered with the assignment `a`: the
witness passes of `x` and the squaring component. -/
def test_sqr [Field F] (E : FpExtT F) (a : List (Option F)) (x_val : List F) :
    blueprint F :=
  (test_sqr_setup E).2.2.1.generate_r1cs_witness
    ((test_sqr_setup E).1.generate_r1cs_witness
      ((test_sqr_setup E).2.2.2.with_values a) x_val)

/-- Adding `delta` to the value of the variable `v`, every other variable left
as it is. -/
def blueprint.add_to_val [Add F] (bp : blueprint F) (v : Nat) (delta : F) : blueprint F :=
  match bp.val v with
  | some x => bp.set_val v (x + delta)
  | none => bp

/-- A small extension: the rationals with a square root of `-1` adjoined. -/
def small_extension : FpExtT ℚ :=
  FpExtT.binomial 2 (-1)

/-! ## The primary input of the verifier scenario

The scenario `test_verifier` (and `test_hardcoded_verifier`) of
`r1cs_ppzksnark_verifier_component.cpp` turns the primary input into bits and
stores them in freshly allocated variables. The two helpers it calls are
absent from the sources. -/

/-- Modelled from the spec: `convert_field_element_to_bit_vector(el, bitcount)`
gives the first `bitcount` bits of the integer representation `repr el` of the
element, least significant first. -/
def convert_field_element_to_bit_vector {A : Type} (repr : A → Nat) (el : A)
    (bitcount : Nat) : List Bool :=
  (List.range bitcount).map (fun i => (repr el).testBit i)

/-- Modelled from the spec: `fill_with_bits` stores one bit per variable, one
for a set bit and zero otherwise; a bit vector whose length is not the number
of variables is a construction error. -/
def fill_with_bits [Zero F] [One F] (vars : List Nat) (bp : blueprint F)
    (bits : List Bool) : Option (blueprint F) :=
  if bits.length = vars.length then
    some (bp.set_vals vars (bits.map (fun b => if b then 1 else 0)))
  else none

/-- The loop of `test_verifier` that builds `input_as_bits`: the bit vectors of
the elements of the primary input, each of `elt_size` bits, are inserted at the
end one after the other. -/
def input_as_bits {A : Type} (repr : A → Nat) (primary_input : List A) (elt_size : Nat) :
    List Bool :=
  primary_input.foldl
    (fun acc el => acc ++ convert_field_element_to_bit_vector repr el elt_size) []

/-- The part of `test_verifier` that concerns the primary input:
`primary_input_bits` is allocated with `elt_size * primary_input_size`
variables and filled with `input_as_bits`. -/
def test_verifier_primary_input {A : Type} [Zero F] [One F] (repr : A → Nat)
    (bp : blueprint F) (primary_input : List A) (primary_input_size elt_size : Nat) :
    Option (blueprint F) :=
  fill_with_bits (bp.allocate (elt_size * primary_input_size)).1
    (bp.allocate (elt_size * primary_input_size)).2
    (input_as_bits repr primary_input elt_size)

/-! ## The test of the disjunction component

The test `test_disjunction_component` of `basic_components.cpp`. The header
`basic_components.hpp` is absent, so the constructor of the component is a
parameter of the test. -/

/-- The body of the loop of `test_disjunction_component` for one `w`: input `j`
is set to bit `j` of `w`, the witness pass runs, and the three checks of the
test are evaluated in order: the output equals `w ? zero : zero`; the blueprint
is satisfied; and, once `w ? zero : zero` is assigned to the output, the
blueprint is not satisfied. The blueprint is returned as the body leaves it. -/
def test_disjunction_iteration [Zero F] [One F] [Add F] [Mul F] [DecidableEq F]
    (d : component F) (inputs : List Nat) (output : Nat) (bp : blueprint F) (w : Nat) :
    (Bool × Bool × Bool) × blueprint F :=
  ((decide ((d.generate_r1cs_witness
        (bp.set_vals inputs ((List.range inputs.length).map
          (fun j => if w.testBit j then (1 : F) else 0)))).val output
        = some (if w ≠ 0 then (0 : F) else 0)),
      (d.generate_r1cs_witness
        (bp.set_vals inputs ((List.range inputs.length).map
          (fun j => if w.testBit j then (1 : F) else 0)))).is_satisfied,
      !((d.generate_r1cs_witness
        (bp.set_vals inputs ((List.range inputs.length).map
          (fun j => if w.testBit j then (1 : F) else 0)))).set_val output
        (if w ≠ 0 then (0 : F) else 0)).is_satisfied),
    (d.generate_r1cs_witness
      (bp.set_vals inputs ((List.range inputs.length).map
        (fun j => if w.testBit j then (1 : F) else 0)))).set_val output
      (if w ≠ 0 then (0 : F) else 0))

/-- The loop of `test_disjunction_component` over the values `ws` of `w`, on
one blueprint that is carried from an iteration to the next: the checks of
every iteration. -/
def test_disjunction_loop [Zero F] [One F] [Add F] [Mul F] [DecidableEq F]
    (d : component F) (inputs : List Nat) (output : Nat) :
    blueprint F → List Nat → List (Bool × Bool × Bool)
  | _, [] => []
  | bp, w :: ws =>
    (test_disjunction_iteration d inputs output bp w).1
      :: test_disjunction_loop d inputs output
        (test_disjunction_iteration d inputs output bp w).2 ws

/-- The test `test_disjunction_component(n)`: `n` inputs and the output are
allocated on a fresh blueprint, the component is built on them and emits its
constraints, and the loop runs over `w = 0, ..., 2^n - 1`. The result is the
triple of checks of every iteration. -/
def test_disjunction_component [Zero F] [One F] [Add F] [Mul F] [DecidableEq F]
    (disjunction_component : blueprint F → List Nat → Nat → component F × blueprint F)
    (n : Nat) : List (Bool × Bool × Bool) :=
  let inputs := (blueprint.empty : blueprint F).allocate n
  let output := inputs.2.allocate 1
  let d := disjunction_component output.2 inputs.1 (output.1.headD 0)
  test_disjunction_loop d.1 inputs.1 (output.1.headD 0)
    (d.1.generate_r1cs_constraints d.2) (List.range (2 ^ n))

/-! ## Fixed-exponent exponentiation

The exponentiation component, its header and the test function
`test_exponentiation_component` are absent from the sources (only the two
calls of the test in `main` are there); what follows is modelled from the
specification of the component: a square-and-multiply ladder built from
squaring and multiplication components, processing the exponent bits from the
most to the least significant. -/

/-- Modelled from the spec: the public exponent is given as a limb sequence,
least significant limb first, each limb of `limb_bits` bits. -/
def exponent_of_limbs (limb_bits : Nat) (limbs : List Nat) : Nat :=
  limbs.foldr (fun l acc => l + 2 ^ limb_bits * acc) 0

/-- Modelled from the spec: the bits of the exponent, most significant first,
without leading zeros. -/
def exponent_bits (power : Nat) : List Bool :=
  (Nat.bits power).reverse

/-- Modelled from the spec: the steps of the ladder for the bits that follow
the leading one: one squaring per bit (`false`), followed by one
multiplication by the base (`true`) when the bit is set. -/
def ladder_ops (bits : List Bool) : List Bool :=
  bits.flatMap fun b => if b then [false, true] else [false]

/-- Modelled from the spec: the multiplicative identity of the extension, the
first basis element (the power with exponent zero). -/
def FpExtT.one [Field F] (E : FpExtT F) : List F :=
  (List.range E.degree).map fun k => if k = 0 then 1 else 0

/-- Modelled from the spec: the native power `x ^ n`, by repeated
multiplication by `x`. -/
def FpExtT.pow [Field F] (E : FpExtT F) (x : List F) : Nat → List F
  | 0 => E.one
  | n + 1 => if n = 0 then x else E.mul (E.pow x n) x

/-- Modelled from the spec: the value of one step of the ladder on the
accumulator `acc`: its square, or its product with the base `x`. -/
def FpExtT.ladder_step_value [Field F] (E : FpExtT F) (x : List F) (op : Bool)
    (acc : List F) : List F :=
  if op then E.mul acc x else E.squared acc

/-- Modelled from the spec: the witness values follow the ladder using the
field collaborator. -/
def FpExtT.ladder_value [Field F] (E : FpExtT F) (x : List F) (ops : List Bool)
    (acc : List F) : List F :=
  ops.foldl (fun a op => E.ladder_step_value x op a) acc

/-- The native product is associative on values of the extension. -/
def FpExtT.associative [Field F] (E : FpExtT F) : Prop :=
  ∀ x y z : List F, x.length = E.degree → y.length = E.degree → z.length = E.degree →
    E.mul (E.mul x y) z = E.mul x (E.mul y z)

/-- Modelled from the spec: one step of the ladder, a squaring or a
multiplication component. -/
inductive ladder_step (F : Type) where
  | sqr : SqrT F → ladder_step F
  | mul : MulT F → ladder_step F

/-- Modelled from the spec: the kind of a step, `true` for a multiplication
and `false` for a squaring. -/
def ladder_step.is_mul : ladder_step F → Bool
  | ladder_step.sqr _ => false
  | ladder_step.mul _ => true

/-- Modelled from the spec: the constraints of a step. -/
def ladder_step.constraints [Field F] : ladder_step F → List (r1cs_constraint F)
  | ladder_step.sqr g => g.constraints
  | ladder_step.mul g => g.constraints

/-- Modelled from the spec: the witness pass of a step. -/
def ladder_step.generate_r1cs_witness [Field F] : ladder_step F → blueprint F → blueprint F
  | ladder_step.sqr g, bp => g.generate_r1cs_witness bp
  | ladder_step.mul g, bp => g.generate_r1cs_witness bp

/-- Modelled from the spec: the step for `op` on the accumulator `acc`: a fresh
variable for its output, then the squaring component of `acc`, or the
multiplication component of `acc` and the base `elt`. Returns the step, its
output and the blueprint. -/
def ladder_step.construct (E : FpExtT F) (bp : blueprint F) (elt acc : VarT) (op : Bool) :
    ladder_step F × VarT × blueprint F :=
  if op then
    (ladder_step.mul (MulT.construct E (VarT.construct E bp).2 acc elt
        (VarT.construct E bp).1).1,
      (VarT.construct E bp).1,
      (MulT.construct E (VarT.construct E bp).2 acc elt (VarT.construct E bp).1).2)
  else
    (ladder_step.sqr (SqrT.construct E (VarT.construct E bp).2 acc (VarT.construct E bp).1).1,
      (VarT.construct E bp).1,
      (SqrT.construct E (VarT.construct E bp).2 acc (VarT.construct E bp).1).2)

/-- Modelled from the spec: the ladder for the steps `ops`, each step taking
the output of the step before it. Returns the steps, the output of the last
one (the accumulator itself when there is none) and the blueprint. -/
def build_ladder (E : FpExtT F) (elt : VarT) :
    List Bool → VarT → blueprint F → List (ladder_step F) × VarT × blueprint F
  | [], acc, bp => ([], acc, bp)
  | op :: ops, acc, bp =>
    ((ladder_step.construct E bp elt acc op).1
        :: (build_ladder E elt ops (ladder_step.construct E bp elt acc op).2.1
          (ladder_step.construct E bp elt acc op).2.2).1,
      (build_ladder E elt ops (ladder_step.construct E bp elt acc op).2.1
        (ladder_step.construct E bp elt acc op).2.2).2)

/-- Modelled from the spec: the exponentiation component: the base, the public
exponent, the steps of the ladder and the variable that holds the power. -/
structure exponentiation_component (F : Type) where
  elt : VarT
  power : Nat
  steps : List (ladder_step F)
  result : VarT

/-- Modelled from the spec: the constructor builds the ladder for the bits of
the exponent after the leading one, starting from the base itself (the leading
bit's multiplication by the base is implicit). -/
def exponentiation_component.construct (E : FpExtT F) (bp : blueprint F) (elt : VarT)
    (power : Nat) : exponentiation_component F × blueprint F :=
  ({ elt := elt, power := power,
     steps := (build_ladder E elt (ladder_ops (exponent_bits power).tail) elt bp).1,
     result := (build_ladder E elt (ladder_ops (exponent_bits power).tail) elt bp).2.1 },
    (build_ladder E elt (ladder_ops (exponent_bits power).tail) elt bp).2.2)

/-- Modelled from the spec: the component emits the constraints of its steps,
in order. -/
def exponentiation_component.generate_r1cs_constraints [Field F]
    (g : exponentiation_component F) (bp : blueprint F) : blueprint F :=
  (g.steps.flatMap ladder_step.constraints).foldl blueprint.add_r1cs_constraint bp

/-- Modelled from the spec: the witness pass runs the witness passes of the
steps, in order. -/
def exponentiation_component.generate_r1cs_witness [Field F]
    (g : exponentiation_component F) (bp : blueprint F) : blueprint F :=
  g.steps.foldl (fun b s => s.generate_r1cs_witness b) bp

/-- Modelled from the spec: the test of the exponentiation component, up to
its loop, in the shape of `test_sqr`: a fresh blueprint, the variable `x`, the
component for the exponent given by `limbs` and its constraints. -/
def test_exponentiation_setup [Field F] (E : FpExtT F) (limb_bits : Nat) (limbs : List Nat) :
    VarT × exponentiation_component F × blueprint F :=
  let x := VarT.construct E (blueprint.empty : blueprint F)
  let exp := exponentiation_component.construct E x.2 x.1 (exponent_of_limbs limb_bits limbs)
  (x.1, exp.1, exp.1.generate_r1cs_constraints exp.2)

/-- Modelled from the spec: one turn of the loop of the test, entered with the
assignment `a` (what the earlier turns left): the witness passes of `x` and of
the exponentiation component. -/
def test_exponentiation_component [Field F] (E : FpExtT F) (limb_bits : Nat)
    (limbs : List Nat) (a : List (Option F)) (x_val : List F) : blueprint F :=
  (test_exponentiation_setup E limb_bits limbs).2.1.generate_r1cs_witness
    ((test_exponentiation_setup E limb_bits limbs).1.generate_r1cs_witness
      ((test_exponentiation_setup E limb_bits limbs).2.2.with_values a) x_val)

/-! ## The Frobenius map

The test `test_Frobenius` of `r1cs_ppzksnark_verifier_component.cpp`. The
native fields and the header of the extension-element variables are absent
from the sources; the Frobenius map of a variable and the native one are
modelled from the specification, for the extension obtained by adjoining a
`d`-th root of a non-residue to the prime field of characteristic `p`. -/

/-- Modelled from the spec: the native Frobenius map: the element raised to
the field's characteristic `p` to the power `power`. -/
def FpExtT.Frobenius_map [Field F] (E : FpExtT F) (p : Nat) (x : List F) (power : Nat) :
    List F :=
  E.pow x (p ^ power)

/-- Modelled from the spec: the constant coefficient of coordinate `k` in the
Frobenius map to the power `power`. -/
def Frobenius_coefficient [Field F] (p d : Nat) (non_residue : F) (power k : Nat) : F :=
  non_residue ^ (k * ((p ^ power - 1) / d))

/-- Modelled from the spec: an extension-element variable whose coordinates
are linear combinations of variables of the blueprint rather than variables
of their own. -/
structure VarT_combination (F : Type) where
  coordinates : List (linear_combination F)

/-- Modelled from the spec: `x.Frobenius_map(power)` produces, without any
constraint, the variable whose coordinates are constant-coefficient linear
combinations of the coordinates of `x`. -/
def VarT.Frobenius_map [Field F] (x : VarT) (p d : Nat) (non_residue : F) (power : Nat) :
    VarT_combination F :=
  { coordinates := (List.range d).map fun k =>
      { terms := [(Frobenius_coefficient p d non_residue power k, x.vars.getD k 0)]
        constant := 0 } }

/-- Modelled from the spec: `evaluate()` followed by `get_element()`: the
values of the coordinates under the current assignment. -/
def VarT_combination.get_element [Add F] [Mul F] (y : VarT_combination F)
    (bp : blueprint F) : List (Option F) :=
  y.coordinates.map fun l => l.evaluate bp.values

/-- The test `test_Frobenius`, one turn of its loop: a fresh blueprint, the
variable `x`, the variable `x_frob = x.Frobenius_map(i)`, the witness pass of
`x` on `x_val` and the evaluation of `x_frob`. Returns the element read from
`x_frob` and the blueprint. -/
def test_Frobenius [Field F] (p d : Nat) (non_residue : F) (i : Nat) (x_val : List F) :
    List (Option F) × blueprint F :=
  let x := VarT.construct (FpExtT.binomial d non_residue) (blueprint.empty : blueprint F)
  let x_frob := x.1.Frobenius_map p d non_residue i
  let bp := x.1.generate_r1cs_witness x.2 x_val
  (x_frob.get_element bp, bp)

/-! ## Frame lemmas of the substrate -/

theorem blueprint.val_set_val (bp : blueprint F) (w v : Nat) (x : F) :
    (bp.set_val w x).val v = if v = w ∧ v < bp.values.length then some x else bp.val v := by
  unfold blueprint.val blueprint.set_val
  simp only [List.getD_eq_getElem?_getD, List.getElem?_set]
  by_cases h : w = v
  · subst h
    by_cases h2 : w < bp.values.length
    · simp [h2]
    · simp [h2, List.getElem?_eq_none (Nat.le_of_not_lt h2)]
  · have h3 : ¬ v = w := fun e => h e.symm
    simp [h, h3]

theorem blueprint.length_set_val (bp : blueprint F) (w : Nat) (x : F) :
    (bp.set_val w x).values.length = bp.values.length := by
  simp [blueprint.set_val]

theorem blueprint.val_foldl_set_val (f : Nat → F) (ws : List Nat)
    (bp : blueprint F) (v : Nat) :
    (ws.foldl (fun b w => b.set_val w (f w)) bp).val v
      = if v ∈ ws ∧ v < bp.values.length then some (f v) else bp.val v := by
  induction ws generalizing bp with
  | nil => simp
  | cons w ws ih =>
    rw [List.foldl_cons, ih, blueprint.length_set_val, blueprint.val_set_val]
    by_cases hv : v < bp.values.length
    · by_cases h1 : v ∈ ws
      · simp [h1, hv]
      · by_cases h2 : v = w
        · subst h2; simp [hv]
        · simp [h1, h2]
    · simp [hv]

theorem blueprint.foldl_set_val_frame (f : Nat → F) (ws : List Nat)
    (bp : blueprint F) :
    (ws.foldl (fun b w => b.set_val w (f w)) bp).constraints = bp.constraints ∧
    (ws.foldl (fun b w => b.set_val w (f w)) bp).values.length = bp.values.length := by
  induction ws generalizing bp with
  | nil => simp
  | cons w ws ih =>
    rw [List.foldl_cons]
    refine ⟨(ih _).1, ?_⟩
    rw [(ih _).2, blueprint.length_set_val]

theorem component.val_generate_r1cs_witness (c : component F) (bp : blueprint F)
    (v : Nat) :
    (c.generate_r1cs_witness bp).val v
      = if v ∈ c.writes ∧ v < bp.values.length
        then some (c.compute (bp.get_vals c.reads) v) else bp.val v :=
  blueprint.val_foldl_set_val _ _ _ _

theorem component.constraints_generate_r1cs_witness (c : component F) (bp : blueprint F) :
    (c.generate_r1cs_witness bp).constraints = bp.constraints :=
  (blueprint.foldl_set_val_frame _ _ _).1

theorem component.length_generate_r1cs_witness (c : component F) (bp : blueprint F) :
    (c.generate_r1cs_witness bp).values.length = bp.values.length :=
  (blueprint.foldl_set_val_frame _ _ _).2

theorem component.generate_r1cs_constraints_eq (c : component F) (bp : blueprint F) :
    c.generate_r1cs_constraints bp
      = { values := bp.values, constraints := bp.constraints ++ c.constraints } := by
  unfold component.generate_r1cs_constraints
  generalize c.constraints = ks
  induction ks generalizing bp with
  | nil => simp
  | cons k ks ih => rw [List.foldl_cons, ih]; simp [blueprint.add_r1cs_constraint]

theorem linear_combination.evaluate_congr [Add F] [Mul F] (l : linear_combination F)
    (a b : List (Option F)) (h : ∀ v ∈ l.vars, a.getD v none = b.getD v none) :
    l.evaluate a = l.evaluate b := by
  unfold linear_combination.evaluate
  unfold linear_combination.vars at h
  generalize l.terms = ts at h
  induction ts with
  | nil => rfl
  | cons t ts ih =>
    rw [List.foldr_cons, List.foldr_cons, ih (fun v hv => h v (by simp [hv])),
      h t.2 (by simp)]

theorem r1cs_constraint.is_satisfied_congr [Add F] [Mul F] [DecidableEq F]
    (k : r1cs_constraint F) (a b : List (Option F))
    (h : ∀ v ∈ k.vars, a.getD v none = b.getD v none) :
    k.is_satisfied a = k.is_satisfied b := by
  unfold r1cs_constraint.is_satisfied
  unfold r1cs_constraint.vars at h
  rw [k.a.evaluate_congr a b (fun v hv => h v (by simp [hv])),
    k.b.evaluate_congr a b (fun v hv => h v (by simp [hv])),
    k.c.evaluate_congr a b (fun v hv => h v (by simp [hv]))]

/-- A witness pass leaves satisfied every constraint none of whose variables
it writes. -/
theorem component.is_satisfied_frame [Add F] [Mul F] [DecidableEq F] (c : component F)
    (bp : blueprint F) (k : r1cs_constraint F) (h : ∀ v ∈ k.vars, v ∉ c.writes) :
    k.is_satisfied (c.generate_r1cs_witness bp).values = k.is_satisfied bp.values := by
  apply r1cs_constraint.is_satisfied_congr
  intro v hv
  have := c.val_generate_r1cs_witness bp v
  simp only [blueprint.val] at this
  rw [this, if_neg (fun hh => h v hv hh.1)]

end snark

namespace snark

variable {F K : Type}

/-! ## Composition of two components -/

/-- A blueprint whose constraints are prior ones followed by those of a first
and of a second component is satisfied after the two witness passes, run in
that order, when neither pass writes a variable of the prior constraints and
the second writes no variable of the constraints of the first. -/
theorem two_stage_is_satisfied [Add F] [Mul F] [DecidableEq F] (c1 c2 : component F)
    (b : blueprint F) (prior : List (r1cs_constraint F))
    (hcs : b.constraints = prior ++ c1.constraints ++ c2.constraints)
    (hprior : ∀ k ∈ prior, k.is_satisfied b.values = true ∧
      ∀ v ∈ k.vars, v ∉ c1.writes ∧ v ∉ c2.writes)
    (h1 : ∀ k ∈ c1.constraints, k.is_satisfied (c1.generate_r1cs_witness b).values = true)
    (h1f : ∀ k ∈ c1.constraints, ∀ v ∈ k.vars, v ∉ c2.writes)
    (h2 : ∀ k ∈ c2.constraints,
      k.is_satisfied (c2.generate_r1cs_witness (c1.generate_r1cs_witness b)).values = true) :
    (c2.generate_r1cs_witness (c1.generate_r1cs_witness b)).is_satisfied = true := by
  unfold blueprint.is_satisfied
  rw [List.all_eq_true]
  intro k hk
  rw [component.constraints_generate_r1cs_witness, component.constraints_generate_r1cs_witness,
    hcs] at hk
  simp only [List.mem_append] at hk
  rcases hk with (hk | hk) | hk
  · rw [component.is_satisfied_frame c2 _ k (fun v hv => ((hprior k hk).2 v hv).2),
      component.is_satisfied_frame c1 _ k (fun v hv => ((hprior k hk).2 v hv).1)]
    exact (hprior k hk).1
  · rw [component.is_satisfied_frame c2 _ k (h1f k hk)]
    exact h1 k hk
  · exact h2 k hk

/-- A witness pass leaves the values of the variables it does not write. -/
theorem component.holds_frame (c : component F) (bp : blueprint F)
    (vs : List Nat) (xs : List F) (h : ∀ v ∈ vs, v ∉ c.writes)
    (hb : bp.holds vs xs) : (c.generate_r1cs_witness bp).holds vs xs := by
  unfold blueprint.holds blueprint.get_vals at *
  rw [← hb]
  apply List.map_congr_left
  intro v hv
  rw [c.val_generate_r1cs_witness, if_neg (fun hh => h v hv hh.1)]

/-- The final exponentiation of a ratio is one exactly when the final
exponentiations of numerator and denominator agree. -/
theorem final_exponentiation_ratio [Field K] (C : CurveType F K) (x y : K) (hy : y ≠ 0) :
    C.final_exponentiation (x * y⁻¹) = 1 ↔ C.final_exponentiation x = C.final_exponentiation y := by
  unfold CurveType.final_exponentiation
  rw [mul_pow, inv_pow, mul_inv_eq_one₀ (pow_ne_zero _ hy)]

end snark

namespace snark

variable {F K : Type}

/-- The two passes of a pairing check, whichever Miller loop `M` it owns: once
the Miller pass has left the value `r` in `ratio` and satisfied its own
constraints, the final-exponentiation pass keeps both, satisfies its own
constraints and sets `result` from `r`. -/
theorem pairing_check_run [Field F] [DecidableEq F] [Field K] [DecidableEq K]
    (C : CurveType F K) (M : component F) (ratio : Fqk_variable)
    (result : Nat) (ins auxM auxF : List Nat) (b : blueprint F)
    (prior : List (r1cs_constraint F)) (n0 l1 l2 : Nat) (r : K)
    (hcs : b.constraints = prior ++ M.constraints
      ++ (C.final_exp ratio result auxF).constraints)
    (hratio : ∀ v ∈ ratio.vars, n0 ≤ v ∧ v < l1)
    (hauxM : ∀ v ∈ auxM, l1 ≤ v ∧ v < l2)
    (hauxF : ∀ v ∈ auxF, l2 ≤ v)
    (h01 : n0 ≤ l1) (h12 : l1 ≤ l2)
    (hMr : M.respects ins ratio.vars auxM)
    (hins : ∀ v ∈ ins, v < n0 ∧ v ≠ result)
    (hres : result < n0)
    (hprior : ∀ k ∈ prior, (∀ v ∈ k.vars, v < n0 ∧ v ≠ result) ∧
      k.is_satisfied b.values = true)
    (hM : (M.generate_r1cs_witness b).holds ratio.vars (C.Fqk_coordinates r) ∧
      ∀ k ∈ M.constraints, k.is_satisfied (M.generate_r1cs_witness b).values = true)
    (hF : final_exp_contract C ratio result auxF b.values.length) (hr : r ≠ 0) :
    ((C.final_exp ratio result auxF).generate_r1cs_witness
      (M.generate_r1cs_witness b)).is_satisfied = true ∧
    ((C.final_exp ratio result auxF).generate_r1cs_witness
      (M.generate_r1cs_witness b)).holds ratio.vars (C.Fqk_coordinates r) ∧
    ((C.final_exp ratio result auxF).generate_r1cs_witness
      (M.generate_r1cs_witness b)).val result
      = some (if C.final_exponentiation r = 1 then 1 else 0) := by
  obtain ⟨_, _, hMw, hMc⟩ := hMr
  obtain ⟨⟨_, _, hFw, _⟩, hFs⟩ := hF
  have hFw2 : ∀ v ∈ (C.final_exp ratio result auxF).writes, v = result ∨ l2 ≤ v := by
    intro v hv
    rcases hFw v hv with h | h
    · left; simpa using h
    · right; exact hauxF v h
  have hF2 := hFs (M.generate_r1cs_witness b) r (M.length_generate_r1cs_witness b) hM.1 hr
  refine ⟨?_, ?_, hF2.1⟩
  · apply two_stage_is_satisfied M _ b prior hcs
    · intro k hk
      refine ⟨(hprior k hk).2, fun v hv => ⟨fun hw => ?_, fun hw => ?_⟩⟩
      · have h3 := (hprior k hk).1 v hv
        rcases hMw v hw with h | h
        · have h4 := hratio v h; omega
        · have h4 := hauxM v h; omega
      · have h3 := (hprior k hk).1 v hv
        rcases hFw2 v hw with h | h
        · exact h3.2 h
        · omega
    · exact hM.2
    · intro k hk v hv hw
      rcases hMc k hk v hv with h | h | h
      · have h3 := hins v h
        rcases hFw2 v hw with h2 | h2
        · exact h3.2 h2
        · omega
      · have h3 := hratio v h
        rcases hFw2 v hw with h2 | h2 <;> omega
      · have h3 := hauxM v h
        rcases hFw2 v hw with h2 | h2 <;> omega
    · exact hF2.2
  · apply component.holds_frame _ _ _ _ _ hM.1
    intro v hv hw
    have h3 := hratio v hv
    rcases hFw2 v hw with h2 | h2 <;> omega

end snark

namespace snark

variable {F K : Type}

theorem mem_range_bounds {s n v : Nat} (h : v ∈ List.range' s n) : s ≤ v ∧ v < s + n := by
  simpa [List.mem_range'_1] using h

/-- What `check_e_equals_e_component` leaves on the blueprint after both of its
phases: every constraint satisfied, the Miller ratio of the left-hand pair over
the right-hand pair in `ratio`, and in `result` the flag of its final
exponentiation. -/
theorem check_e_equals_e_run [Field F] [DecidableEq F] [Field K] [DecidableEq K]
    (C : CurveType F K) (bp : blueprint F)
    (lhs_G1 : G1_precomputation) (lhs_G2 : G2_precomputation)
    (rhs_G1 : G1_precomputation) (rhs_G2 : G2_precomputation)
    (result : Nat) (a : List (Option F)) (P1 Q1 P2 Q2 : List F)
    (hin : ∀ v ∈ lhs_G1.vars ++ lhs_G2.vars ++ rhs_G1.vars ++ rhs_G2.vars,
      v < bp.num_variables ∧ v ≠ result)
    (hres : result < bp.num_variables)
    (hM : e_over_e_miller_loop_contract C lhs_G1 lhs_G2 rhs_G1 rhs_G2
      { vars := List.range' bp.num_variables C.Fqk_size }
      (List.range' (bp.num_variables + C.Fqk_size) C.e_over_e_aux)
      (bp.num_variables + C.Fqk_size + C.e_over_e_aux + C.final_exp_aux))
    (hF : final_exp_contract C { vars := List.range' bp.num_variables C.Fqk_size } result
      (List.range' (bp.num_variables + C.Fqk_size + C.e_over_e_aux) C.final_exp_aux)
      (bp.num_variables + C.Fqk_size + C.e_over_e_aux + C.final_exp_aux))
    (hprior : ∀ k ∈ bp.constraints, (∀ v ∈ k.vars, v < bp.num_variables ∧ v ≠ result) ∧
      k.is_satisfied a = true)
    (ha : a.length = bp.num_variables + C.Fqk_size + C.e_over_e_aux + C.final_exp_aux)
    (hP1 : (blueprint.with_values bp a).holds lhs_G1.vars P1)
    (hQ1 : (blueprint.with_values bp a).holds lhs_G2.vars Q1)
    (hP2 : (blueprint.with_values bp a).holds rhs_G1.vars P2)
    (hQ2 : (blueprint.with_values bp a).holds rhs_G2.vars Q2)
    (hm1 : C.affine_ate_miller_loop P1 Q1 ≠ 0) (hm2 : C.affine_ate_miller_loop P2 Q2 ≠ 0) :
    (check_e_equals_e_component.run C bp lhs_G1 lhs_G2 rhs_G1 rhs_G2 result a).is_satisfied
      = true ∧
    (check_e_equals_e_component.run C bp lhs_G1 lhs_G2 rhs_G1 rhs_G2 result a).holds
      (check_e_equals_e_component.construct C bp lhs_G1 lhs_G2 rhs_G1 rhs_G2
        result).1.ratio.vars
      (C.Fqk_coordinates
        (C.affine_ate_miller_loop P1 Q1 * (C.affine_ate_miller_loop P2 Q2)⁻¹)) ∧
    (check_e_equals_e_component.run C bp lhs_G1 lhs_G2 rhs_G1 rhs_G2 result a).val result
      = some (if C.final_exponentiation
          (C.affine_ate_miller_loop P1 Q1 * (C.affine_ate_miller_loop P2 Q2)⁻¹) = 1
        then 1 else 0) := by
  simp only [check_e_equals_e_component.run, check_e_equals_e_component.construct, check_e_equals_e_component.generate_r1cs_witness,
    check_e_equals_e_component.generate_r1cs_constraints, Fqk_variable.construct,
    e_over_e_miller_loop_component, final_exp_component, blueprint.allocate,
    component.generate_r1cs_constraints_eq, blueprint.with_values, List.length_append,
    List.length_replicate, blueprint.num_variables] at *
  have hb : ∀ vs, (blueprint.mk a bp.constraints).get_vals vs
      = (blueprint.mk a (bp.constraints
        ++ (C.e_over_e_miller_loop lhs_G1 lhs_G2 rhs_G1 rhs_G2
            { vars := List.range' bp.values.length C.Fqk_size }
            (List.range' (bp.values.length + C.Fqk_size) C.e_over_e_aux)).constraints
        ++ (C.final_exp { vars := List.range' bp.values.length C.Fqk_size } result
            (List.range' (bp.values.length + C.Fqk_size + C.e_over_e_aux)
              C.final_exp_aux)).constraints)).get_vals vs := fun vs => rfl
  unfold blueprint.holds at hP1 hQ1 hP2 hQ2
  rw [hb] at hP1 hQ1 hP2 hQ2
  have hmr : C.affine_ate_miller_loop P1 Q1 * (C.affine_ate_miller_loop P2 Q2)⁻¹ ≠ 0 :=
    mul_ne_zero hm1 (inv_ne_zero hm2)
  exact pairing_check_run C _ _ result _ _ _ _ bp.constraints bp.values.length
    (bp.values.length + C.Fqk_size) (bp.values.length + C.Fqk_size + C.e_over_e_aux) _
    rfl
    (fun v hv => mem_range_bounds hv)
    (fun v hv => mem_range_bounds hv)
    (fun v hv => (mem_range_bounds hv).1)
    (Nat.le_add_right _ _) (Nat.le_add_right _ _)
    hM.1 hin hres hprior
    (hM.2 _ P1 Q1 P2 Q2 ha hP1 hQ1 hP2 hQ2 hm1 hm2)
    (by rw [show (blueprint.mk a _).values.length = a.length from rfl, ha]; exact hF) hmr

end snark

namespace snark

/-! ## The small instance meets the contracts -/

theorem list_length_nine {α : Type} (l : List α) (h : l.length = 9) :
    ∃ a0 a1 a2 a3 a4 a5 a6 a7 a8, l = [a0, a1, a2, a3, a4, a5, a6, a7, a8] := by
  match l, h with
  | [a0, a1, a2, a3, a4, a5, a6, a7, a8], _ => exact ⟨_, _, _, _, _, _, _, _, _, rfl⟩

theorem singleton_eq_map_some {α : Type} {a : Option α} {xs : List α}
    (h : [a] = List.map some xs) : ∃ x, xs = [x] ∧ a = some x := by
  match xs, h with
  | [x], h => exact ⟨x, rfl, by simpa using h⟩

theorem small_e_over_e_contract :
    e_over_e_miller_loop_contract small_curve { vars := [0] } { vars := [1] }
      { vars := [2] } { vars := [3] } { vars := [5] } [6, 7] 9 := by
  refine ⟨?_, ?_⟩
  · simp [component.respects, small_curve, small_e_over_e, r1cs_constraint.vars,
      r1cs_constraint.product, linear_combination.vars, linear_combination.of_variable]
  · intro b x1 y1 x2 y2 hlen h1 h2 h3 h4 hm1 hm2
    obtain ⟨vals, cs⟩ := b
    obtain ⟨a0, a1, a2, a3, a4, a5, a6, a7, a8, rfl⟩ := list_length_nine vals hlen
    simp only [blueprint.holds, blueprint.get_vals, blueprint.val, List.map_cons, List.map_nil,
      List.getD_cons_zero, List.getD_cons_succ] at h1 h2 h3 h4
    obtain ⟨u1, rfl, rfl⟩ := singleton_eq_map_some h1
    obtain ⟨v1, rfl, rfl⟩ := singleton_eq_map_some h2
    obtain ⟨u2, rfl, rfl⟩ := singleton_eq_map_some h3
    obtain ⟨v2, rfl, rfl⟩ := singleton_eq_map_some h4
    simp [small_curve] at hm1 hm2
    simp only [small_curve, small_e_over_e, small_final_exp, small_e_times_e_over_e,
      component.generate_r1cs_witness, blueprint.set_val,
      blueprint.holds, blueprint.get_vals, blueprint.val, read_at,
      r1cs_constraint.is_satisfied, r1cs_constraint.product, linear_combination.evaluate,
      linear_combination.of_variable, linear_combination.of_constant,
      List.getD_cons_succ, List.getD_cons_zero, List.getD_nil,
      List.set_cons_succ, List.set_cons_zero, List.foldl_cons, List.foldl_nil,
      List.foldr_cons, List.foldr_nil, List.map_cons, List.map_nil, List.cons_append,
      List.nil_append, List.mem_cons, List.mem_singleton, forall_eq_or_imp, forall_eq,
      Option.getD_some, Option.getD_none, List.not_mem_nil]
    obtain ⟨hu2, hv2⟩ := hm2
    norm_num
    field_simp
    exact Or.inl (mul_comm _ _)

end snark

namespace snark

variable {F K : Type}

theorem small_final_exp_contract :
    final_exp_contract small_curve { vars := [5] } 4 [8] 9 := by
  refine ⟨?_, ?_⟩
  · simp [component.respects, small_curve, small_final_exp, r1cs_constraint.vars,
      r1cs_constraint.product, linear_combination.vars, linear_combination.of_variable,
      linear_combination.of_constant]
  · intro b x hlen h1 hx
    obtain ⟨vals, cs⟩ := b
    obtain ⟨a0, a1, a2, a3, a4, a5, a6, a7, a8, rfl⟩ := list_length_nine vals hlen
    simp only [blueprint.holds, blueprint.get_vals, blueprint.val, List.map_cons, List.map_nil,
      List.getD_cons_zero, List.getD_cons_succ, small_curve] at h1
    obtain rfl : a5 = some x := by simpa using h1
    simp only [small_curve, small_e_over_e, small_final_exp, small_e_times_e_over_e,
      CurveType.final_exponentiation,
      component.generate_r1cs_witness, blueprint.set_val,
      blueprint.holds, blueprint.get_vals, blueprint.val, read_at,
      r1cs_constraint.is_satisfied, r1cs_constraint.product, linear_combination.evaluate,
      linear_combination.of_variable, linear_combination.of_constant,
      List.getD_cons_succ, List.getD_cons_zero, List.getD_nil,
      List.set_cons_succ, List.set_cons_zero, List.foldl_cons, List.foldl_nil,
      List.foldr_cons, List.foldr_nil, List.map_cons, List.map_nil, List.cons_append,
      List.nil_append, List.mem_cons, List.mem_singleton, forall_eq_or_imp, forall_eq,
      Option.getD_some, Option.getD_none, List.not_mem_nil]
    simp only [pow_two]
    by_cases h : x * x = 1
    · simp [h]
    · simp [h]

/-- The flag written by the final exponentiation is one exactly when the final
exponentiation is the identity. -/
theorem flag_eq_one_iff [Field F] [DecidableEq K] [One K] (p : K) :
    (some (if p = 1 then (1 : F) else 0) = some 1) ↔ p = 1 := by
  by_cases h : p = 1
  · simp [h]
  · simp [h]

/-- C1. `check_e_equals_e_component`: in every setting of the component (any
blueprint it is built on, any assignment in which the four precomputations hold
native precomputations `P1, Q1, P2, Q2`), after `generate_r1cs_constraints` and
`generate_r1cs_witness` the blueprint is satisfied, `result` is 1 if and only if
`e(P1,Q1) = e(P2,Q2)`, where `e` is the final exponentiation of the Miller loop,
and the ratio variable handed to the final exponentiation holds the Miller
value of `(lhs_G1, lhs_G2)` over that of `(rhs_G1, rhs_G2)`. -/
theorem check_e_equals_e_correct [Field F] [DecidableEq F] [Field K] [DecidableEq K]
    (C : CurveType F K) (bp : blueprint F)
    (lhs_G1 : G1_precomputation) (lhs_G2 : G2_precomputation)
    (rhs_G1 : G1_precomputation) (rhs_G2 : G2_precomputation)
    (result : Nat) (a : List (Option F)) (P1 Q1 P2 Q2 : List F)
    (h : check_e_equals_e_component.setting C bp lhs_G1 lhs_G2 rhs_G1 rhs_G2 result a
      P1 Q1 P2 Q2) :
    (check_e_equals_e_component.run C bp lhs_G1 lhs_G2 rhs_G1 rhs_G2 result a).is_satisfied
      = true ∧
    ((check_e_equals_e_component.run C bp lhs_G1 lhs_G2 rhs_G1 rhs_G2 result a).val result
        = some 1 ↔ C.reduced_pairing P1 Q1 = C.reduced_pairing P2 Q2) ∧
    (check_e_equals_e_component.run C bp lhs_G1 lhs_G2 rhs_G1 rhs_G2 result a).holds
      (check_e_equals_e_component.construct C bp lhs_G1 lhs_G2 rhs_G1 rhs_G2
        result).1.ratio.vars
      (C.Fqk_coordinates
        (C.affine_ate_miller_loop P1 Q1 * (C.affine_ate_miller_loop P2 Q2)⁻¹)) := by
  obtain ⟨h1, h2, h3⟩ := check_e_equals_e_run C bp lhs_G1 lhs_G2 rhs_G1 rhs_G2 result a
    P1 Q1 P2 Q2 h.inputs_allocated h.result_allocated h.miller_loop h.final_exp
    h.earlier_constraints h.assignment_size h.holds_lhs_G1 h.holds_lhs_G2 h.holds_rhs_G1
    h.holds_rhs_G2 h.miller_lhs_invertible h.miller_rhs_invertible
  refine ⟨h1, ?_, h2⟩
  rw [h3, flag_eq_one_iff, final_exponentiation_ratio C _ _ h.miller_rhs_invertible]
  rfl

/-- The small instance is a setting of `check_e_equals_e_component`, whatever
the values of the four precomputations, provided they are invertible and the
earlier constraint holds. -/
theorem small_setting (x1 y1 x2 y2 : ℚ) (h0 : x1 * x1 = x1) (hx1 : x1 ≠ 0) (hy1 : y1 ≠ 0)
    (hx2 : x2 ≠ 0) (hy2 : y2 ≠ 0) :
    check_e_equals_e_component.setting small_curve small_blueprint { vars := [0] }
      { vars := [1] } { vars := [2] } { vars := [3] } 4
      [some x1, some y1, some x2, some y2, none, none, none, none, none]
      [x1] [y1] [x2] [y2] where
  inputs_allocated := by simp [small_blueprint, blueprint.num_variables]
  result_allocated := by simp [small_blueprint, blueprint.num_variables]
  miller_loop := small_e_over_e_contract
  final_exp := small_final_exp_contract
  earlier_constraints := by
    simp only [small_blueprint, r1cs_constraint.is_satisfied,
      r1cs_constraint.product, r1cs_constraint.vars, linear_combination.vars,
      linear_combination.evaluate, linear_combination.of_variable,
      blueprint.num_variables, List.mem_singleton, forall_eq, List.foldr_cons,
      List.foldr_nil, List.getD_cons_zero, List.map_cons, List.map_nil, List.cons_append,
      List.nil_append, List.length_cons, List.length_nil, List.mem_cons, forall_eq_or_imp,
      List.not_mem_nil]
    norm_num
    exact h0
  assignment_size := rfl
  holds_lhs_G1 := rfl
  holds_lhs_G2 := rfl
  holds_rhs_G1 := rfl
  holds_rhs_G2 := rfl
  miller_lhs_invertible := by simp [small_curve, hx1, hy1]
  miller_rhs_invertible := by simp [small_curve, hx2, hy2]

/-- The small instance, on an assignment on which the two pairings agree: the
blueprint is satisfied and the result is 1. -/
theorem check_e_equals_e_correct_witness :
    (check_e_equals_e_component.run small_curve small_blueprint { vars := [0] } { vars := [1] }
        { vars := [2] } { vars := [3] } 4 small_assignment).is_satisfied = true ∧
    ((check_e_equals_e_component.run small_curve small_blueprint { vars := [0] } { vars := [1] }
        { vars := [2] } { vars := [3] } 4 small_assignment).val 4 = some 1 ↔
      small_curve.reduced_pairing [1] [6] = small_curve.reduced_pairing [2] [3]) ∧
    (check_e_equals_e_component.run small_curve small_blueprint { vars := [0] } { vars := [1] }
        { vars := [2] } { vars := [3] } 4 small_assignment).holds
      (check_e_equals_e_component.construct small_curve small_blueprint { vars := [0] }
        { vars := [1] } { vars := [2] } { vars := [3] } 4).1.ratio.vars
      (small_curve.Fqk_coordinates
        (small_curve.affine_ate_miller_loop [1] [6]
          * (small_curve.affine_ate_miller_loop [2] [3])⁻¹)) :=
  check_e_equals_e_correct small_curve small_blueprint { vars := [0] } { vars := [1] }
    { vars := [2] } { vars := [3] } 4 small_assignment [1] [6] [2] [3]
    (small_setting 1 6 2 3 (by norm_num) (by norm_num) (by norm_num) (by norm_num)
      (by norm_num))

end snark

namespace snark

variable {F K : Type}

/-- What `check_e_equals_ee_component` leaves on the blueprint after both of
its phases: every constraint satisfied, in `ratio` the product of the Miller
values of the two right-hand pairs over that of the left-hand pair, and in
`result` the flag of its final exponentiation. -/
theorem check_e_equals_ee_run [Field F] [DecidableEq F] [Field K] [DecidableEq K]
    (C : CurveType F K) (bp : blueprint F)
    (lhs_G1 : G1_precomputation) (lhs_G2 : G2_precomputation)
    (rhs1_G1 : G1_precomputation) (rhs1_G2 : G2_precomputation)
    (rhs2_G1 : G1_precomputation) (rhs2_G2 : G2_precomputation)
    (result : Nat) (a : List (Option F)) (P1 Q1 P2 Q2 P3 Q3 : List F)
    (hin : ∀ v ∈ lhs_G1.vars ++ lhs_G2.vars ++ rhs1_G1.vars ++ rhs1_G2.vars ++ rhs2_G1.vars
      ++ rhs2_G2.vars, v < bp.num_variables ∧ v ≠ result)
    (hres : result < bp.num_variables)
    (hM : e_times_e_over_e_miller_loop_contract C rhs1_G1 rhs1_G2 rhs2_G1 rhs2_G2 lhs_G1 lhs_G2
      { vars := List.range' bp.num_variables C.Fqk_size }
      (List.range' (bp.num_variables + C.Fqk_size) C.e_times_e_over_e_aux)
      (bp.num_variables + C.Fqk_size + C.e_times_e_over_e_aux + C.final_exp_aux))
    (hF : final_exp_contract C { vars := List.range' bp.num_variables C.Fqk_size } result
      (List.range' (bp.num_variables + C.Fqk_size + C.e_times_e_over_e_aux) C.final_exp_aux)
      (bp.num_variables + C.Fqk_size + C.e_times_e_over_e_aux + C.final_exp_aux))
    (hprior : ∀ k ∈ bp.constraints, (∀ v ∈ k.vars, v < bp.num_variables ∧ v ≠ result) ∧
      k.is_satisfied a = true)
    (ha : a.length = bp.num_variables + C.Fqk_size + C.e_times_e_over_e_aux + C.final_exp_aux)
    (hP1 : (blueprint.with_values bp a).holds lhs_G1.vars P1)
    (hQ1 : (blueprint.with_values bp a).holds lhs_G2.vars Q1)
    (hP2 : (blueprint.with_values bp a).holds rhs1_G1.vars P2)
    (hQ2 : (blueprint.with_values bp a).holds rhs1_G2.vars Q2)
    (hP3 : (blueprint.with_values bp a).holds rhs2_G1.vars P3)
    (hQ3 : (blueprint.with_values bp a).holds rhs2_G2.vars Q3)
    (hm1 : C.affine_ate_miller_loop P1 Q1 ≠ 0) (hm2 : C.affine_ate_miller_loop P2 Q2 ≠ 0)
    (hm3 : C.affine_ate_miller_loop P3 Q3 ≠ 0) :
    (check_e_equals_ee_component.run C bp lhs_G1 lhs_G2 rhs1_G1 rhs1_G2 rhs2_G1 rhs2_G2 result
      a).is_satisfied = true ∧
    (check_e_equals_ee_component.run C bp lhs_G1 lhs_G2 rhs1_G1 rhs1_G2 rhs2_G1 rhs2_G2 result
      a).holds
      (check_e_equals_ee_component.construct C bp lhs_G1 lhs_G2 rhs1_G1 rhs1_G2 rhs2_G1 rhs2_G2
        result).1.ratio.vars
      (C.Fqk_coordinates
        (C.affine_ate_miller_loop P2 Q2 * C.affine_ate_miller_loop P3 Q3
          * (C.affine_ate_miller_loop P1 Q1)⁻¹)) ∧
    (check_e_equals_ee_component.run C bp lhs_G1 lhs_G2 rhs1_G1 rhs1_G2 rhs2_G1 rhs2_G2 result
      a).val result
      = some (if C.final_exponentiation
          (C.affine_ate_miller_loop P2 Q2 * C.affine_ate_miller_loop P3 Q3
            * (C.affine_ate_miller_loop P1 Q1)⁻¹) = 1
        then 1 else 0) := by
  simp only [check_e_equals_ee_component.run, check_e_equals_ee_component.construct,
    check_e_equals_ee_component.generate_r1cs_witness,
    check_e_equals_ee_component.generate_r1cs_constraints, Fqk_variable.construct,
    e_times_e_over_e_miller_loop_component, final_exp_component, blueprint.allocate,
    component.generate_r1cs_constraints_eq, blueprint.with_values, List.length_append,
    List.length_replicate, blueprint.num_variables] at *
  have hb : ∀ vs, (blueprint.mk a bp.constraints).get_vals vs
      = (blueprint.mk a (bp.constraints
        ++ (C.e_times_e_over_e_miller_loop rhs1_G1 rhs1_G2 rhs2_G1 rhs2_G2 lhs_G1 lhs_G2
            { vars := List.range' bp.values.length C.Fqk_size }
            (List.range' (bp.values.length + C.Fqk_size)
              C.e_times_e_over_e_aux)).constraints
        ++ (C.final_exp { vars := List.range' bp.values.length C.Fqk_size } result
            (List.range' (bp.values.length + C.Fqk_size + C.e_times_e_over_e_aux)
              C.final_exp_aux)).constraints)).get_vals vs := fun vs => rfl
  unfold blueprint.holds at hP1 hQ1 hP2 hQ2 hP3 hQ3
  rw [hb] at hP1 hQ1 hP2 hQ2 hP3 hQ3
  have hmr : C.affine_ate_miller_loop P2 Q2 * C.affine_ate_miller_loop P3 Q3
      * (C.affine_ate_miller_loop P1 Q1)⁻¹ ≠ 0 :=
    mul_ne_zero (mul_ne_zero hm2 hm3) (inv_ne_zero hm1)
  have hin2 : ∀ v ∈ rhs1_G1.vars ++ rhs1_G2.vars ++ rhs2_G1.vars ++ rhs2_G2.vars
      ++ lhs_G1.vars ++ lhs_G2.vars, v < bp.values.length ∧ v ≠ result := by
    intro v hv
    apply hin v
    simp only [List.mem_append] at hv ⊢
    tauto
  exact pairing_check_run C _ _ result _ _ _ _ bp.constraints bp.values.length
    (bp.values.length + C.Fqk_size)
    (bp.values.length + C.Fqk_size + C.e_times_e_over_e_aux) _
    rfl
    (fun v hv => mem_range_bounds hv)
    (fun v hv => mem_range_bounds hv)
    (fun v hv => (mem_range_bounds hv).1)
    (Nat.le_add_right _ _) (Nat.le_add_right _ _)
    hM.1 hin2 hres hprior
    (hM.2 _ P2 Q2 P3 Q3 P1 Q1 ha hP2 hQ2 hP3 hQ3 hP1 hQ1 hm2 hm3 hm1)
    (by rw [show (blueprint.mk a _).values.length = a.length from rfl, ha]; exact hF) hmr

/-- The final exponentiation of a product over a third value is one exactly
when the final exponentiation of that value is the product of the other two. -/
theorem final_exponentiation_product_ratio [Field K] (C : CurveType F K) (x y z : K)
    (hz : z ≠ 0) :
    C.final_exponentiation (x * y * z⁻¹) = 1 ↔
      C.final_exponentiation z = C.final_exponentiation x * C.final_exponentiation y := by
  rw [final_exponentiation_ratio C _ _ hz]
  unfold CurveType.final_exponentiation
  rw [mul_pow]
  exact eq_comm

end snark

namespace snark

variable {F K : Type}

theorem list_length_thirteen {α : Type} (l : List α) (h : l.length = 13) :
    ∃ a0 a1 a2 a3 a4 a5 a6 a7 a8 a9 a10 a11 a12,
      l = [a0, a1, a2, a3, a4, a5, a6, a7, a8, a9, a10, a11, a12] := by
  match l, h with
  | [a0, a1, a2, a3, a4, a5, a6, a7, a8, a9, a10, a11, a12], _ =>
    exact ⟨_, _, _, _, _, _, _, _, _, _, _, _, _, rfl⟩

theorem small_e_times_e_over_e_contract :
    e_times_e_over_e_miller_loop_contract small_curve { vars := [2] } { vars := [3] }
      { vars := [4] } { vars := [5] } { vars := [0] } { vars := [1] } { vars := [7] }
      [8, 9, 10, 11] 13 := by
  refine ⟨?_, ?_⟩
  · simp [component.respects, small_curve, small_e_times_e_over_e, r1cs_constraint.vars,
      r1cs_constraint.product, linear_combination.vars, linear_combination.of_variable]
  · intro b x1 y1 x2 y2 x3 y3 hlen h1 h2 h3 h4 h5 h6 hm1 hm2 hm3
    obtain ⟨vals, cs⟩ := b
    obtain ⟨a0, a1, a2, a3, a4, a5, a6, a7, a8, a9, a10, a11, a12, rfl⟩ :=
      list_length_thirteen vals hlen
    simp only [blueprint.holds, blueprint.get_vals, blueprint.val, List.map_cons, List.map_nil,
      List.getD_cons_zero, List.getD_cons_succ] at h1 h2 h3 h4 h5 h6
    obtain ⟨u1, rfl, rfl⟩ := singleton_eq_map_some h1
    obtain ⟨v1, rfl, rfl⟩ := singleton_eq_map_some h2
    obtain ⟨u2, rfl, rfl⟩ := singleton_eq_map_some h3
    obtain ⟨v2, rfl, rfl⟩ := singleton_eq_map_some h4
    obtain ⟨u3, rfl, rfl⟩ := singleton_eq_map_some h5
    obtain ⟨v3, rfl, rfl⟩ := singleton_eq_map_some h6
    simp [small_curve] at hm1 hm2 hm3
    simp only [small_curve, small_e_over_e, small_final_exp, small_e_times_e_over_e,
      component.generate_r1cs_witness, blueprint.set_val,
      blueprint.holds, blueprint.get_vals, blueprint.val, read_at,
      r1cs_constraint.is_satisfied, r1cs_constraint.product, linear_combination.evaluate,
      linear_combination.of_variable, linear_combination.of_constant,
      List.getD_cons_succ, List.getD_cons_zero, List.getD_nil,
      List.set_cons_succ, List.set_cons_zero, List.foldl_cons, List.foldl_nil,
      List.foldr_cons, List.foldr_nil, List.map_cons, List.map_nil, List.cons_append,
      List.nil_append, List.mem_cons, List.mem_singleton, forall_eq_or_imp, forall_eq,
      Option.getD_some, Option.getD_none, List.not_mem_nil]
    obtain ⟨hu3, hv3⟩ := hm3
    norm_num
    field_simp
    exact Or.inl (mul_comm _ _)

theorem small_final_exp_contract_ee :
    final_exp_contract small_curve { vars := [7] } 6 [12] 13 := by
  refine ⟨?_, ?_⟩
  · simp [component.respects, small_curve, small_final_exp, r1cs_constraint.vars,
      r1cs_constraint.product, linear_combination.vars, linear_combination.of_variable,
      linear_combination.of_constant]
  · intro b x hlen h1 hx
    obtain ⟨vals, cs⟩ := b
    obtain ⟨a0, a1, a2, a3, a4, a5, a6, a7, a8, a9, a10, a11, a12, rfl⟩ :=
      list_length_thirteen vals hlen
    simp only [blueprint.holds, blueprint.get_vals, blueprint.val, List.map_cons, List.map_nil,
      List.getD_cons_zero, List.getD_cons_succ, small_curve] at h1
    obtain rfl : a7 = some x := by simpa using h1
    simp only [small_curve, small_e_over_e, small_final_exp, small_e_times_e_over_e,
      CurveType.final_exponentiation,
      component.generate_r1cs_witness, blueprint.set_val,
      blueprint.holds, blueprint.get_vals, blueprint.val, read_at,
      r1cs_constraint.is_satisfied, r1cs_constraint.product, linear_combination.evaluate,
      linear_combination.of_variable, linear_combination.of_constant,
      List.getD_cons_succ, List.getD_cons_zero, List.getD_nil,
      List.set_cons_succ, List.set_cons_zero, List.foldl_cons, List.foldl_nil,
      List.foldr_cons, List.foldr_nil, List.map_cons, List.map_nil, List.cons_append,
      List.nil_append, List.mem_cons, List.mem_singleton, forall_eq_or_imp, forall_eq,
      Option.getD_some, Option.getD_none, List.not_mem_nil]
    simp only [pow_two]
    by_cases h : x * x = 1
    · simp [h]
    · simp [h]

/-- The small instance is a setting of `check_e_equals_ee_component`, whatever
the values of the six precomputations, provided they are invertible and the
earlier constraint holds. -/
theorem small_setting_ee (x1 y1 x2 y2 x3 y3 : ℚ) (h0 : x2 * x2 = x2) (hx1 : x1 ≠ 0)
    (hy1 : y1 ≠ 0) (hx2 : x2 ≠ 0) (hy2 : y2 ≠ 0) (hx3 : x3 ≠ 0) (hy3 : y3 ≠ 0) :
    check_e_equals_ee_component.setting small_curve small_blueprint_ee { vars := [0] }
      { vars := [1] } { vars := [2] } { vars := [3] } { vars := [4] } { vars := [5] } 6
      [some x1, some y1, some x2, some y2, some x3, some y3, none, none, none, none, none,
        none, none]
      [x1] [y1] [x2] [y2] [x3] [y3] where
  inputs_allocated := by simp [small_blueprint_ee, blueprint.num_variables]
  result_allocated := by simp [small_blueprint_ee, blueprint.num_variables]
  miller_loop := small_e_times_e_over_e_contract
  final_exp := small_final_exp_contract_ee
  earlier_constraints := by
    simp only [small_blueprint_ee, r1cs_constraint.is_satisfied,
      r1cs_constraint.product, r1cs_constraint.vars, linear_combination.vars,
      linear_combination.evaluate, linear_combination.of_variable,
      blueprint.num_variables, List.mem_singleton, forall_eq, List.foldr_cons,
      List.foldr_nil, List.getD_cons_zero, List.getD_cons_succ, List.map_cons, List.map_nil,
      List.cons_append,
      List.nil_append, List.length_cons, List.length_nil, List.mem_cons, forall_eq_or_imp,
      List.not_mem_nil]
    norm_num
    exact h0
  assignment_size := rfl
  holds_lhs_G1 := rfl
  holds_lhs_G2 := rfl
  holds_rhs1_G1 := rfl
  holds_rhs1_G2 := rfl
  holds_rhs2_G1 := rfl
  holds_rhs2_G2 := rfl
  miller_lhs_invertible := by simp [small_curve, hx1, hy1]
  miller_rhs1_invertible := by simp [small_curve, hx2, hy2]
  miller_rhs2_invertible := by simp [small_curve, hx3, hy3]

/-- C2. `check_e_equals_ee_component`: in every setting of the component (any
blueprint it is built on, any assignment in which the six precomputations hold
native precomputations), after `generate_r1cs_constraints` and
`generate_r1cs_witness` the blueprint is satisfied and `result` is 1 if and only
if `e(lhs_G1,lhs_G2) = e(rhs1_G1,rhs1_G2) * e(rhs2_G1,rhs2_G2)`; when the
precomputations are such that the equation fails, `result` is 0, not 1. -/
theorem check_e_equals_ee_correct [Field F] [DecidableEq F] [Field K] [DecidableEq K]
    (C : CurveType F K) (bp : blueprint F)
    (lhs_G1 : G1_precomputation) (lhs_G2 : G2_precomputation)
    (rhs1_G1 : G1_precomputation) (rhs1_G2 : G2_precomputation)
    (rhs2_G1 : G1_precomputation) (rhs2_G2 : G2_precomputation)
    (result : Nat) (a : List (Option F)) (P1 Q1 P2 Q2 P3 Q3 : List F)
    (h : check_e_equals_ee_component.setting C bp lhs_G1 lhs_G2 rhs1_G1 rhs1_G2 rhs2_G1
      rhs2_G2 result a P1 Q1 P2 Q2 P3 Q3) :
    (check_e_equals_ee_component.run C bp lhs_G1 lhs_G2 rhs1_G1 rhs1_G2 rhs2_G1 rhs2_G2 result
      a).is_satisfied = true ∧
    ((check_e_equals_ee_component.run C bp lhs_G1 lhs_G2 rhs1_G1 rhs1_G2 rhs2_G1 rhs2_G2
        result a).val result = some 1 ↔
      C.reduced_pairing P1 Q1 = C.reduced_pairing P2 Q2 * C.reduced_pairing P3 Q3) ∧
    (C.reduced_pairing P1 Q1 ≠ C.reduced_pairing P2 Q2 * C.reduced_pairing P3 Q3 →
      (check_e_equals_ee_component.run C bp lhs_G1 lhs_G2 rhs1_G1 rhs1_G2 rhs2_G1 rhs2_G2
          result a).val result = some 0 ∧
      (check_e_equals_ee_component.run C bp lhs_G1 lhs_G2 rhs1_G1 rhs1_G2 rhs2_G1 rhs2_G2
          result a).val result ≠ some 1) := by
  obtain ⟨h1, _, h3⟩ := check_e_equals_ee_run C bp lhs_G1 lhs_G2 rhs1_G1 rhs1_G2 rhs2_G1
    rhs2_G2 result a P1 Q1 P2 Q2 P3 Q3 h.inputs_allocated h.result_allocated h.miller_loop
    h.final_exp h.earlier_constraints h.assignment_size h.holds_lhs_G1 h.holds_lhs_G2
    h.holds_rhs1_G1 h.holds_rhs1_G2 h.holds_rhs2_G1 h.holds_rhs2_G2 h.miller_lhs_invertible
    h.miller_rhs1_invertible h.miller_rhs2_invertible
  have hiff := final_exponentiation_product_ratio C (C.affine_ate_miller_loop P2 Q2)
    (C.affine_ate_miller_loop P3 Q3) (C.affine_ate_miller_loop P1 Q1) h.miller_lhs_invertible
  refine ⟨h1, ?_, ?_⟩
  · rw [h3, flag_eq_one_iff, hiff]
    rfl
  · intro hne
    have hne2 : ¬ C.final_exponentiation (C.affine_ate_miller_loop P2 Q2
        * C.affine_ate_miller_loop P3 Q3 * (C.affine_ate_miller_loop P1 Q1)⁻¹) = 1 :=
      fun hh => hne (hiff.1 hh)
    rw [h3, if_neg hne2]
    simp

/-- The small instance, on an assignment on which the equation holds (result 1)
and on one on which a right-hand precomputation is perturbed (result 0). -/
theorem check_e_equals_ee_correct_witness :
    ((check_e_equals_ee_component.run small_curve small_blueprint_ee { vars := [0] }
        { vars := [1] } { vars := [2] } { vars := [3] } { vars := [4] } { vars := [5] } 6
        small_assignment_ee).is_satisfied = true ∧
      (check_e_equals_ee_component.run small_curve small_blueprint_ee { vars := [0] }
        { vars := [1] } { vars := [2] } { vars := [3] } { vars := [4] } { vars := [5] } 6
        small_assignment_ee).val 6 = some 1) ∧
    (check_e_equals_ee_component.run small_curve small_blueprint_ee { vars := [0] }
        { vars := [1] } { vars := [2] } { vars := [3] } { vars := [4] } { vars := [5] } 6
        small_assignment_ee_failing).val 6 = some 0 := by
  have h1 := check_e_equals_ee_correct small_curve small_blueprint_ee { vars := [0] }
    { vars := [1] } { vars := [2] } { vars := [3] } { vars := [4] } { vars := [5] } 6
    small_assignment_ee [2] [6] [1] [3] [2] [2]
    (small_setting_ee 2 6 1 3 2 2 (by norm_num) (by norm_num) (by norm_num) (by norm_num)
      (by norm_num) (by norm_num) (by norm_num))
  have h2 := check_e_equals_ee_correct small_curve small_blueprint_ee { vars := [0] }
    { vars := [1] } { vars := [2] } { vars := [3] } { vars := [4] } { vars := [5] } 6
    small_assignment_ee_failing [2] [6] [1] [3] [2] [3]
    (small_setting_ee 2 6 1 3 2 3 (by norm_num) (by norm_num) (by norm_num) (by norm_num)
      (by norm_num) (by norm_num) (by norm_num))
  refine ⟨⟨h1.1, h1.2.1.2 ?_⟩, (h2.2.2 ?_).1⟩
  · norm_num [CurveType.reduced_pairing, CurveType.final_exponentiation, small_curve]
  · norm_num [CurveType.reduced_pairing, CurveType.final_exponentiation, small_curve]

end snark

namespace snark

variable {F K : Type}

/-- Two witness passes of one component, started from assignments of the same
size that agree on the variables the component reads, agree on every variable
the component writes and on every variable on which the starts agreed. -/
theorem component.witness_agree (c : component F) (b b' : blueprint F)
    (hlen : b.values.length = b'.values.length)
    (hr : ∀ v ∈ c.reads, b.val v = b'.val v) (v : Nat)
    (hv : v ∈ c.writes ∨ b.val v = b'.val v) :
    (c.generate_r1cs_witness b).val v = (c.generate_r1cs_witness b').val v := by
  have hreads : b.get_vals c.reads = b'.get_vals c.reads :=
    List.map_congr_left hr
  rw [c.val_generate_r1cs_witness, c.val_generate_r1cs_witness, hreads, ← hlen]
  by_cases h : v ∈ c.writes ∧ v < b.values.length
  · rw [if_pos h, if_pos h]
  · rw [if_neg h, if_neg h]
    rcases hv with hv | hv
    · have hge : b.values.length ≤ v := Nat.le_of_not_lt (fun hh => h ⟨hv, hh⟩)
      unfold blueprint.val
      rw [List.getD_eq_default _ _ hge, List.getD_eq_default _ _ (hlen ▸ hge)]
    · exact hv

/-- The two passes of a pairing check, started from assignments of the same
size that agree on the inputs of the first component, agree on the output of the
first component and on the result of the second. -/
theorem two_stage_agree (M Fc : component F) (ins out auxM auxF : List Nat) (result : Nat)
    (b b' : blueprint F) (hlen : b.values.length = b'.values.length)
    (hM : M.respects ins out auxM) (hF : Fc.respects out [result] auxF)
    (hag : ∀ v ∈ ins, b.val v = b'.val v) :
    (Fc.generate_r1cs_witness (M.generate_r1cs_witness b)).get_vals out
      = (Fc.generate_r1cs_witness (M.generate_r1cs_witness b')).get_vals out ∧
    (Fc.generate_r1cs_witness (M.generate_r1cs_witness b)).val result
      = (Fc.generate_r1cs_witness (M.generate_r1cs_witness b')).val result := by
  obtain ⟨hMr, hMo, _, _⟩ := hM
  obtain ⟨hFr, hFo, _, _⟩ := hF
  have h1 : ∀ v ∈ out, (M.generate_r1cs_witness b).val v = (M.generate_r1cs_witness b').val v :=
    fun v hv => M.witness_agree b b' hlen (fun w hw => hag w (hMr w hw)) v (Or.inl (hMo v hv))
  have hlen2 : (M.generate_r1cs_witness b).values.length
      = (M.generate_r1cs_witness b').values.length := by
    rw [M.length_generate_r1cs_witness, M.length_generate_r1cs_witness, hlen]
  have h2 : ∀ v ∈ Fc.reads,
      (M.generate_r1cs_witness b).val v = (M.generate_r1cs_witness b').val v :=
    fun v hv => h1 v (hFr v hv)
  refine ⟨List.map_congr_left (fun v hv => ?_), ?_⟩
  · exact Fc.witness_agree _ _ hlen2 h2 v (Or.inr (h1 v hv))
  · exact Fc.witness_agree _ _ hlen2 h2 result (Or.inl (hFo result (by simp)))

/-- C3. Neither pairing-check component asserts that its result is 1.
`generate_r1cs_constraints` of `check_e_equals_e_component` and of
`check_e_equals_ee_component` leaves on the blueprint the constraints it had,
followed by exactly the constraints of the owned Miller-loop component, followed
by exactly the constraints of the owned final-exponentiation component, and
none of its own; and in every setting in which the pairing equation fails, the
honestly generated witness has `result` 0, not 1, and still satisfies the
blueprint. -/
theorem pairing_checks_do_not_assert_result [Field F] [DecidableEq F] [Field K]
    [DecidableEq K] (C : CurveType F K) :
    (∀ (g : check_e_equals_e_component F) (b : blueprint F),
      (g.generate_r1cs_constraints b).constraints
        = b.constraints ++ g.compute_ratio.constraints ++ g.check_finexp.constraints) ∧
    (∀ (g : check_e_equals_ee_component F) (b : blueprint F),
      (g.generate_r1cs_constraints b).constraints
        = b.constraints ++ g.compute_ratio.constraints ++ g.check_finexp.constraints) ∧
    (∀ (bp : blueprint F) (lhs_G1 : G1_precomputation) (lhs_G2 : G2_precomputation)
      (rhs_G1 : G1_precomputation) (rhs_G2 : G2_precomputation) (result : Nat)
      (a : List (Option F)) (P1 Q1 P2 Q2 : List F),
      check_e_equals_e_component.setting C bp lhs_G1 lhs_G2 rhs_G1 rhs_G2 result a
        P1 Q1 P2 Q2 →
      C.reduced_pairing P1 Q1 ≠ C.reduced_pairing P2 Q2 →
      (check_e_equals_e_component.run C bp lhs_G1 lhs_G2 rhs_G1 rhs_G2 result a).val result
        = some 0 ∧
      (check_e_equals_e_component.run C bp lhs_G1 lhs_G2 rhs_G1 rhs_G2 result a).val result
        ≠ some 1 ∧
      (check_e_equals_e_component.run C bp lhs_G1 lhs_G2 rhs_G1 rhs_G2 result
        a).is_satisfied = true) ∧
    (∀ (bp : blueprint F) (lhs_G1 : G1_precomputation) (lhs_G2 : G2_precomputation)
      (rhs1_G1 : G1_precomputation) (rhs1_G2 : G2_precomputation)
      (rhs2_G1 : G1_precomputation) (rhs2_G2 : G2_precomputation) (result : Nat)
      (a : List (Option F)) (P1 Q1 P2 Q2 P3 Q3 : List F),
      check_e_equals_ee_component.setting C bp lhs_G1 lhs_G2 rhs1_G1 rhs1_G2 rhs2_G1
        rhs2_G2 result a P1 Q1 P2 Q2 P3 Q3 →
      C.reduced_pairing P1 Q1 ≠ C.reduced_pairing P2 Q2 * C.reduced_pairing P3 Q3 →
      (check_e_equals_ee_component.run C bp lhs_G1 lhs_G2 rhs1_G1 rhs1_G2 rhs2_G1 rhs2_G2
        result a).val result = some 0 ∧
      (check_e_equals_ee_component.run C bp lhs_G1 lhs_G2 rhs1_G1 rhs1_G2 rhs2_G1 rhs2_G2
        result a).val result ≠ some 1 ∧
      (check_e_equals_ee_component.run C bp lhs_G1 lhs_G2 rhs1_G1 rhs1_G2 rhs2_G1 rhs2_G2
        result a).is_satisfied = true) := by
  refine ⟨?_, ?_, ?_, ?_⟩
  · intro g b
    simp [check_e_equals_e_component.generate_r1cs_constraints,
      component.generate_r1cs_constraints_eq]
  · intro g b
    simp [check_e_equals_ee_component.generate_r1cs_constraints,
      component.generate_r1cs_constraints_eq]
  · intro bp lhs_G1 lhs_G2 rhs_G1 rhs_G2 result a P1 Q1 P2 Q2 h hne
    obtain ⟨h1, _, h3⟩ := check_e_equals_e_run C bp lhs_G1 lhs_G2 rhs_G1 rhs_G2 result a
      P1 Q1 P2 Q2 h.inputs_allocated h.result_allocated h.miller_loop h.final_exp
      h.earlier_constraints h.assignment_size h.holds_lhs_G1 h.holds_lhs_G2 h.holds_rhs_G1
      h.holds_rhs_G2 h.miller_lhs_invertible h.miller_rhs_invertible
    have hne2 : ¬ C.final_exponentiation (C.affine_ate_miller_loop P1 Q1
        * (C.affine_ate_miller_loop P2 Q2)⁻¹) = 1 :=
      fun hh => hne ((final_exponentiation_ratio C _ _ h.miller_rhs_invertible).1 hh)
    rw [h3, if_neg hne2]
    exact ⟨rfl, by simp, h1⟩
  · intro bp lhs_G1 lhs_G2 rhs1_G1 rhs1_G2 rhs2_G1 rhs2_G2 result a P1 Q1 P2 Q2 P3 Q3 h hne
    obtain ⟨h1, _, h3⟩ := check_e_equals_ee_run C bp lhs_G1 lhs_G2 rhs1_G1 rhs1_G2 rhs2_G1
      rhs2_G2 result a P1 Q1 P2 Q2 P3 Q3 h.inputs_allocated h.result_allocated h.miller_loop
      h.final_exp h.earlier_constraints h.assignment_size h.holds_lhs_G1 h.holds_lhs_G2
      h.holds_rhs1_G1 h.holds_rhs1_G2 h.holds_rhs2_G1 h.holds_rhs2_G2
      h.miller_lhs_invertible h.miller_rhs1_invertible h.miller_rhs2_invertible
    have hne2 : ¬ C.final_exponentiation (C.affine_ate_miller_loop P2 Q2
        * C.affine_ate_miller_loop P3 Q3 * (C.affine_ate_miller_loop P1 Q1)⁻¹) = 1 :=
      fun hh => hne ((final_exponentiation_product_ratio C _ _ _
        h.miller_lhs_invertible).1 hh)
    rw [h3, if_neg hne2]
    exact ⟨rfl, by simp, h1⟩

/-- The small instance, on assignments on which the pairing equations fail:
the result is 0 and the blueprint is satisfied. -/
theorem pairing_checks_do_not_assert_result_witness :
    ((check_e_equals_e_component.run small_curve small_blueprint { vars := [0] } { vars := [1] }
        { vars := [2] } { vars := [3] } 4 small_assignment_failing).val 4 = some 0 ∧
      (check_e_equals_e_component.run small_curve small_blueprint { vars := [0] }
        { vars := [1] } { vars := [2] } { vars := [3] } 4
        small_assignment_failing).is_satisfied = true) ∧
    ((check_e_equals_ee_component.run small_curve small_blueprint_ee { vars := [0] }
        { vars := [1] } { vars := [2] } { vars := [3] } { vars := [4] } { vars := [5] } 6
        small_assignment_ee_failing).val 6 = some 0 ∧
      (check_e_equals_ee_component.run small_curve small_blueprint_ee { vars := [0] }
        { vars := [1] } { vars := [2] } { vars := [3] } { vars := [4] } { vars := [5] } 6
        small_assignment_ee_failing).is_satisfied = true) := by
  have h := pairing_checks_do_not_assert_result small_curve
  have h1 := h.2.2.1 small_blueprint { vars := [0] } { vars := [1] } { vars := [2] }
    { vars := [3] } 4 small_assignment_failing [1] [6] [2] [4]
    (small_setting 1 6 2 4 (by norm_num) (by norm_num) (by norm_num) (by norm_num)
      (by norm_num))
    (by norm_num [CurveType.reduced_pairing, CurveType.final_exponentiation, small_curve])
  have h2 := h.2.2.2 small_blueprint_ee { vars := [0] } { vars := [1] } { vars := [2] }
    { vars := [3] } { vars := [4] } { vars := [5] } 6 small_assignment_ee_failing
    [2] [6] [1] [3] [2] [3]
    (small_setting_ee 2 6 1 3 2 3 (by norm_num) (by norm_num) (by norm_num) (by norm_num)
      (by norm_num) (by norm_num) (by norm_num))
    (by norm_num [CurveType.reduced_pairing, CurveType.final_exponentiation, small_curve])
  exact ⟨⟨h1.1, h1.2.2⟩, ⟨h2.1, h2.2.2⟩⟩

end snark

namespace snark

variable {F K : Type}

/-- C4. `generate_r1cs_witness` of both pairing-check components runs the
Miller-loop witness before the final-exponentiation witness, so that `result`
is computed from the ratio written in the same call, never from a stale one:
when the owned components respect their interfaces, any two starting
assignments (of the same variables) that agree on the variables of the input
precomputations lead to equal values of the ratio variable and of `result`. -/
theorem pairing_checks_witness_order (C : CurveType F K) :
    (∀ (g : check_e_equals_e_component F) (b : blueprint F),
      g.generate_r1cs_witness b
        = g.check_finexp.generate_r1cs_witness (g.compute_ratio.generate_r1cs_witness b)) ∧
    (∀ (g : check_e_equals_ee_component F) (b : blueprint F),
      g.generate_r1cs_witness b
        = g.check_finexp.generate_r1cs_witness (g.compute_ratio.generate_r1cs_witness b)) ∧
    (∀ (bp : blueprint F) (lhs_G1 : G1_precomputation) (lhs_G2 : G2_precomputation)
      (rhs_G1 : G1_precomputation) (rhs_G2 : G2_precomputation) (result : Nat)
      (a a' : List (Option F)),
      (check_e_equals_e_component.construct C bp lhs_G1 lhs_G2 rhs_G1 rhs_G2
        result).1.compute_ratio.respects
        (lhs_G1.vars ++ lhs_G2.vars ++ rhs_G1.vars ++ rhs_G2.vars)
        (check_e_equals_e_component.construct C bp lhs_G1 lhs_G2 rhs_G1 rhs_G2
          result).1.ratio.vars
        (List.range' (bp.num_variables + C.Fqk_size) C.e_over_e_aux) →
      (check_e_equals_e_component.construct C bp lhs_G1 lhs_G2 rhs_G1 rhs_G2
        result).1.check_finexp.respects
        (check_e_equals_e_component.construct C bp lhs_G1 lhs_G2 rhs_G1 rhs_G2
          result).1.ratio.vars [result]
        (List.range' (bp.num_variables + C.Fqk_size + C.e_over_e_aux) C.final_exp_aux) →
      a.length = a'.length →
      (∀ v ∈ lhs_G1.vars ++ lhs_G2.vars ++ rhs_G1.vars ++ rhs_G2.vars,
        a.getD v none = a'.getD v none) →
      (check_e_equals_e_component.run C bp lhs_G1 lhs_G2 rhs_G1 rhs_G2 result a).get_vals
          (check_e_equals_e_component.construct C bp lhs_G1 lhs_G2 rhs_G1 rhs_G2
            result).1.ratio.vars
        = (check_e_equals_e_component.run C bp lhs_G1 lhs_G2 rhs_G1 rhs_G2 result
            a').get_vals
          (check_e_equals_e_component.construct C bp lhs_G1 lhs_G2 rhs_G1 rhs_G2
            result).1.ratio.vars ∧
      (check_e_equals_e_component.run C bp lhs_G1 lhs_G2 rhs_G1 rhs_G2 result a).val result
        = (check_e_equals_e_component.run C bp lhs_G1 lhs_G2 rhs_G1 rhs_G2 result a').val
          result) ∧
    (∀ (bp : blueprint F) (lhs_G1 : G1_precomputation) (lhs_G2 : G2_precomputation)
      (rhs1_G1 : G1_precomputation) (rhs1_G2 : G2_precomputation)
      (rhs2_G1 : G1_precomputation) (rhs2_G2 : G2_precomputation) (result : Nat)
      (a a' : List (Option F)),
      (check_e_equals_ee_component.construct C bp lhs_G1 lhs_G2 rhs1_G1 rhs1_G2 rhs2_G1
        rhs2_G2 result).1.compute_ratio.respects
        (lhs_G1.vars ++ lhs_G2.vars ++ rhs1_G1.vars ++ rhs1_G2.vars ++ rhs2_G1.vars
          ++ rhs2_G2.vars)
        (check_e_equals_ee_component.construct C bp lhs_G1 lhs_G2 rhs1_G1 rhs1_G2 rhs2_G1
          rhs2_G2 result).1.ratio.vars
        (List.range' (bp.num_variables + C.Fqk_size) C.e_times_e_over_e_aux) →
      (check_e_equals_ee_component.construct C bp lhs_G1 lhs_G2 rhs1_G1 rhs1_G2 rhs2_G1
        rhs2_G2 result).1.check_finexp.respects
        (check_e_equals_ee_component.construct C bp lhs_G1 lhs_G2 rhs1_G1 rhs1_G2 rhs2_G1
          rhs2_G2 result).1.ratio.vars [result]
        (List.range' (bp.num_variables + C.Fqk_size + C.e_times_e_over_e_aux)
          C.final_exp_aux) →
      a.length = a'.length →
      (∀ v ∈ lhs_G1.vars ++ lhs_G2.vars ++ rhs1_G1.vars ++ rhs1_G2.vars ++ rhs2_G1.vars
        ++ rhs2_G2.vars, a.getD v none = a'.getD v none) →
      (check_e_equals_ee_component.run C bp lhs_G1 lhs_G2 rhs1_G1 rhs1_G2 rhs2_G1 rhs2_G2
          result a).get_vals
          (check_e_equals_ee_component.construct C bp lhs_G1 lhs_G2 rhs1_G1 rhs1_G2 rhs2_G1
            rhs2_G2 result).1.ratio.vars
        = (check_e_equals_ee_component.run C bp lhs_G1 lhs_G2 rhs1_G1 rhs1_G2 rhs2_G1 rhs2_G2
            result a').get_vals
          (check_e_equals_ee_component.construct C bp lhs_G1 lhs_G2 rhs1_G1 rhs1_G2 rhs2_G1
            rhs2_G2 result).1.ratio.vars ∧
      (check_e_equals_ee_component.run C bp lhs_G1 lhs_G2 rhs1_G1 rhs1_G2 rhs2_G1 rhs2_G2
          result a).val result
        = (check_e_equals_ee_component.run C bp lhs_G1 lhs_G2 rhs1_G1 rhs1_G2 rhs2_G1 rhs2_G2
            result a').val result) := by
  refine ⟨fun _ _ => rfl, fun _ _ => rfl, ?_, ?_⟩
  · intro bp lhs_G1 lhs_G2 rhs_G1 rhs_G2 result a a' hM hF hlen hag
    exact two_stage_agree _ _ _ _ _ _ result _ _ hlen hM hF hag
  · intro bp lhs_G1 lhs_G2 rhs1_G1 rhs1_G2 rhs2_G1 rhs2_G2 result a a' hM hF hlen hag
    exact two_stage_agree _ _ _ _ _ _ result _ _ hlen hM hF hag

/-- The small instance, entered with fresh and with stale values outside the
precomputations: the results agree. -/
theorem pairing_checks_witness_order_witness :
    (check_e_equals_e_component.run small_curve small_blueprint { vars := [0] } { vars := [1] }
        { vars := [2] } { vars := [3] } 4 small_assignment).val 4
      = (check_e_equals_e_component.run small_curve small_blueprint { vars := [0] }
        { vars := [1] } { vars := [2] } { vars := [3] } 4 small_assignment_stale).val 4 ∧
    (check_e_equals_ee_component.run small_curve small_blueprint_ee { vars := [0] }
        { vars := [1] } { vars := [2] } { vars := [3] } { vars := [4] } { vars := [5] } 6
        small_assignment_ee).val 6
      = (check_e_equals_ee_component.run small_curve small_blueprint_ee { vars := [0] }
        { vars := [1] } { vars := [2] } { vars := [3] } { vars := [4] } { vars := [5] } 6
        small_assignment_ee_stale).val 6 := by
  have h := pairing_checks_witness_order small_curve
  refine ⟨(h.2.2.1 small_blueprint { vars := [0] } { vars := [1] } { vars := [2] }
      { vars := [3] } 4 small_assignment small_assignment_stale
      small_e_over_e_contract.1 small_final_exp_contract.1 rfl ?_).2,
    (h.2.2.2 small_blueprint_ee { vars := [0] } { vars := [1] } { vars := [2] }
      { vars := [3] } { vars := [4] } { vars := [5] } 6 small_assignment_ee
      small_assignment_ee_stale ?_ small_final_exp_contract_ee.1 rfl ?_).2⟩
  · simp [small_assignment, small_assignment_stale]
  · have h3 := small_e_times_e_over_e_contract.1
    obtain ⟨r1, r2, r3, r4⟩ := h3
    refine ⟨fun v hv => ?_, r2, r3, fun k hk v hv => ?_⟩
    · have := r1 v hv
      simp only [List.mem_append] at this ⊢
      tauto
    · have := r4 k hk v hv
      simp only [List.mem_append] at this ⊢
      tauto
  · simp [small_assignment_ee, small_assignment_ee_stale]

end snark

namespace snark

variable {F : Type}

/-! ## Writing and reading bundles of variables -/

theorem blueprint.set_vals_nil_left (bp : blueprint F) (xs : List F) :
    bp.set_vals [] xs = bp := rfl

theorem blueprint.set_vals_nil_right (bp : blueprint F) (vs : List Nat) :
    bp.set_vals vs [] = bp := by
  cases vs <;> rfl

theorem blueprint.set_vals_cons (bp : blueprint F) (v : Nat) (vs : List Nat) (x : F)
    (xs : List F) : bp.set_vals (v :: vs) (x :: xs) = (bp.set_val v x).set_vals vs xs := rfl

theorem blueprint.set_vals_frame (bp : blueprint F) (vs : List Nat) (xs : List F) :
    (bp.set_vals vs xs).constraints = bp.constraints ∧
    (bp.set_vals vs xs).values.length = bp.values.length := by
  induction vs generalizing bp xs with
  | nil => exact ⟨rfl, rfl⟩
  | cons v vs ih =>
    cases xs with
    | nil => exact ⟨rfl, rfl⟩
    | cons x xs =>
      rw [blueprint.set_vals_cons]
      exact ⟨(ih _ _).1, by rw [(ih _ _).2, blueprint.length_set_val]⟩

theorem blueprint.val_set_vals_of_not_mem (bp : blueprint F) (vs : List Nat) (xs : List F)
    (v : Nat) (h : v ∉ vs) : (bp.set_vals vs xs).val v = bp.val v := by
  induction vs generalizing bp xs with
  | nil => rfl
  | cons w vs ih =>
    cases xs with
    | nil => rfl
    | cons x xs =>
      rw [blueprint.set_vals_cons, ih _ _ (fun hh => h (List.mem_cons_of_mem _ hh)),
        blueprint.val_set_val, if_neg]
      rintro ⟨rfl, _⟩
      exact h (List.mem_cons_self _ _)

theorem blueprint.val_set_vals_of_mem_zip (bp : blueprint F) (vs : List Nat) (xs : List F)
    (hnd : vs.Nodup) (hlt : ∀ v ∈ vs, v < bp.values.length) (p : Nat × F)
    (hp : p ∈ vs.zip xs) : (bp.set_vals vs xs).val p.1 = some p.2 := by
  induction vs generalizing bp xs with
  | nil => simp at hp
  | cons w vs ih =>
    cases xs with
    | nil => simp at hp
    | cons x xs =>
      rw [blueprint.set_vals_cons]
      rw [List.zip_cons_cons, List.mem_cons] at hp
      rw [List.nodup_cons] at hnd
      rcases hp with rfl | hp
      · rw [blueprint.val_set_vals_of_not_mem _ _ _ _ hnd.1, blueprint.val_set_val,
          if_pos ⟨rfl, hlt _ (List.mem_cons_self _ _)⟩]
      · exact ih _ _ hnd.2
          (fun v hv => by
            rw [blueprint.length_set_val]; exact hlt v (List.mem_cons_of_mem _ hv)) hp

theorem blueprint.get_vals_set_vals (bp : blueprint F) (vs : List Nat) (xs : List F)
    (hnd : vs.Nodup) (hlt : ∀ v ∈ vs, v < bp.values.length) (hlen : vs.length = xs.length) :
    (bp.set_vals vs xs).get_vals vs = xs.map some := by
  induction vs generalizing bp xs with
  | nil =>
    cases xs with
    | nil => rfl
    | cons x xs => simp at hlen
  | cons w vs ih =>
    cases xs with
    | nil => simp at hlen
    | cons x xs =>
      rw [List.nodup_cons] at hnd
      rw [blueprint.set_vals_cons]
      unfold blueprint.get_vals
      rw [List.map_cons, List.map_cons]
      congr 1
      · rw [blueprint.val_set_vals_of_not_mem _ _ _ _ hnd.1, blueprint.val_set_val,
          if_pos ⟨rfl, hlt _ (List.mem_cons_self _ _)⟩]
      · exact ih _ _ hnd.2
          (fun v hv => by
            rw [blueprint.length_set_val]; exact hlt v (List.mem_cons_of_mem _ hv))
          (by simpa using hlen)

theorem blueprint.get_vals_set_vals_of_disjoint (bp : blueprint F) (vs ws : List Nat)
    (xs : List F) (h : ∀ v ∈ ws, v ∉ vs) : (bp.set_vals vs xs).get_vals ws = bp.get_vals ws :=
  List.map_congr_left fun v hv => blueprint.val_set_vals_of_not_mem _ _ _ _ (h v hv)

end snark

namespace snark

variable {F : Type}

/-! ## Evaluating the constraints of a formula -/

theorem blueprint.val_of_get_vals (bp : blueprint F) (vs : List Nat) (xs : List F) [Zero F]
    (h : bp.get_vals vs = xs.map some) (i : Nat) (hi : i < vs.length) :
    bp.val (vs.getD i 0) = some (xs.getD i 0) := by
  have hlen : vs.length = xs.length := by
    have := congrArg List.length h
    simpa [blueprint.get_vals] using this
  have h2 := congrArg (fun l => l.getD i none) h
  simp only [blueprint.get_vals] at h2
  rw [List.getD_eq_getElem _ _ hi, List.getD_eq_getElem _ _ (hlen ▸ hi)]
  rw [List.getD_eq_getElem _ _ (by simpa using hi),
    List.getD_eq_getElem _ _ (by simpa using (hlen ▸ hi))] at h2
  simpa using h2

theorem linear_combination.evaluate_of_variable [Field F] (a : List (Option F)) (v : Nat)
    (x : F) (h : a.getD v none = some x) :
    (linear_combination.of_variable v : linear_combination F).evaluate a = some x := by
  unfold linear_combination.of_variable linear_combination.evaluate
  simp only [List.foldr_cons, List.foldr_nil, h]
  simp

theorem linear_combination.evaluate_of_constant [Field F] (a : List (Option F)) (x : F) :
    (linear_combination.of_constant x).evaluate a = some x := rfl

theorem linear_combination.evaluate_terms [Field F] (a : List (Option F))
    (qs : List ((Nat × Nat) × Nat)) (c w : Nat × Nat → F)
    (h : ∀ q ∈ qs, a.getD q.2 none = some (w q.1)) (k0 : F) :
    ({ terms := qs.map fun q => (c q.1, q.2), constant := k0 } :
        linear_combination F).evaluate a
      = some ((qs.map fun q => c q.1 * w q.1).sum + k0) := by
  unfold linear_combination.evaluate
  induction qs with
  | nil => simp
  | cons q qs ih =>
    simp only [List.map_cons, List.foldr_cons, List.sum_cons]
    simp only [List.map_cons, List.foldr_cons] at ih
    rw [ih (fun q' hq' => h q' (List.mem_cons_of_mem _ hq')), h q (List.mem_cons_self _ _)]
    simp [add_assoc]

theorem mem_zip_values {α β γ : Type} (ps : List α) (vs : List β) (w : α → γ) (q : α × β)
    (hq : q ∈ ps.zip vs) : (q.2, w q.1) ∈ vs.zip (ps.map w) := by
  induction ps generalizing vs with
  | nil => simp at hq
  | cons p ps ih =>
    cases vs with
    | nil => simp at hq
    | cons v vs =>
      simp only [List.zip_cons_cons, List.mem_cons, List.map_cons] at hq ⊢
      rcases hq with rfl | hq
      · exact Or.inl rfl
      · exact Or.inr (ih vs hq)

theorem map_zip_fst {α β γ : Type} (ps : List α) (vs : List β) (g : α → γ)
    (h : ps.length = vs.length) : (ps.zip vs).map (fun q => g q.1) = ps.map g := by
  induction ps generalizing vs with
  | nil => simp
  | cons p ps ih =>
    cases vs with
    | nil => simp at h
    | cons v vs =>
      simp only [List.zip_cons_cons, List.map_cons]
      rw [ih vs (by simpa using h)]

/-- The constraints of a formula hold once the products and the result have
been recorded. -/
theorem formula_satisfied [Field F] [DecidableEq F] (bp : blueprint F) (A B result : VarT)
    (pairs : List (Nat × Nat)) (products : List Nat) (coefficient : Nat → Nat → Nat → F)
    (d : Nat) (x y vals : List F)
    (hA : bp.get_vals A.vars = x.map some) (hB : bp.get_vals B.vars = y.map some)
    (hpairs : ∀ p ∈ pairs, p.1 < A.vars.length ∧ p.2 < B.vars.length)
    (hnp : products.Nodup) (hnr : result.vars.Nodup)
    (hpl : ∀ v ∈ products, v < bp.values.length)
    (hrl : ∀ v ∈ result.vars, v < bp.values.length)
    (hpr : ∀ v ∈ products, v ∉ result.vars)
    (hAp : ∀ v ∈ A.vars, v ∉ products ∧ v ∉ result.vars)
    (hBp : ∀ v ∈ B.vars, v ∉ products ∧ v ∉ result.vars)
    (hlenp : pairs.length = products.length) (hlenr : result.vars.length = d)
    (hlenv : vals.length = d)
    (hvals : ∀ k < d, vals.getD k 0
      = (pairs.map fun p => coefficient p.1 p.2 k * (x.getD p.1 0 * y.getD p.2 0)).sum) :
    ((bp.set_vals products (pairs.map fun p => x.getD p.1 0 * y.getD p.2 0)).set_vals
        result.vars vals).get_vals result.vars = vals.map some ∧
    ∀ c ∈ product_constraints A B pairs products
        ++ linear_constraints coefficient pairs products result d,
      c.is_satisfied ((bp.set_vals products
        (pairs.map fun p => x.getD p.1 0 * y.getD p.2 0)).set_vals result.vars vals).values
        = true := by
  have hres : ((bp.set_vals products (pairs.map fun p => x.getD p.1 0 * y.getD p.2 0)).set_vals
        result.vars vals).get_vals result.vars = vals.map some :=
    blueprint.get_vals_set_vals _ _ _ hnr
      (fun v hv => by rw [(blueprint.set_vals_frame _ _ _).2]; exact hrl v hv)
      (by rw [hlenr, hlenv])
  have hprod : ∀ q ∈ pairs.zip products,
      ((bp.set_vals products (pairs.map fun p => x.getD p.1 0 * y.getD p.2 0)).set_vals
        result.vars vals).val q.2 = some (x.getD q.1.1 0 * y.getD q.1.2 0) := by
    intro q hq
    have hq2 : q.2 ∈ products := (List.of_mem_zip hq).2
    rw [blueprint.val_set_vals_of_not_mem _ _ _ _ (hpr _ hq2)]
    exact blueprint.val_set_vals_of_mem_zip bp products _ hnp hpl (q.2, _)
      (mem_zip_values pairs products (fun p => x.getD p.1 0 * y.getD p.2 0) q hq)
  have hAv : ∀ i < A.vars.length,
      ((bp.set_vals products (pairs.map fun p => x.getD p.1 0 * y.getD p.2 0)).set_vals
        result.vars vals).val (A.vars.getD i 0) = some (x.getD i 0) := by
    intro i hi
    have hm : A.vars.getD i 0 ∈ A.vars := by
      rw [List.getD_eq_getElem _ _ hi]; exact List.getElem_mem _
    rw [blueprint.val_set_vals_of_not_mem _ _ _ _ (hAp _ hm).2,
      blueprint.val_set_vals_of_not_mem _ _ _ _ (hAp _ hm).1]
    exact blueprint.val_of_get_vals bp _ _ hA i hi
  have hBv : ∀ i < B.vars.length,
      ((bp.set_vals products (pairs.map fun p => x.getD p.1 0 * y.getD p.2 0)).set_vals
        result.vars vals).val (B.vars.getD i 0) = some (y.getD i 0) := by
    intro i hi
    have hm : B.vars.getD i 0 ∈ B.vars := by
      rw [List.getD_eq_getElem _ _ hi]; exact List.getElem_mem _
    rw [blueprint.val_set_vals_of_not_mem _ _ _ _ (hBp _ hm).2,
      blueprint.val_set_vals_of_not_mem _ _ _ _ (hBp _ hm).1]
    exact blueprint.val_of_get_vals bp _ _ hB i hi
  refine ⟨hres, ?_⟩
  intro c hc
  rw [List.mem_append] at hc
  rcases hc with hc | hc
  · unfold product_constraints at hc
    rw [List.mem_map] at hc
    obtain ⟨q, hq, rfl⟩ := hc
    have hp := hpairs q.1 (List.of_mem_zip hq).1
    unfold r1cs_constraint.is_satisfied r1cs_constraint.product
    simp only
    rw [linear_combination.evaluate_of_variable _ _ _ (hAv _ hp.1),
      linear_combination.evaluate_of_variable _ _ _ (hBv _ hp.2),
      linear_combination.evaluate_of_variable _ _ _ (hprod q hq)]
    simp
  · unfold linear_constraints at hc
    rw [List.mem_map] at hc
    obtain ⟨k, hk, rfl⟩ := hc
    rw [List.mem_range] at hk
    have hrk := blueprint.val_of_get_vals _ _ _ hres k (by rw [hlenr]; exact hk)
    unfold r1cs_constraint.is_satisfied linear_constraint product_combination
    simp only
    have hz := map_zip_fst pairs products
      (fun p => coefficient p.1 p.2 k * (x.getD p.1 0 * y.getD p.2 0)) hlenp
    simp only at hz
    rw [linear_combination.evaluate_terms _ (pairs.zip products)
        (fun p => coefficient p.1 p.2 k) (fun p => x.getD p.1 0 * y.getD p.2 0) hprod,
      linear_combination.evaluate_of_constant,
      linear_combination.evaluate_of_variable _ _ _ hrk, hvals k hk, hz]
    simp

end snark

namespace snark

variable {F : Type}

/-! ## The formulas agree with the native product -/

theorem getD_map_range [Zero F] (f : Nat → F) (d k : Nat) (hk : k < d) :
    ((List.range d).map f).getD k 0 = f k := by
  rw [List.getD_eq_getElem _ _ (by simpa using hk)]
  simp

theorem sum_map_flatMap {α β : Type} [AddCommMonoid F] (l : List α) (f : α → List β)
    (g : β → F) :
    ((l.flatMap f).map g).sum = (l.map fun i => ((f i).map g).sum).sum := by
  induction l with
  | nil => simp
  | cons a l ih => simp [List.flatMap_cons, ih]

theorem sum_map_filter {α : Type} [AddCommMonoid F] (l : List α) (p : α → Prop)
    [DecidablePred p] (g : α → F) :
    ((l.filter fun j => p j).map g).sum = (l.map fun j => if p j then g j else 0).sum := by
  induction l with
  | nil => simp
  | cons a l ih =>
    by_cases h : p a
    · simp [List.filter_cons, h, ih]
    · simp [List.filter_cons, h, ih]

theorem sum_map_range [AddCommMonoid F] (f : Nat → F) (n : Nat) :
    ((List.range n).map f).sum = ∑ i in Finset.range n, f i := by
  induction n with
  | zero => simp
  | succ n ih => simp [List.range_succ, Finset.sum_range_succ, ih]

/-- Coordinate `k` of the native product is the combination of the base-field
products with the coefficients of the multiplication formula. -/
theorem FpExtT.mul_getD [Field F] (E : FpExtT F) (x y : List F) (k : Nat)
    (hk : k < E.degree) :
    (E.mul x y).getD k 0
      = ((mul_pairs E.degree).map fun p =>
          E.structure_constant p.1 p.2 k * (x.getD p.1 0 * y.getD p.2 0)).sum := by
  unfold FpExtT.mul mul_pairs
  rw [getD_map_range _ _ _ hk, sum_map_flatMap]
  simp only [List.map_map]
  rfl

/-- Summing over the pairs `i ≤ j` with the symmetrised coefficients is summing
over all pairs. -/
theorem sum_triangle [Field F] (T : Nat → Nat → F) (u : Nat → F) (d : Nat) :
    (∑ i in Finset.range d, ∑ j in Finset.range d,
        if i ≤ j then (if i = j then T i i else T i j + T j i) * (u i * u j) else 0)
      = ∑ i in Finset.range d, ∑ j in Finset.range d, T i j * (u i * u j) := by
  have hL : ∀ i j : Nat,
      (if i ≤ j then (if i = j then T i i else T i j + T j i) * (u i * u j) else 0)
        = (if i = j then T i j * (u i * u j) else 0)
          + (if i < j then T i j * (u i * u j) else 0)
          + (if i < j then T j i * (u j * u i) else 0) := by
    intro i j
    rcases Nat.lt_trichotomy i j with h | h | h
    · have h1 : i ≤ j := Nat.le_of_lt h
      have h2 : ¬ i = j := Nat.ne_of_lt h
      simp only [h1, h2, h, if_true, if_false]
      ring
    · subst h
      simp
    · have h1 : ¬ i ≤ j := Nat.not_le_of_lt h
      have h2 : ¬ i = j := fun e => Nat.lt_irrefl _ (e ▸ h)
      have h3 : ¬ i < j := Nat.lt_asymm h
      simp [h1, h2, h3]
  have hR : ∀ i j : Nat,
      T i j * (u i * u j)
        = (if i = j then T i j * (u i * u j) else 0)
          + (if i < j then T i j * (u i * u j) else 0)
          + (if j < i then T i j * (u i * u j) else 0) := by
    intro i j
    rcases Nat.lt_trichotomy i j with h | h | h
    · have h2 : ¬ i = j := Nat.ne_of_lt h
      have h3 : ¬ j < i := Nat.lt_asymm h
      simp [h, h2, h3]
    · subst h
      simp
    · have h2 : ¬ i = j := fun e => Nat.lt_irrefl _ (e ▸ h)
      have h3 : ¬ i < j := Nat.lt_asymm h
      simp [h, h2, h3]
  have hswap : (∑ i in Finset.range d, ∑ j in Finset.range d,
        if i < j then T j i * (u j * u i) else 0)
      = ∑ i in Finset.range d, ∑ j in Finset.range d,
        if j < i then T i j * (u i * u j) else 0 :=
    Finset.sum_comm
  simp_rw [hL]
  rw [Finset.sum_congr rfl (fun i _ => Finset.sum_congr rfl (fun j _ => hR i j))]
  simp only [Finset.sum_add_distrib]
  rw [hswap]

/-- Coordinate `k` of the native square is the combination of the base-field
products of the squaring formula with its coefficients. -/
theorem FpExtT.squared_getD [Field F] (E : FpExtT F) (x : List F) (k : Nat)
    (hk : k < E.degree) :
    (E.squared x).getD k 0
      = ((sqr_pairs E.degree).map fun p =>
          E.sqr_coefficient p.1 p.2 k * (x.getD p.1 0 * x.getD p.2 0)).sum := by
  unfold FpExtT.squared FpExtT.mul sqr_pairs
  rw [getD_map_range _ _ _ hk, sum_map_flatMap]
  simp only [List.map_map, Function.comp_def, sum_map_filter, sum_map_range]
  unfold FpExtT.sqr_coefficient
  exact (sum_triangle (fun i j => E.structure_constant i j k) (fun i => x.getD i 0)
    E.degree).symm

end snark

namespace snark

variable {F : Type}

/-! ## The flows of `test_mul` and `test_sqr` -/


theorem foldl_add_r1cs_constraint (ks : List (r1cs_constraint F)) (bp : blueprint F) :
    ks.foldl blueprint.add_r1cs_constraint bp
      = { values := bp.values, constraints := bp.constraints ++ ks } := by
  induction ks generalizing bp with
  | nil => simp
  | cons k ks ih => rw [List.foldl_cons, ih]; simp [blueprint.add_r1cs_constraint]

theorem mem_mul_pairs (d : Nat) (p : Nat × Nat) (h : p ∈ mul_pairs d) : p.1 < d ∧ p.2 < d := by
  unfold mul_pairs at h
  simp only [List.mem_flatMap, List.mem_map, List.mem_range] at h
  obtain ⟨i, hi, j, hj, rfl⟩ := h
  exact ⟨hi, hj⟩

theorem mem_sqr_pairs (d : Nat) (p : Nat × Nat) (h : p ∈ sqr_pairs d) : p.1 < d ∧ p.2 < d := by
  unfold sqr_pairs at h
  simp only [List.mem_flatMap, List.mem_map, List.mem_range, List.mem_filter] at h
  obtain ⟨i, hi, j, hj, rfl⟩ := h
  exact ⟨hi, hj.1⟩

theorem coordinates_of_get_vals [Zero F] (x : VarT) (bp : blueprint F) (xs : List F)
    (h : bp.get_vals x.vars = xs.map some) : x.coordinates bp = xs := by
  unfold VarT.coordinates
  rw [h, List.map_map]
  simp [Function.comp_def]

/-- The witness pass of the multiplication component, on operands that hold
`x` and `y`, records the native product in the result and satisfies the
constraints of the component. -/
theorem MulT.mul_pass_correct [Field F] [DecidableEq F] (g : MulT F) (bp : blueprint F)
    (x y : List F)
    (hA : bp.get_vals g.A.vars = x.map some) (hB : bp.get_vals g.B.vars = y.map some)
    (hAl : g.A.vars.length = g.E.degree) (hBl : g.B.vars.length = g.E.degree)
    (hrl : g.result.vars.length = g.E.degree)
    (hpl : (mul_pairs g.E.degree).length = g.products.length)
    (hnp : g.products.Nodup) (hnr : g.result.vars.Nodup)
    (hpb : ∀ v ∈ g.products, v < bp.values.length)
    (hrb : ∀ v ∈ g.result.vars, v < bp.values.length)
    (hpr : ∀ v ∈ g.products, v ∉ g.result.vars)
    (hAp : ∀ v ∈ g.A.vars, v ∉ g.products ∧ v ∉ g.result.vars)
    (hBp : ∀ v ∈ g.B.vars, v ∉ g.products ∧ v ∉ g.result.vars) :
    (g.generate_r1cs_witness bp).get_vals g.result.vars = (g.E.mul x y).map some ∧
    ∀ c ∈ g.constraints, c.is_satisfied (g.generate_r1cs_witness bp).values = true := by
  unfold MulT.generate_r1cs_witness MulT.constraints
  rw [coordinates_of_get_vals g.A bp x hA, coordinates_of_get_vals g.B bp y hB]
  exact formula_satisfied bp g.A g.B g.result (mul_pairs g.E.degree) g.products
    g.E.structure_constant g.E.degree x y (g.E.mul x y) hA hB
    (fun p hp => by rw [hAl, hBl]; exact mem_mul_pairs _ p hp)
    hnp hnr hpb hrb hpr hAp hBp hpl hrl (by simp [FpExtT.mul])
    (fun k hk => g.E.mul_getD x y k hk)

/-- The witness pass of the squaring component, on an operand that holds `x`,
records the native square in the result and satisfies the constraints of the
component. -/
theorem SqrT.sqr_pass_correct [Field F] [DecidableEq F] (g : SqrT F) (bp : blueprint F)
    (x : List F)
    (hA : bp.get_vals g.A.vars = x.map some)
    (hAl : g.A.vars.length = g.E.degree)
    (hrl : g.result.vars.length = g.E.degree)
    (hpl : (sqr_pairs g.E.degree).length = g.products.length)
    (hnp : g.products.Nodup) (hnr : g.result.vars.Nodup)
    (hpb : ∀ v ∈ g.products, v < bp.values.length)
    (hrb : ∀ v ∈ g.result.vars, v < bp.values.length)
    (hpr : ∀ v ∈ g.products, v ∉ g.result.vars)
    (hAp : ∀ v ∈ g.A.vars, v ∉ g.products ∧ v ∉ g.result.vars) :
    (g.generate_r1cs_witness bp).get_vals g.result.vars = (g.E.squared x).map some ∧
    ∀ c ∈ g.constraints, c.is_satisfied (g.generate_r1cs_witness bp).values = true := by
  unfold SqrT.generate_r1cs_witness SqrT.constraints
  rw [coordinates_of_get_vals g.A bp x hA]
  exact formula_satisfied bp g.A g.A g.result (sqr_pairs g.E.degree) g.products
    g.E.sqr_coefficient g.E.degree x x (g.E.squared x) hA hA
    (fun p hp => by rw [hAl]; exact mem_sqr_pairs _ p hp)
    hnp hnr hpb hrb hpr hAp hAp hpl hrl (by simp [FpExtT.squared, FpExtT.mul])
    (fun k hk => g.E.squared_getD x k hk)

theorem test_mul_setup_eq [Field F] (E : FpExtT F) :
    test_mul_setup E
      = ({ vars := List.range' 0 E.degree }, { vars := List.range' E.degree E.degree },
          { vars := List.range' (E.degree + E.degree) E.degree },
          { E := E, A := { vars := List.range' 0 E.degree },
            B := { vars := List.range' E.degree E.degree },
            result := { vars := List.range' (E.degree + E.degree) E.degree },
            products := List.range' (E.degree + E.degree + E.degree)
              (mul_pairs E.degree).length },
          { values := List.replicate E.degree none ++ List.replicate E.degree none
              ++ List.replicate E.degree none
              ++ List.replicate (mul_pairs E.degree).length none,
            constraints := MulT.constraints
              { E := E, A := { vars := List.range' 0 E.degree },
                B := { vars := List.range' E.degree E.degree },
                result := { vars := List.range' (E.degree + E.degree) E.degree },
                products := List.range' (E.degree + E.degree + E.degree)
                  (mul_pairs E.degree).length } }) := by
  simp only [test_mul_setup, VarT.construct, MulT.construct, blueprint.allocate,
    blueprint.empty, MulT.generate_r1cs_constraints,
    foldl_add_r1cs_constraint, List.length_append, List.length_replicate,
    List.length_nil, List.nil_append, Nat.zero_add]

theorem test_mul_run [Field F] [DecidableEq F] (E : FpExtT F) (a : List (Option F))
    (x_val y_val : List F)
    (ha : a.length = (test_mul_setup E).2.2.2.2.num_variables)
    (hx : x_val.length = E.degree) (hy : y_val.length = E.degree) :
    (test_mul_setup E).2.2.1.get_element (test_mul E a x_val y_val)
      = (E.mul x_val y_val).map some ∧
    (test_mul E a x_val y_val).constraints = (test_mul_setup E).2.2.2.1.constraints ∧
    (∀ c ∈ (test_mul_setup E).2.2.2.1.constraints,
      c.is_satisfied (test_mul E a x_val y_val).values = true) ∧
    (test_mul E a x_val y_val).values.length = a.length := by
  unfold test_mul
  have hX : (test_mul_setup E).1.vars = List.range' 0 E.degree := by rw [test_mul_setup_eq]
  have hY : (test_mul_setup E).2.1.vars = List.range' E.degree E.degree := by
    rw [test_mul_setup_eq]
  have hgE : (test_mul_setup E).2.2.2.1.E = E := by rw [test_mul_setup_eq]
  have hgA : (test_mul_setup E).2.2.2.1.A.vars = List.range' 0 E.degree := by
    rw [test_mul_setup_eq]
  have hgB : (test_mul_setup E).2.2.2.1.B.vars = List.range' E.degree E.degree := by
    rw [test_mul_setup_eq]
  have hgr : (test_mul_setup E).2.2.2.1.result.vars
      = List.range' (E.degree + E.degree) E.degree := by rw [test_mul_setup_eq]
  have hXY : (test_mul_setup E).2.2.1.vars = (test_mul_setup E).2.2.2.1.result.vars := by
    rw [test_mul_setup_eq]
  have hgp : (test_mul_setup E).2.2.2.1.products
      = List.range' (E.degree + E.degree + E.degree) (mul_pairs E.degree).length := by
    rw [test_mul_setup_eq]
  have hbc : (test_mul_setup E).2.2.2.2.constraints
      = (test_mul_setup E).2.2.2.1.constraints := by rw [test_mul_setup_eq]
  have ha2 : a.length = E.degree + E.degree + E.degree + (mul_pairs E.degree).length := by
    rw [ha, test_mul_setup_eq]
    simp [blueprint.num_variables]
  clear ha
  generalize test_mul_setup E = S at *
  obtain ⟨X, Y, XY, g, b⟩ := S
  simp only at hX hY hgE hgA hgB hgr hXY hgp hbc ⊢
  simp only [VarT.get_element, VarT.generate_r1cs_witness, hX, hY, hXY]
  generalize hb0 : b.with_values a = b0
  have hl0 : b0.values.length = a.length := by rw [← hb0]; rfl
  have hc0 : b0.constraints = g.constraints := by rw [← hb0, ← hbc]; rfl
  have ha := ha2
  have hl1 : (b0.set_vals (List.range' 0 E.degree) x_val).values.length = a.length := by
    rw [(blueprint.set_vals_frame _ _ _).2, hl0]
  have hl2 : ((b0.set_vals (List.range' 0 E.degree) x_val).set_vals
      (List.range' E.degree E.degree) y_val).values.length = a.length := by
    rw [(blueprint.set_vals_frame _ _ _).2, hl1]
  have hA : ((b0.set_vals (List.range' 0 E.degree) x_val).set_vals
      (List.range' E.degree E.degree) y_val).get_vals g.A.vars = x_val.map some := by
    rw [hgA, blueprint.get_vals_set_vals_of_disjoint _ _ _ _
      (fun v hv hv2 => by
        have h1 := mem_range_bounds hv
        have h2 := mem_range_bounds hv2
        omega)]
    exact blueprint.get_vals_set_vals _ _ _ (List.nodup_range' _ _)
      (fun v hv => by have := mem_range_bounds hv; omega) (by simp [hx])
  have hB : ((b0.set_vals (List.range' 0 E.degree) x_val).set_vals
      (List.range' E.degree E.degree) y_val).get_vals g.B.vars = y_val.map some := by
    rw [hgB]
    exact blueprint.get_vals_set_vals _ _ _ (List.nodup_range' _ _)
      (fun v hv => by have := mem_range_bounds hv; omega) (by simp [hy])
  have hw := MulT.mul_pass_correct g _ x_val y_val hA hB (by simp [hgA, hgE])
    (by simp [hgB, hgE]) (by simp [hgr, hgE]) (by simp [hgp, hgE])
    (by rw [hgp]; exact List.nodup_range' _ _) (by rw [hgr]; exact List.nodup_range' _ _)
    (fun v hv => by rw [hgp] at hv; have := mem_range_bounds hv; omega)
    (fun v hv => by rw [hgr] at hv; have := mem_range_bounds hv; omega)
    (fun v hv hv2 => by
      rw [hgp] at hv; rw [hgr] at hv2
      have h1 := mem_range_bounds hv
      have h2 := mem_range_bounds hv2
      omega)
    (fun v hv => by
      rw [hgA] at hv; rw [hgp, hgr]
      have h1 := mem_range_bounds hv
      exact ⟨fun hv2 => by have h2 := mem_range_bounds hv2; omega,
        fun hv2 => by have h2 := mem_range_bounds hv2; omega⟩)
    (fun v hv => by
      rw [hgB] at hv; rw [hgp, hgr]
      have h1 := mem_range_bounds hv
      exact ⟨fun hv2 => by have h2 := mem_range_bounds hv2; omega,
        fun hv2 => by have h2 := mem_range_bounds hv2; omega⟩)
  rw [hgE] at hw
  refine ⟨hw.1, ?_, hw.2, ?_⟩
  · unfold MulT.generate_r1cs_witness
    rw [(blueprint.set_vals_frame _ _ _).1, (blueprint.set_vals_frame _ _ _).1,
      (blueprint.set_vals_frame _ _ _).1, (blueprint.set_vals_frame _ _ _).1, hc0]
  · unfold MulT.generate_r1cs_witness
    rw [(blueprint.set_vals_frame _ _ _).2, (blueprint.set_vals_frame _ _ _).2, hl2]

end snark

namespace snark

variable {F : Type}

theorem test_sqr_setup_eq [Field F] (E : FpExtT F) :
    test_sqr_setup E
      = ({ vars := List.range' 0 E.degree }, { vars := List.range' E.degree E.degree },
          { E := E, A := { vars := List.range' 0 E.degree },
            result := { vars := List.range' E.degree E.degree },
            products := List.range' (E.degree + E.degree) (sqr_pairs E.degree).length },
          { values := List.replicate E.degree none ++ List.replicate E.degree none
              ++ List.replicate (sqr_pairs E.degree).length none,
            constraints := SqrT.constraints
              { E := E, A := { vars := List.range' 0 E.degree },
                result := { vars := List.range' E.degree E.degree },
                products := List.range' (E.degree + E.degree)
                  (sqr_pairs E.degree).length } }) := by
  simp only [test_sqr_setup, VarT.construct, SqrT.construct, blueprint.allocate,
    blueprint.empty, SqrT.generate_r1cs_constraints,
    foldl_add_r1cs_constraint, List.length_append, List.length_replicate,
    List.length_nil, List.nil_append, Nat.zero_add]

theorem test_sqr_run [Field F] [DecidableEq F] (E : FpExtT F) (a : List (Option F))
    (x_val : List F)
    (ha : a.length = (test_sqr_setup E).2.2.2.num_variables)
    (hx : x_val.length = E.degree) :
    (test_sqr_setup E).2.1.get_element (test_sqr E a x_val)
      = (E.squared x_val).map some ∧
    (test_sqr E a x_val).constraints = (test_sqr_setup E).2.2.1.constraints ∧
    (∀ c ∈ (test_sqr_setup E).2.2.1.constraints,
      c.is_satisfied (test_sqr E a x_val).values = true) ∧
    (test_sqr E a x_val).values.length = a.length := by
  unfold test_sqr
  have hX : (test_sqr_setup E).1.vars = List.range' 0 E.degree := by rw [test_sqr_setup_eq]
  have hgE : (test_sqr_setup E).2.2.1.E = E := by rw [test_sqr_setup_eq]
  have hgA : (test_sqr_setup E).2.2.1.A.vars = List.range' 0 E.degree := by
    rw [test_sqr_setup_eq]
  have hgr : (test_sqr_setup E).2.2.1.result.vars = List.range' E.degree E.degree := by
    rw [test_sqr_setup_eq]
  have hXY : (test_sqr_setup E).2.1.vars = (test_sqr_setup E).2.2.1.result.vars := by
    rw [test_sqr_setup_eq]
  have hgp : (test_sqr_setup E).2.2.1.products
      = List.range' (E.degree + E.degree) (sqr_pairs E.degree).length := by
    rw [test_sqr_setup_eq]
  have hbc : (test_sqr_setup E).2.2.2.constraints
      = (test_sqr_setup E).2.2.1.constraints := by rw [test_sqr_setup_eq]
  have ha2 : a.length = E.degree + E.degree + (sqr_pairs E.degree).length := by
    rw [ha, test_sqr_setup_eq]
    simp [blueprint.num_variables]
  clear ha
  generalize test_sqr_setup E = S at *
  obtain ⟨X, XY, g, b⟩ := S
  simp only at hX hgE hgA hgr hXY hgp hbc ⊢
  simp only [VarT.get_element, VarT.generate_r1cs_witness, hX, hXY]
  generalize hb0 : b.with_values a = b0
  have hl0 : b0.values.length = a.length := by rw [← hb0]; rfl
  have hc0 : b0.constraints = g.constraints := by rw [← hb0, ← hbc]; rfl
  have ha := ha2
  have hl1 : (b0.set_vals (List.range' 0 E.degree) x_val).values.length = a.length := by
    rw [(blueprint.set_vals_frame _ _ _).2, hl0]
  have hA : (b0.set_vals (List.range' 0 E.degree) x_val).get_vals g.A.vars
      = x_val.map some := by
    rw [hgA]
    exact blueprint.get_vals_set_vals _ _ _ (List.nodup_range' _ _)
      (fun v hv => by have := mem_range_bounds hv; omega) (by simp [hx])
  have hw := SqrT.sqr_pass_correct g _ x_val hA (by simp [hgA, hgE])
    (by simp [hgr, hgE]) (by simp [hgp, hgE])
    (by rw [hgp]; exact List.nodup_range' _ _) (by rw [hgr]; exact List.nodup_range' _ _)
    (fun v hv => by rw [hgp] at hv; have := mem_range_bounds hv; omega)
    (fun v hv => by rw [hgr] at hv; have := mem_range_bounds hv; omega)
    (fun v hv hv2 => by
      rw [hgp] at hv; rw [hgr] at hv2
      have h1 := mem_range_bounds hv
      have h2 := mem_range_bounds hv2
      omega)
    (fun v hv => by
      rw [hgA] at hv; rw [hgp, hgr]
      have h1 := mem_range_bounds hv
      exact ⟨fun hv2 => by have h2 := mem_range_bounds hv2; omega,
        fun hv2 => by have h2 := mem_range_bounds hv2; omega⟩)
  rw [hgE] at hw
  refine ⟨hw.1, ?_, hw.2, ?_⟩
  · unfold SqrT.generate_r1cs_witness
    rw [(blueprint.set_vals_frame _ _ _).1, (blueprint.set_vals_frame _ _ _).1,
      (blueprint.set_vals_frame _ _ _).1, hc0]
  · unfold SqrT.generate_r1cs_witness
    rw [(blueprint.set_vals_frame _ _ _).2, (blueprint.set_vals_frame _ _ _).2, hl1]

/-! ## Corrupting the output -/

theorem blueprint.add_to_val_of_val [Add F] (bp : blueprint F) (v : Nat) (z delta : F)
    (h : bp.val v = some z) : bp.add_to_val v delta = bp.set_val v (z + delta) := by
  unfold blueprint.add_to_val
  rw [h]

/-- A linear constraint of a formula that held no longer holds once a nonzero
value has been added to the result coordinate it defines. -/
theorem linear_constraint_corrupted [Field F] [DecidableEq F] (bp : blueprint F)
    (coefficient : Nat → Nat → Nat → F) (pairs : List (Nat × Nat)) (products : List Nat)
    (result : VarT) (k : Nat) (delta : F) (hdelta : delta ≠ 0)
    (hnot : result.vars.getD k 0 ∉ products)
    (hlt : result.vars.getD k 0 < bp.values.length)
    (hsat : (linear_constraint coefficient pairs products result k).is_satisfied bp.values
      = true) :
    (linear_constraint coefficient pairs products result k).is_satisfied
      (bp.add_to_val (result.vars.getD k 0) delta).values = false := by
  unfold r1cs_constraint.is_satisfied linear_constraint at hsat ⊢
  simp only at hsat ⊢
  rw [linear_combination.evaluate_of_constant] at hsat ⊢
  cases hv : bp.val (result.vars.getD k 0) with
  | none =>
    have hc : (linear_combination.of_variable (result.vars.getD k 0) :
        linear_combination F).evaluate bp.values = none := by
      unfold blueprint.val at hv
      unfold linear_combination.of_variable linear_combination.evaluate
      simp only [List.foldr_cons, List.foldr_nil, hv]
    rw [hc] at hsat
    cases h : (product_combination coefficient pairs products k).evaluate bp.values <;>
      rw [h] at hsat <;> simp at hsat
  | some z =>
    rw [blueprint.add_to_val_of_val _ _ _ _ hv]
    have hc := linear_combination.evaluate_of_variable bp.values (result.vars.getD k 0) z hv
    have hv2 : (bp.set_val (result.vars.getD k 0) (z + delta)).val (result.vars.getD k 0)
        = some (z + delta) := by
      rw [blueprint.val_set_val, if_pos ⟨rfl, hlt⟩]
    have hc2 := linear_combination.evaluate_of_variable
      (bp.set_val (result.vars.getD k 0) (z + delta)).values (result.vars.getD k 0)
      (z + delta) hv2
    have ha : (product_combination coefficient pairs products k).evaluate
          (bp.set_val (result.vars.getD k 0) (z + delta)).values
        = (product_combination coefficient pairs products k).evaluate bp.values := by
      apply linear_combination.evaluate_congr
      intro v hv3
      have hne : v ≠ result.vars.getD k 0 := by
        rintro rfl
        apply hnot
        simp only [product_combination, linear_combination.vars, List.map_map,
          List.mem_map] at hv3
        obtain ⟨q, hq, hq2⟩ := hv3
        simp only [Function.comp] at hq2
        rw [← hq2]
        exact (List.of_mem_zip hq).2
      have := blueprint.val_set_val bp (result.vars.getD k 0) v (z + delta)
      rw [if_neg (fun hh => hne hh.1)] at this
      exact this
    rw [hc] at hsat
    rw [ha, hc2]
    cases h : (product_combination coefficient pairs products k).evaluate bp.values with
    | none => rfl
    | some s =>
      rw [h] at hsat
      simp only [decide_eq_true_eq] at hsat
      simp only [decide_eq_false_iff_not]
      rw [hsat]
      intro hh
      exact hdelta (by simpa using hh)

theorem is_satisfied_false_of_mem [Field F] [DecidableEq F] (bp : blueprint F)
    (c : r1cs_constraint F) (hc : c ∈ bp.constraints)
    (h : c.is_satisfied bp.values = false) : bp.is_satisfied = false := by
  cases hs : bp.is_satisfied with
  | false => rfl
  | true =>
    unfold blueprint.is_satisfied at hs
    rw [List.all_eq_true] at hs
    rw [hs c hc] at h
    exact absurd h (by simp)

theorem getD_mem_of_lt (l : List Nat) (k : Nat) (hk : k < l.length) : l.getD k 0 ∈ l := by
  rw [List.getD_eq_getElem _ _ hk]
  exact List.getElem_mem _

end snark

namespace snark

variable {F : Type}

theorem is_satisfied_of_all [Field F] [DecidableEq F] (bp : blueprint F)
    (cs : List (r1cs_constraint F)) (hcs : bp.constraints = cs)
    (h : ∀ c ∈ cs, c.is_satisfied bp.values = true) : bp.is_satisfied = true := by
  unfold blueprint.is_satisfied
  rw [List.all_eq_true, hcs]
  exact h

/-- Adding a nonzero value to coordinate `k` of the result of a formula, on a
blueprint whose constraints are those of the formula and hold, leaves the new
value in that coordinate and the blueprint unsatisfied. -/
theorem formula_corrupted [Field F] [DecidableEq F] (bp : blueprint F)
    (coefficient : Nat → Nat → Nat → F) (pairs : List (Nat × Nat)) (products : List Nat)
    (A B result : VarT) (d k : Nat) (delta : F) (vals : List F) (hk : k < d)
    (hdelta : delta ≠ 0) (hlen : result.vars.length = d)
    (hcs : bp.constraints = product_constraints A B pairs products
      ++ linear_constraints coefficient pairs products result d)
    (hsat : ∀ c ∈ bp.constraints, c.is_satisfied bp.values = true)
    (hres : bp.get_vals result.vars = vals.map some)
    (hnot : ∀ v ∈ result.vars, v ∉ products ∧ v < bp.values.length) :
    (bp.add_to_val (result.vars.getD k 0) delta).val (result.vars.getD k 0)
      = some (vals.getD k 0 + delta) ∧
    (bp.add_to_val (result.vars.getD k 0) delta).is_satisfied = false := by
  have hm := getD_mem_of_lt result.vars k (hlen ▸ hk)
  have hv := blueprint.val_of_get_vals bp _ _ hres k (hlen ▸ hk)
  have hin : linear_constraint coefficient pairs products result k ∈ bp.constraints := by
    rw [hcs]
    apply List.mem_append_right
    unfold linear_constraints
    exact List.mem_map.2 ⟨k, List.mem_range.2 hk, rfl⟩
  have hc := linear_constraint_corrupted bp coefficient pairs products result k delta hdelta
    (hnot _ hm).1 (hnot _ hm).2 (hsat _ hin)
  refine ⟨?_, is_satisfied_false_of_mem _ _ ?_ hc⟩
  · rw [blueprint.add_to_val_of_val _ _ _ _ hv, blueprint.val_set_val,
      if_pos ⟨rfl, (hnot _ hm).2⟩]
  · rw [blueprint.add_to_val_of_val _ _ _ _ hv]
    exact hin

/-- The layout of `test_mul`: the result of the component is `xy`, of as many
coordinates as the degree, allocated before the products. -/
theorem test_mul_layout [Field F] (E : FpExtT F) :
    (test_mul_setup E).2.2.1.vars = (test_mul_setup E).2.2.2.1.result.vars ∧
    (test_mul_setup E).2.2.2.1.result.vars.length = E.degree ∧
    (∀ v ∈ (test_mul_setup E).2.2.2.1.result.vars,
      v ∉ (test_mul_setup E).2.2.2.1.products ∧
      v < (test_mul_setup E).2.2.2.2.num_variables) ∧
    (test_mul_setup E).2.2.2.1.constraints
      = product_constraints (test_mul_setup E).2.2.2.1.A (test_mul_setup E).2.2.2.1.B
          (mul_pairs E.degree) (test_mul_setup E).2.2.2.1.products
        ++ linear_constraints E.structure_constant (mul_pairs E.degree)
          (test_mul_setup E).2.2.2.1.products (test_mul_setup E).2.2.2.1.result E.degree := by
  rw [test_mul_setup_eq]
  refine ⟨rfl, by simp, ?_, rfl⟩
  intro v hv
  have h1 := mem_range_bounds hv
  refine ⟨fun hv2 => ?_, ?_⟩
  · have h2 := mem_range_bounds hv2
    omega
  · simp only [blueprint.num_variables, List.length_append, List.length_replicate]
    omega

/-- The layout of `test_sqr`: the result of the component is `xsq`, of as many
coordinates as the degree, allocated before the products. -/
theorem test_sqr_layout [Field F] (E : FpExtT F) :
    (test_sqr_setup E).2.1.vars = (test_sqr_setup E).2.2.1.result.vars ∧
    (test_sqr_setup E).2.2.1.result.vars.length = E.degree ∧
    (∀ v ∈ (test_sqr_setup E).2.2.1.result.vars,
      v ∉ (test_sqr_setup E).2.2.1.products ∧
      v < (test_sqr_setup E).2.2.2.num_variables) ∧
    (test_sqr_setup E).2.2.1.constraints
      = product_constraints (test_sqr_setup E).2.2.1.A (test_sqr_setup E).2.2.1.A
          (sqr_pairs E.degree) (test_sqr_setup E).2.2.1.products
        ++ linear_constraints E.sqr_coefficient (sqr_pairs E.degree)
          (test_sqr_setup E).2.2.1.products (test_sqr_setup E).2.2.1.result E.degree := by
  rw [test_sqr_setup_eq]
  refine ⟨rfl, by simp, ?_, rfl⟩
  intro v hv
  have h1 := mem_range_bounds hv
  refine ⟨fun hv2 => ?_, ?_⟩
  · have h2 := mem_range_bounds hv2
    omega
  · simp only [blueprint.num_variables, List.length_append, List.length_replicate]
    omega

/-- C8. Multiplication component: for every extension field the components are
built for (in particular those of degree 2, 3, 4 and 6) and all values `x` and
`y` of it, after the witness passes of `x`, `y` and the multiplication
component, entered with any assignment of the variables, the output variable
`xy` holds the native field product `x * y` and the blueprint is satisfied. -/
theorem mul_component_correct [Field F] [DecidableEq F] (E : FpExtT F)
    (a : List (Option F)) (x_val y_val : List F)
    (ha : a.length = (test_mul_setup E).2.2.2.2.num_variables)
    (hx : x_val.length = E.degree) (hy : y_val.length = E.degree) :
    (test_mul_setup E).2.2.1.get_element (test_mul E a x_val y_val)
      = (E.mul x_val y_val).map some ∧
    (test_mul E a x_val y_val).is_satisfied = true := by
  obtain ⟨h1, h2, h3, _⟩ := test_mul_run E a x_val y_val ha hx hy
  exact ⟨h1, is_satisfied_of_all _ _ h2 h3⟩

/-- C9. Soundness of the multiplication and squaring components: for every `x`
and `y`, after an honest witness pass, adding any nonzero `delta` to a
coordinate `k` of the output variable, every other variable left as it is,
changes that coordinate to the native value plus `delta` and makes
`is_satisfied()` false. -/
theorem corrupted_output_unsatisfied [Field F] [DecidableEq F] (E : FpExtT F) (k : Nat)
    (delta : F) (hk : k < E.degree) (hdelta : delta ≠ 0) :
    (∀ (a : List (Option F)) (x_val y_val : List F),
      a.length = (test_mul_setup E).2.2.2.2.num_variables →
      x_val.length = E.degree → y_val.length = E.degree →
      ((test_mul E a x_val y_val).add_to_val ((test_mul_setup E).2.2.1.vars.getD k 0)
          delta).val ((test_mul_setup E).2.2.1.vars.getD k 0)
        = some ((E.mul x_val y_val).getD k 0 + delta) ∧
      ((test_mul E a x_val y_val).add_to_val ((test_mul_setup E).2.2.1.vars.getD k 0)
          delta).is_satisfied = false) ∧
    (∀ (a : List (Option F)) (x_val : List F),
      a.length = (test_sqr_setup E).2.2.2.num_variables →
      x_val.length = E.degree →
      ((test_sqr E a x_val).add_to_val ((test_sqr_setup E).2.1.vars.getD k 0)
          delta).val ((test_sqr_setup E).2.1.vars.getD k 0)
        = some ((E.squared x_val).getD k 0 + delta) ∧
      ((test_sqr E a x_val).add_to_val ((test_sqr_setup E).2.1.vars.getD k 0)
          delta).is_satisfied = false) := by
  refine ⟨?_, ?_⟩
  · intro a x_val y_val ha hx hy
    obtain ⟨h1, h2, h3, h4⟩ := test_mul_run E a x_val y_val ha hx hy
    obtain ⟨l1, l2, l3, l4⟩ := test_mul_layout E
    rw [l1]
    unfold VarT.get_element at h1
    rw [l1] at h1
    exact formula_corrupted _ E.structure_constant (mul_pairs E.degree) _ _ _ _ E.degree k
      delta _ hk hdelta l2 (h2.trans l4) (fun c hc => h3 c (h2 ▸ hc)) h1
      (fun v hv => ⟨(l3 v hv).1, by rw [h4, ha]; exact (l3 v hv).2⟩)
  · intro a x_val ha hx
    obtain ⟨h1, h2, h3, h4⟩ := test_sqr_run E a x_val ha hx
    obtain ⟨l1, l2, l3, l4⟩ := test_sqr_layout E
    rw [l1]
    unfold VarT.get_element at h1
    rw [l1] at h1
    exact formula_corrupted _ E.sqr_coefficient (sqr_pairs E.degree) _ _ _ _ E.degree k
      delta _ hk hdelta l2 (h2.trans l4) (fun c hc => h3 c (h2 ▸ hc)) h1
      (fun v hv => ⟨(l3 v hv).1, by rw [h4, ha]; exact (l3 v hv).2⟩)

/-- C10. Squaring component: for every extension field the components are built
for (in particular those of degree 2, 3, 4 and 6) and every value `x` of it,
after the witness passes of `x` and the squaring component, entered with any
assignment of the variables, the output variable holds `x.squared()`, which is
the output of the multiplication component on `(x, x)`, and the blueprint is
satisfied. -/
theorem sqr_component_correct [Field F] [DecidableEq F] (E : FpExtT F)
    (a b : List (Option F)) (x_val : List F)
    (ha : a.length = (test_sqr_setup E).2.2.2.num_variables)
    (hb : b.length = (test_mul_setup E).2.2.2.2.num_variables)
    (hx : x_val.length = E.degree) :
    (test_sqr_setup E).2.1.get_element (test_sqr E a x_val)
      = (E.squared x_val).map some ∧
    (test_sqr_setup E).2.1.get_element (test_sqr E a x_val)
      = (test_mul_setup E).2.2.1.get_element (test_mul E b x_val x_val) ∧
    (test_sqr E a x_val).is_satisfied = true := by
  obtain ⟨h1, h2, h3, _⟩ := test_sqr_run E a x_val ha hx
  obtain ⟨m1, _, _, _⟩ := test_mul_run E b x_val x_val hb hx hx
  exact ⟨h1, by rw [h1, m1]; rfl, is_satisfied_of_all _ _ h2 h3⟩

end snark

namespace snark

theorem small_extension_mul : small_extension.mul [1, 2] [3, 4] = [-5, 10] := by
  norm_num [FpExtT.mul, small_extension, FpExtT.binomial, List.range_succ]

theorem small_extension_squared : small_extension.squared [1, 2] = [-3, 4] := by
  norm_num [FpExtT.squared, FpExtT.mul, small_extension, FpExtT.binomial, List.range_succ]

/-- The product of `1 + 2i` and `3 + 4i` in the small extension. -/
theorem mul_component_correct_witness :
    (test_mul_setup small_extension).2.2.1.get_element
        (test_mul small_extension (List.replicate 10 none) [1, 2] [3, 4])
      = [some (-5), some 10] ∧
    (test_mul small_extension (List.replicate 10 none) [1, 2] [3, 4]).is_satisfied = true := by
  have h := mul_component_correct small_extension (List.replicate 10 none) [1, 2] [3, 4]
    (by rw [test_mul_setup_eq]; rfl) rfl rfl
  rw [small_extension_mul] at h
  exact h

/-- Adding 7 to the second coordinate of the outputs in the small extension. -/
theorem corrupted_output_unsatisfied_witness :
    ((test_mul small_extension (List.replicate 10 none) [1, 2] [3, 4]).add_to_val
        ((test_mul_setup small_extension).2.2.1.vars.getD 1 0) 7).is_satisfied = false ∧
    ((test_sqr small_extension (List.replicate 7 none) [1, 2]).add_to_val
        ((test_sqr_setup small_extension).2.1.vars.getD 1 0) 7).is_satisfied = false := by
  have h := corrupted_output_unsatisfied small_extension 1 7 (by decide) (by norm_num)
  exact ⟨(h.1 (List.replicate 10 none) [1, 2] [3, 4] (by rw [test_mul_setup_eq]; rfl)
      rfl rfl).2,
    (h.2 (List.replicate 7 none) [1, 2] (by rw [test_sqr_setup_eq]; rfl) rfl).2⟩

/-- The square of `1 + 2i` in the small extension. -/
theorem sqr_component_correct_witness :
    (test_sqr_setup small_extension).2.1.get_element
        (test_sqr small_extension (List.replicate 7 none) [1, 2])
      = [some (-3), some 4] ∧
    (test_sqr small_extension (List.replicate 7 none) [1, 2]).is_satisfied = true := by
  have h := sqr_component_correct small_extension (List.replicate 7 none)
    (List.replicate 10 none) [1, 2]
    (by rw [test_sqr_setup_eq]; rfl) (by rw [test_mul_setup_eq]; rfl) rfl
  rw [small_extension_squared] at h
  exact ⟨h.1, h.2.2⟩

end snark

namespace snark

variable {F K : Type}

/-- The final exponentiation of an element is one exactly when that of its
inverse is. -/
theorem final_exponentiation_inv [Field K] (C : CurveType F K) (x : K) :
    C.final_exponentiation x⁻¹ = 1 ↔ C.final_exponentiation x = 1 := by
  unfold CurveType.final_exponentiation
  rw [inv_pow, inv_eq_one]

/-- The ratio Miller loop of the small instance on the swapped operands meets
its contract. -/
theorem small_e_over_e_contract_swapped :
    e_over_e_miller_loop_contract small_curve { vars := [2] } { vars := [3] }
      { vars := [0] } { vars := [1] } { vars := [5] } [6, 7] 9 := by
  refine ⟨?_, ?_⟩
  · simp [component.respects, small_curve, small_e_over_e, r1cs_constraint.vars,
      r1cs_constraint.product, linear_combination.vars, linear_combination.of_variable]
  · intro b x1 y1 x2 y2 hlen h1 h2 h3 h4 hm1 hm2
    obtain ⟨vals, cs⟩ := b
    obtain ⟨a0, a1, a2, a3, a4, a5, a6, a7, a8, rfl⟩ := list_length_nine vals hlen
    simp only [blueprint.holds, blueprint.get_vals, blueprint.val, List.map_cons, List.map_nil,
      List.getD_cons_zero, List.getD_cons_succ] at h1 h2 h3 h4
    obtain ⟨u1, rfl, rfl⟩ := singleton_eq_map_some h1
    obtain ⟨v1, rfl, rfl⟩ := singleton_eq_map_some h2
    obtain ⟨u2, rfl, rfl⟩ := singleton_eq_map_some h3
    obtain ⟨v2, rfl, rfl⟩ := singleton_eq_map_some h4
    simp [small_curve] at hm1 hm2
    simp only [small_curve, small_e_over_e, small_final_exp, small_e_times_e_over_e,
      component.generate_r1cs_witness, blueprint.set_val,
      blueprint.holds, blueprint.get_vals, blueprint.val, read_at,
      r1cs_constraint.is_satisfied, r1cs_constraint.product, linear_combination.evaluate,
      linear_combination.of_variable, linear_combination.of_constant,
      List.getD_cons_succ, List.getD_cons_zero, List.getD_nil,
      List.set_cons_succ, List.set_cons_zero, List.foldl_cons, List.foldl_nil,
      List.foldr_cons, List.foldr_nil, List.map_cons, List.map_nil, List.cons_append,
      List.nil_append, List.mem_cons, List.mem_singleton, forall_eq_or_imp, forall_eq,
      Option.getD_some, Option.getD_none, List.not_mem_nil]
    obtain ⟨hu2, hv2⟩ := hm2
    norm_num
    field_simp
    exact Or.inl (mul_comm _ _)

/-- The small instance is a setting of `check_e_equals_e_component` built with
the two sides swapped, on the same blueprint and the same assignment. -/
theorem small_setting_swapped (x1 y1 x2 y2 : ℚ) (h0 : x1 * x1 = x1) (hx1 : x1 ≠ 0)
    (hy1 : y1 ≠ 0) (hx2 : x2 ≠ 0) (hy2 : y2 ≠ 0) :
    check_e_equals_e_component.setting small_curve small_blueprint { vars := [2] }
      { vars := [3] } { vars := [0] } { vars := [1] } 4
      [some x1, some y1, some x2, some y2, none, none, none, none, none]
      [x2] [y2] [x1] [y1] where
  inputs_allocated := by simp [small_blueprint, blueprint.num_variables]
  result_allocated := by simp [small_blueprint, blueprint.num_variables]
  miller_loop := small_e_over_e_contract_swapped
  final_exp := small_final_exp_contract
  earlier_constraints := by
    simp only [small_blueprint, r1cs_constraint.is_satisfied,
      r1cs_constraint.product, r1cs_constraint.vars, linear_combination.vars,
      linear_combination.evaluate, linear_combination.of_variable,
      blueprint.num_variables, List.mem_singleton, forall_eq, List.foldr_cons,
      List.foldr_nil, List.getD_cons_zero, List.map_cons, List.map_nil, List.cons_append,
      List.nil_append, List.length_cons, List.length_nil, List.mem_cons, forall_eq_or_imp,
      List.not_mem_nil]
    norm_num
    exact h0
  assignment_size := rfl
  holds_lhs_G1 := rfl
  holds_lhs_G2 := rfl
  holds_rhs_G1 := rfl
  holds_rhs_G2 := rfl
  miller_lhs_invertible := by simp [small_curve, hx2, hy2]
  miller_rhs_invertible := by simp [small_curve, hx1, hy1]

/-- C23. Symmetry of `check_e_equals_e_component`: on the same blueprint and
the same assignment of the precomputations, the component built with
`(lhs_G1, lhs_G2, rhs_G1, rhs_G2)` and the component built with the two sides
swapped leave the same value in `result`; the ratio of the swapped component
holds the inverse of the original ratio, and the final exponentiation of that
inverse is one exactly when that of the original ratio is one. -/
theorem check_e_equals_e_symmetric [Field F] [DecidableEq F] [Field K] [DecidableEq K]
    (C : CurveType F K) (bp : blueprint F)
    (lhs_G1 : G1_precomputation) (lhs_G2 : G2_precomputation)
    (rhs_G1 : G1_precomputation) (rhs_G2 : G2_precomputation)
    (result : Nat) (a : List (Option F)) (P1 Q1 P2 Q2 : List F)
    (h : check_e_equals_e_component.setting C bp lhs_G1 lhs_G2 rhs_G1 rhs_G2 result a
      P1 Q1 P2 Q2)
    (hs : check_e_equals_e_component.setting C bp rhs_G1 rhs_G2 lhs_G1 lhs_G2 result a
      P2 Q2 P1 Q1) :
    (check_e_equals_e_component.run C bp lhs_G1 lhs_G2 rhs_G1 rhs_G2 result a).val result
      = (check_e_equals_e_component.run C bp rhs_G1 rhs_G2 lhs_G1 lhs_G2 result a).val
        result ∧
    (check_e_equals_e_component.run C bp rhs_G1 rhs_G2 lhs_G1 lhs_G2 result a).holds
      (check_e_equals_e_component.construct C bp rhs_G1 rhs_G2 lhs_G1 lhs_G2
        result).1.ratio.vars
      (C.Fqk_coordinates
        (C.affine_ate_miller_loop P1 Q1 * (C.affine_ate_miller_loop P2 Q2)⁻¹)⁻¹) ∧
    (C.final_exponentiation
        (C.affine_ate_miller_loop P1 Q1 * (C.affine_ate_miller_loop P2 Q2)⁻¹)⁻¹ = 1 ↔
      C.final_exponentiation
        (C.affine_ate_miller_loop P1 Q1 * (C.affine_ate_miller_loop P2 Q2)⁻¹) = 1) := by
  obtain ⟨-, -, h3⟩ := check_e_equals_e_run C bp lhs_G1 lhs_G2 rhs_G1 rhs_G2 result a
    P1 Q1 P2 Q2 h.inputs_allocated h.result_allocated h.miller_loop h.final_exp
    h.earlier_constraints h.assignment_size h.holds_lhs_G1 h.holds_lhs_G2 h.holds_rhs_G1
    h.holds_rhs_G2 h.miller_lhs_invertible h.miller_rhs_invertible
  obtain ⟨-, s2, s3⟩ := check_e_equals_e_run C bp rhs_G1 rhs_G2 lhs_G1 lhs_G2 result a
    P2 Q2 P1 Q1 hs.inputs_allocated hs.result_allocated hs.miller_loop hs.final_exp
    hs.earlier_constraints hs.assignment_size hs.holds_lhs_G1 hs.holds_lhs_G2
    hs.holds_rhs_G1 hs.holds_rhs_G2 hs.miller_lhs_invertible hs.miller_rhs_invertible
  have hinv : (C.affine_ate_miller_loop P1 Q1 * (C.affine_ate_miller_loop P2 Q2)⁻¹)⁻¹
      = C.affine_ate_miller_loop P2 Q2 * (C.affine_ate_miller_loop P1 Q1)⁻¹ := by
    rw [mul_inv_rev, inv_inv]
  have hfe := final_exponentiation_inv C
    (C.affine_ate_miller_loop P1 Q1 * (C.affine_ate_miller_loop P2 Q2)⁻¹)
  refine ⟨?_, ?_, hfe⟩
  · rw [h3, s3, ← hinv]
    by_cases hc : C.final_exponentiation
        (C.affine_ate_miller_loop P1 Q1 * (C.affine_ate_miller_loop P2 Q2)⁻¹) = 1
    · rw [if_pos hc, if_pos (hfe.mpr hc)]
    · rw [if_neg hc, if_neg (fun hx => hc (hfe.mp hx))]
  · rw [hinv]
    exact s2

/-- The small instance, built both ways on one assignment: the two result
flags agree, and the swapped ratio holds the inverse of the original one. -/
theorem check_e_equals_e_symmetric_witness :
    (check_e_equals_e_component.run small_curve small_blueprint { vars := [0] } { vars := [1] }
        { vars := [2] } { vars := [3] } 4 small_assignment_failing).val 4
      = (check_e_equals_e_component.run small_curve small_blueprint { vars := [2] }
        { vars := [3] } { vars := [0] } { vars := [1] } 4 small_assignment_failing).val 4 ∧
    (check_e_equals_e_component.run small_curve small_blueprint { vars := [2] }
        { vars := [3] } { vars := [0] } { vars := [1] } 4 small_assignment_failing).holds
      (check_e_equals_e_component.construct small_curve small_blueprint { vars := [2] }
        { vars := [3] } { vars := [0] } { vars := [1] } 4).1.ratio.vars
      (small_curve.Fqk_coordinates
        (small_curve.affine_ate_miller_loop [1] [6]
          * (small_curve.affine_ate_miller_loop [2] [4])⁻¹)⁻¹) ∧
    (small_curve.final_exponentiation
        (small_curve.affine_ate_miller_loop [1] [6]
          * (small_curve.affine_ate_miller_loop [2] [4])⁻¹)⁻¹ = 1 ↔
      small_curve.final_exponentiation
        (small_curve.affine_ate_miller_loop [1] [6]
          * (small_curve.affine_ate_miller_loop [2] [4])⁻¹) = 1) :=
  check_e_equals_e_symmetric small_curve small_blueprint { vars := [0] } { vars := [1] }
    { vars := [2] } { vars := [3] } 4 small_assignment_failing [1] [6] [2] [4]
    (small_setting 1 6 2 4 (by norm_num) (by norm_num) (by norm_num) (by norm_num)
      (by norm_num))
    (small_setting_swapped 1 6 2 4 (by norm_num) (by norm_num) (by norm_num) (by norm_num)
      (by norm_num))

end snark

namespace snark

variable {F K : Type}

/-- C18. Operand wiring of `check_e_equals_ee_component`: the Miller loop the
constructor builds is the product-over-one loop on
`(rhs1_G1, rhs1_G2, rhs2_G1, rhs2_G2, lhs_G1, lhs_G2)` writing to the ratio
variable the constructor allocated; the final exponentiation it builds reads
that same ratio variable and writes `result`; hence, in every setting of the
component, after both phases the ratio variable holds
`miller(rhs1) * miller(rhs2) * miller(lhs)⁻¹` and `result` is the flag of the
final exponentiation of that value. -/
theorem check_e_equals_ee_wiring [Field F] [DecidableEq F] [Field K] [DecidableEq K]
    (C : CurveType F K) (bp : blueprint F)
    (lhs_G1 : G1_precomputation) (lhs_G2 : G2_precomputation)
    (rhs1_G1 : G1_precomputation) (rhs1_G2 : G2_precomputation)
    (rhs2_G1 : G1_precomputation) (rhs2_G2 : G2_precomputation)
    (result : Nat) (a : List (Option F)) (P1 Q1 P2 Q2 P3 Q3 : List F)
    (h : check_e_equals_ee_component.setting C bp lhs_G1 lhs_G2 rhs1_G1 rhs1_G2 rhs2_G1
      rhs2_G2 result a P1 Q1 P2 Q2 P3 Q3) :
    (check_e_equals_ee_component.construct C bp lhs_G1 lhs_G2 rhs1_G1 rhs1_G2 rhs2_G1 rhs2_G2
        result).1.ratio = (Fqk_variable.construct C bp).1 ∧
    (check_e_equals_ee_component.construct C bp lhs_G1 lhs_G2 rhs1_G1 rhs1_G2 rhs2_G1 rhs2_G2
        result).1.compute_ratio
      = (e_times_e_over_e_miller_loop_component C (Fqk_variable.construct C bp).2
          rhs1_G1 rhs1_G2 rhs2_G1 rhs2_G2 lhs_G1 lhs_G2 (Fqk_variable.construct C bp).1).1 ∧
    (check_e_equals_ee_component.construct C bp lhs_G1 lhs_G2 rhs1_G1 rhs1_G2 rhs2_G1 rhs2_G2
        result).1.check_finexp
      = (final_exp_component C
          (e_times_e_over_e_miller_loop_component C (Fqk_variable.construct C bp).2
            rhs1_G1 rhs1_G2 rhs2_G1 rhs2_G2 lhs_G1 lhs_G2 (Fqk_variable.construct C bp).1).2
          (Fqk_variable.construct C bp).1 result).1 ∧
    (check_e_equals_ee_component.run C bp lhs_G1 lhs_G2 rhs1_G1 rhs1_G2 rhs2_G1 rhs2_G2 result
      a).holds (Fqk_variable.construct C bp).1.vars
      (C.Fqk_coordinates
        (C.affine_ate_miller_loop P2 Q2 * C.affine_ate_miller_loop P3 Q3
          * (C.affine_ate_miller_loop P1 Q1)⁻¹)) ∧
    (check_e_equals_ee_component.run C bp lhs_G1 lhs_G2 rhs1_G1 rhs1_G2 rhs2_G1 rhs2_G2 result
      a).val result
      = some (if C.final_exponentiation
          (C.affine_ate_miller_loop P2 Q2 * C.affine_ate_miller_loop P3 Q3
            * (C.affine_ate_miller_loop P1 Q1)⁻¹) = 1
        then 1 else 0) := by
  obtain ⟨-, h2, h3⟩ := check_e_equals_ee_run C bp lhs_G1 lhs_G2 rhs1_G1 rhs1_G2 rhs2_G1
    rhs2_G2 result a P1 Q1 P2 Q2 P3 Q3 h.inputs_allocated h.result_allocated h.miller_loop
    h.final_exp h.earlier_constraints h.assignment_size h.holds_lhs_G1 h.holds_lhs_G2
    h.holds_rhs1_G1 h.holds_rhs1_G2 h.holds_rhs2_G1 h.holds_rhs2_G2 h.miller_lhs_invertible
    h.miller_rhs1_invertible h.miller_rhs2_invertible
  exact ⟨rfl, rfl, rfl, h2, h3⟩

/-- The small instance with left-hand pair `(2, 6)` and right-hand pairs
`(1, 3)` and `(2, 2)`: the ratio variable holds `3 * 4 / 12` and the flag is
that of its final exponentiation. -/
theorem check_e_equals_ee_wiring_witness :
    (check_e_equals_ee_component.construct small_curve small_blueprint_ee { vars := [0] }
        { vars := [1] } { vars := [2] } { vars := [3] } { vars := [4] } { vars := [5] }
        6).1.ratio = (Fqk_variable.construct small_curve small_blueprint_ee).1 ∧
    (check_e_equals_ee_component.construct small_curve small_blueprint_ee { vars := [0] }
        { vars := [1] } { vars := [2] } { vars := [3] } { vars := [4] } { vars := [5] }
        6).1.compute_ratio
      = (e_times_e_over_e_miller_loop_component small_curve
          (Fqk_variable.construct small_curve small_blueprint_ee).2
          { vars := [2] } { vars := [3] } { vars := [4] } { vars := [5] } { vars := [0] }
          { vars := [1] } (Fqk_variable.construct small_curve small_blueprint_ee).1).1 ∧
    (check_e_equals_ee_component.construct small_curve small_blueprint_ee { vars := [0] }
        { vars := [1] } { vars := [2] } { vars := [3] } { vars := [4] } { vars := [5] }
        6).1.check_finexp
      = (final_exp_component small_curve
          (e_times_e_over_e_miller_loop_component small_curve
            (Fqk_variable.construct small_curve small_blueprint_ee).2
            { vars := [2] } { vars := [3] } { vars := [4] } { vars := [5] } { vars := [0] }
            { vars := [1] } (Fqk_variable.construct small_curve small_blueprint_ee).1).2
          (Fqk_variable.construct small_curve small_blueprint_ee).1 6).1 ∧
    (check_e_equals_ee_component.run small_curve small_blueprint_ee { vars := [0] }
        { vars := [1] } { vars := [2] } { vars := [3] } { vars := [4] } { vars := [5] } 6
        small_assignment_ee).holds
      (Fqk_variable.construct small_curve small_blueprint_ee).1.vars
      (small_curve.Fqk_coordinates
        (small_curve.affine_ate_miller_loop [1] [3] * small_curve.affine_ate_miller_loop [2] [2]
          * (small_curve.affine_ate_miller_loop [2] [6])⁻¹)) ∧
    (check_e_equals_ee_component.run small_curve small_blueprint_ee { vars := [0] }
        { vars := [1] } { vars := [2] } { vars := [3] } { vars := [4] } { vars := [5] } 6
        small_assignment_ee).val 6
      = some (if small_curve.final_exponentiation
          (small_curve.affine_ate_miller_loop [1] [3]
            * small_curve.affine_ate_miller_loop [2] [2]
            * (small_curve.affine_ate_miller_loop [2] [6])⁻¹) = 1
        then 1 else 0) :=
  check_e_equals_ee_wiring small_curve small_blueprint_ee { vars := [0] } { vars := [1] }
    { vars := [2] } { vars := [3] } { vars := [4] } { vars := [5] } 6 small_assignment_ee
    [2] [6] [1] [3] [2] [2]
    (small_setting_ee 2 6 1 3 2 2 (by norm_num) (by norm_num) (by norm_num) (by norm_num)
      (by norm_num) (by norm_num) (by norm_num))

end snark

namespace snark

variable {F K : Type}

/-- Two witness passes in a row leave alone every variable that neither
component writes: when both respect their interfaces and their outputs and
intermediate variables were all allocated at or after position `n`, a variable
below `n` other than `result` keeps its value. -/
theorem two_stage_frame (M Fc : component F) (ins out auxM auxF : List Nat) (result n : Nat)
    (b : blueprint F) (hM : M.respects ins out auxM) (hF : Fc.respects out [result] auxF)
    (hout : ∀ v ∈ out, n ≤ v) (hauxM : ∀ v ∈ auxM, n ≤ v) (hauxF : ∀ v ∈ auxF, n ≤ v)
    (v : Nat) (hv : v < n) (hvr : v ≠ result) :
    (Fc.generate_r1cs_witness (M.generate_r1cs_witness b)).val v = b.val v := by
  obtain ⟨-, -, hMw, -⟩ := hM
  obtain ⟨-, -, hFw, -⟩ := hF
  have h1 : v ∉ M.writes := by
    intro hmem
    rcases hMw v hmem with h | h
    · exact absurd (hout v h) (by omega)
    · exact absurd (hauxM v h) (by omega)
  have h2 : v ∉ Fc.writes := by
    intro hmem
    rcases hFw v hmem with h | h
    · exact hvr (List.mem_singleton.mp h)
    · exact absurd (hauxF v h) (by omega)
  rw [Fc.val_generate_r1cs_witness, if_neg (fun hh => h2 hh.1),
    M.val_generate_r1cs_witness, if_neg (fun hh => h1 hh.1)]

/-- Emitting the constraints of two components in a row appends to the
constraint sequence and leaves the assignment alone; their two witness passes
leave the constraint sequence alone. -/
theorem two_stage_constraints_frame (M Fc : component F) (b : blueprint F) :
    b.constraints <+: (Fc.generate_r1cs_constraints (M.generate_r1cs_constraints b)).constraints
      ∧ (Fc.generate_r1cs_constraints (M.generate_r1cs_constraints b)).values = b.values
      ∧ (Fc.generate_r1cs_witness (M.generate_r1cs_witness b)).constraints = b.constraints := by
  refine ⟨?_, ?_, ?_⟩
  · rw [component.generate_r1cs_constraints_eq, component.generate_r1cs_constraints_eq]
    exact ⟨M.constraints ++ Fc.constraints, by simp⟩
  · rw [component.generate_r1cs_constraints_eq, component.generate_r1cs_constraints_eq]
  · rw [component.constraints_generate_r1cs_witness, component.constraints_generate_r1cs_witness]

end snark

namespace snark

variable {F K : Type}

/-- C19. Frame of the two phases of both pairing-check components, on any
blueprint `b`: `generate_r1cs_constraints` only appends (the constraint
sequence before the call is a prefix of the one after it) and leaves the
assignment unchanged; `generate_r1cs_witness` leaves the constraint sequence
and `num_constraints` unchanged; and, for the components the constructors
build, when the owned components respect their interfaces the witness pass
leaves the value of every variable of the input precomputations as it was. -/
theorem pairing_checks_frame (C : CurveType F K) :
    (∀ (g : check_e_equals_e_component F) (b : blueprint F),
      b.constraints <+: (g.generate_r1cs_constraints b).constraints ∧
      (g.generate_r1cs_constraints b).values = b.values ∧
      (g.generate_r1cs_witness b).constraints = b.constraints ∧
      (g.generate_r1cs_witness b).num_constraints = b.num_constraints) ∧
    (∀ (g : check_e_equals_ee_component F) (b : blueprint F),
      b.constraints <+: (g.generate_r1cs_constraints b).constraints ∧
      (g.generate_r1cs_constraints b).values = b.values ∧
      (g.generate_r1cs_witness b).constraints = b.constraints ∧
      (g.generate_r1cs_witness b).num_constraints = b.num_constraints) ∧
    (∀ (bp : blueprint F) (lhs_G1 : G1_precomputation) (lhs_G2 : G2_precomputation)
      (rhs_G1 : G1_precomputation) (rhs_G2 : G2_precomputation) (result : Nat)
      (b : blueprint F),
      (check_e_equals_e_component.construct C bp lhs_G1 lhs_G2 rhs_G1 rhs_G2
        result).1.compute_ratio.respects
        (lhs_G1.vars ++ lhs_G2.vars ++ rhs_G1.vars ++ rhs_G2.vars)
        (check_e_equals_e_component.construct C bp lhs_G1 lhs_G2 rhs_G1 rhs_G2
          result).1.ratio.vars
        (List.range' (bp.num_variables + C.Fqk_size) C.e_over_e_aux) →
      (check_e_equals_e_component.construct C bp lhs_G1 lhs_G2 rhs_G1 rhs_G2
        result).1.check_finexp.respects
        (check_e_equals_e_component.construct C bp lhs_G1 lhs_G2 rhs_G1 rhs_G2
          result).1.ratio.vars [result]
        (List.range' (bp.num_variables + C.Fqk_size + C.e_over_e_aux) C.final_exp_aux) →
      (∀ v ∈ lhs_G1.vars ++ lhs_G2.vars ++ rhs_G1.vars ++ rhs_G2.vars,
        v < bp.num_variables ∧ v ≠ result) →
      ∀ v ∈ lhs_G1.vars ++ lhs_G2.vars ++ rhs_G1.vars ++ rhs_G2.vars,
        ((check_e_equals_e_component.construct C bp lhs_G1 lhs_G2 rhs_G1 rhs_G2
          result).1.generate_r1cs_witness b).val v = b.val v) ∧
    (∀ (bp : blueprint F) (lhs_G1 : G1_precomputation) (lhs_G2 : G2_precomputation)
      (rhs1_G1 : G1_precomputation) (rhs1_G2 : G2_precomputation)
      (rhs2_G1 : G1_precomputation) (rhs2_G2 : G2_precomputation) (result : Nat)
      (b : blueprint F),
      (check_e_equals_ee_component.construct C bp lhs_G1 lhs_G2 rhs1_G1 rhs1_G2 rhs2_G1
        rhs2_G2 result).1.compute_ratio.respects
        (rhs1_G1.vars ++ rhs1_G2.vars ++ rhs2_G1.vars ++ rhs2_G2.vars ++ lhs_G1.vars
          ++ lhs_G2.vars)
        (check_e_equals_ee_component.construct C bp lhs_G1 lhs_G2 rhs1_G1 rhs1_G2 rhs2_G1
          rhs2_G2 result).1.ratio.vars
        (List.range' (bp.num_variables + C.Fqk_size) C.e_times_e_over_e_aux) →
      (check_e_equals_ee_component.construct C bp lhs_G1 lhs_G2 rhs1_G1 rhs1_G2 rhs2_G1
        rhs2_G2 result).1.check_finexp.respects
        (check_e_equals_ee_component.construct C bp lhs_G1 lhs_G2 rhs1_G1 rhs1_G2 rhs2_G1
          rhs2_G2 result).1.ratio.vars [result]
        (List.range' (bp.num_variables + C.Fqk_size + C.e_times_e_over_e_aux)
          C.final_exp_aux) →
      (∀ v ∈ lhs_G1.vars ++ lhs_G2.vars ++ rhs1_G1.vars ++ rhs1_G2.vars ++ rhs2_G1.vars
        ++ rhs2_G2.vars, v < bp.num_variables ∧ v ≠ result) →
      ∀ v ∈ lhs_G1.vars ++ lhs_G2.vars ++ rhs1_G1.vars ++ rhs1_G2.vars ++ rhs2_G1.vars
        ++ rhs2_G2.vars,
        ((check_e_equals_ee_component.construct C bp lhs_G1 lhs_G2 rhs1_G1 rhs1_G2 rhs2_G1
          rhs2_G2 result).1.generate_r1cs_witness b).val v = b.val v) := by
  refine ⟨fun g b => ?_, fun g b => ?_, ?_, ?_⟩
  · obtain ⟨h1, h2, h3⟩ := two_stage_constraints_frame g.compute_ratio g.check_finexp b
    exact ⟨h1, h2, h3, congrArg List.length h3⟩
  · obtain ⟨h1, h2, h3⟩ := two_stage_constraints_frame g.compute_ratio g.check_finexp b
    exact ⟨h1, h2, h3, congrArg List.length h3⟩
  · intro bp lhs_G1 lhs_G2 rhs_G1 rhs_G2 result b hM hF hin v hv
    refine two_stage_frame _ _ _ _ _ _ result bp.num_variables b hM hF ?_ ?_ ?_ v
      (hin v hv).1 (hin v hv).2
    · intro w hw
      exact (mem_range_bounds hw).1
    · intro w hw
      have := (mem_range_bounds hw).1
      omega
    · intro w hw
      have := (mem_range_bounds hw).1
      omega
  · intro bp lhs_G1 lhs_G2 rhs1_G1 rhs1_G2 rhs2_G1 rhs2_G2 result b hM hF hin v hv
    refine two_stage_frame _ _ _ _ _ _ result bp.num_variables b hM hF ?_ ?_ ?_ v
      (hin v hv).1 (hin v hv).2
    · intro w hw
      exact (mem_range_bounds hw).1
    · intro w hw
      have := (mem_range_bounds hw).1
      omega
    · intro w hw
      have := (mem_range_bounds hw).1
      omega

/-- The small instance of `check_e_equals_e_component`, run on the stale
assignment: the first precomputation variable keeps its value, and the earlier
constraint is still the only one before those the component appended. -/
theorem pairing_checks_frame_witness :
    ((check_e_equals_e_component.construct small_curve small_blueprint { vars := [0] }
        { vars := [1] } { vars := [2] } { vars := [3] } 4).1.generate_r1cs_witness
      (small_blueprint.with_values small_assignment_stale)).val 0
      = (small_blueprint.with_values small_assignment_stale).val 0 ∧
    small_blueprint.constraints <+:
      ((check_e_equals_e_component.construct small_curve small_blueprint { vars := [0] }
        { vars := [1] } { vars := [2] } { vars := [3] } 4).1.generate_r1cs_constraints
        small_blueprint).constraints := by
  have h := pairing_checks_frame small_curve
  refine ⟨h.2.2.1 small_blueprint { vars := [0] } { vars := [1] } { vars := [2] }
      { vars := [3] } 4 (small_blueprint.with_values small_assignment_stale)
      small_e_over_e_contract.1 small_final_exp_contract.1 ?_ 0 ?_, (h.1 _ small_blueprint).1⟩
  · simp [small_blueprint, blueprint.num_variables]
  · simp

end snark

namespace snark

variable {F : Type}

theorem length_convert_field_element_to_bit_vector {A : Type} (repr : A → Nat) (el : A)
    (bitcount : Nat) : (convert_field_element_to_bit_vector repr el bitcount).length = bitcount := by
  simp [convert_field_element_to_bit_vector]

theorem foldl_append_bits {A : Type} (f : A → List Bool) (l : List A) (acc : List Bool) :
    l.foldl (fun acc el => acc ++ f el) acc = acc ++ l.foldl (fun acc el => acc ++ f el) [] := by
  induction l generalizing acc with
  | nil => simp
  | cons x xs ih => rw [List.foldl_cons, ih, List.foldl_cons, ih ([] ++ f x)]; simp

theorem input_as_bits_cons {A : Type} (repr : A → Nat) (x : A) (xs : List A) (elt_size : Nat) :
    input_as_bits repr (x :: xs) elt_size
      = convert_field_element_to_bit_vector repr x elt_size ++ input_as_bits repr xs elt_size := by
  unfold input_as_bits
  rw [List.foldl_cons, foldl_append_bits]
  simp

theorem length_input_as_bits {A : Type} (repr : A → Nat) (l : List A) (elt_size : Nat) :
    (input_as_bits repr l elt_size).length = l.length * elt_size := by
  induction l with
  | nil => simp [input_as_bits]
  | cons x xs ih =>
    rw [input_as_bits_cons, List.length_append, ih,
      length_convert_field_element_to_bit_vector, List.length_cons]
    ring

theorem input_as_bits_slice {A : Type} (repr : A → Nat) (l : List A) (elt_size : Nat)
    (j : Nat) (hj : j < l.length) :
    ((input_as_bits repr l elt_size).drop (j * elt_size)).take elt_size
      = convert_field_element_to_bit_vector repr (l.get ⟨j, hj⟩) elt_size := by
  induction l generalizing j with
  | nil => simp at hj
  | cons x xs ih =>
    rw [input_as_bits_cons]
    cases j with
    | zero =>
      simp only [Nat.zero_mul, List.drop_zero, List.get_cons_zero]
      rw [List.take_append_of_le_length
        (le_of_eq (length_convert_field_element_to_bit_vector repr x elt_size).symm)]
      exact List.take_of_length_le
        (le_of_eq (length_convert_field_element_to_bit_vector repr x elt_size))
    | succ j =>
      have hj2 : j < xs.length := by simpa using hj
      have hd : (j + 1) * elt_size
          = (convert_field_element_to_bit_vector repr x elt_size).length + j * elt_size := by
        rw [length_convert_field_element_to_bit_vector]; ring
      rw [hd, List.drop_append]
      exact ih j hj2

end snark

namespace snark

variable {F : Type}

/-- C20. Primary-input bit length in the verifier scenario: for every primary
input of `primary_input_size` field elements, the bit vector built by the loop
of the test has length `primary_input_size * elt_size`, which is the number of
`primary_input_bits` variables allocated, so that `fill_with_bits` does not
meet the wrong-length error and stores the bits; and the bits of element `j`
are those at positions `j * elt_size` up to `(j + 1) * elt_size`. -/
theorem primary_input_bit_length {A : Type} [Zero F] [One F] (repr : A → Nat)
    (bp : blueprint F) (primary_input : List A) (primary_input_size elt_size j : Nat)
    (h : primary_input.length = primary_input_size) (hj : j < primary_input.length) :
    (input_as_bits repr primary_input elt_size).length = primary_input_size * elt_size ∧
    (input_as_bits repr primary_input elt_size).length
      = (bp.allocate (elt_size * primary_input_size)).1.length ∧
    test_verifier_primary_input repr bp primary_input primary_input_size elt_size
      = some ((bp.allocate (elt_size * primary_input_size)).2.set_vals
          (bp.allocate (elt_size * primary_input_size)).1
          ((input_as_bits repr primary_input elt_size).map (fun b => if b then 1 else 0))) ∧
    ((input_as_bits repr primary_input elt_size).drop (j * elt_size)).take elt_size
      = convert_field_element_to_bit_vector repr (primary_input.get ⟨j, hj⟩) elt_size := by
  have hlen : (input_as_bits repr primary_input elt_size).length
      = (bp.allocate (elt_size * primary_input_size)).1.length := by
    rw [length_input_as_bits, h]
    simp [blueprint.allocate, Nat.mul_comm]
  refine ⟨by rw [length_input_as_bits, h], hlen, ?_, input_as_bits_slice repr _ _ j hj⟩
  unfold test_verifier_primary_input fill_with_bits
  rw [if_pos hlen]

/-- A primary input of three elements of three bits each, on the small
blueprint: nine bits, and the second element occupies bits three to five. -/
theorem primary_input_bit_length_witness :
    (input_as_bits Fin.val [(5 : Fin 8), 3, 6] 3).length = 3 * 3 ∧
    (input_as_bits Fin.val [(5 : Fin 8), 3, 6] 3).length
      = (small_blueprint.allocate (3 * 3)).1.length ∧
    test_verifier_primary_input Fin.val small_blueprint [(5 : Fin 8), 3, 6] 3 3
      = some ((small_blueprint.allocate (3 * 3)).2.set_vals
          (small_blueprint.allocate (3 * 3)).1
          ((input_as_bits Fin.val [(5 : Fin 8), 3, 6] 3).map
            (fun b => if b then 1 else 0))) ∧
    ((input_as_bits Fin.val [(5 : Fin 8), 3, 6] 3).drop (1 * 3)).take 3
      = convert_field_element_to_bit_vector Fin.val
          ([(5 : Fin 8), 3, 6].get ⟨1, by decide⟩) 3 :=
  primary_input_bit_length Fin.val small_blueprint [(5 : Fin 8), 3, 6] 3 3 1 rfl (by decide)

end snark

namespace snark

variable {F : Type}

/-- Writing to a variable the value it holds changes nothing. -/
theorem blueprint.set_val_of_val (bp : blueprint F) (v : Nat) (x : F)
    (h : bp.val v = some x) : bp.set_val v x = bp := by
  obtain ⟨vals, cs⟩ := bp
  simp only [blueprint.val] at h
  simp only [blueprint.set_val, blueprint.mk.injEq, and_true]
  induction vals generalizing v with
  | nil => rfl
  | cons y ys ih =>
    cases v with
    | zero =>
      simp only [List.getD_cons_zero] at h
      simp [h]
    | succ v =>
      simp only [List.getD_cons_succ] at h
      simp [ih v h]

/-- One iteration of the loop of the disjunction test: when its first two
checks pass, its third fails. -/
theorem test_disjunction_iteration_checks [Zero F] [One F] [Add F] [Mul F] [DecidableEq F]
    (d : component F) (inputs : List Nat) (output : Nat) (bp : blueprint F) (w : Nat)
    (h1 : (test_disjunction_iteration d inputs output bp w).1.1 = true)
    (h2 : (test_disjunction_iteration d inputs output bp w).1.2.1 = true) :
    (test_disjunction_iteration d inputs output bp w).1.2.2 = false := by
  simp only [test_disjunction_iteration, decide_eq_true_eq] at h1 h2 ⊢
  rw [blueprint.set_val_of_val _ _ _ h1, h2]
  rfl

theorem test_disjunction_loop_checks [Zero F] [One F] [Add F] [Mul F] [DecidableEq F]
    (d : component F) (inputs : List Nat) (output : Nat) (ws : List Nat) (bp : blueprint F) :
    (test_disjunction_loop d inputs output bp ws).length = ws.length ∧
    ∀ c ∈ test_disjunction_loop d inputs output bp ws,
      c.1 = true → c.2.1 = true → c.2.2 = false := by
  induction ws generalizing bp with
  | nil => simp [test_disjunction_loop]
  | cons w ws ih =>
    simp only [test_disjunction_loop, List.length_cons, List.mem_cons, forall_eq_or_imp]
    exact ⟨by rw [(ih _).1], test_disjunction_iteration_checks d inputs output bp w,
      (ih _).2⟩

end snark

namespace snark

variable {F : Type}

/-- The three checks of `test_disjunction_component`, as written in the test
(both branches of each expectation are zero), cannot all pass, whatever the
component under test: for every `n` the test evaluates one triple of checks per
`w` below `2^n`, and when the output equals zero and the blueprint is satisfied
after the witness pass, assigning zero to the output changes nothing, so the
check that the blueprint is no longer satisfied fails. -/
theorem test_disjunction_component_checks [Zero F] [One F] [Add F] [Mul F] [DecidableEq F]
    (disjunction_component : blueprint F → List Nat → Nat → component F × blueprint F)
    (n : Nat) :
    (test_disjunction_component disjunction_component n).length = 2 ^ n ∧
    ∀ c ∈ test_disjunction_component disjunction_component n,
      c.1 = true → c.2.1 = true → c.2.2 = false := by
  have h := test_disjunction_loop_checks
    (disjunction_component (((blueprint.empty : blueprint F).allocate n).2.allocate 1).2
      ((blueprint.empty : blueprint F).allocate n).1
      ((((blueprint.empty : blueprint F).allocate n).2.allocate 1).1.headD 0)).1
    ((blueprint.empty : blueprint F).allocate n).1
    ((((blueprint.empty : blueprint F).allocate n).2.allocate 1).1.headD 0)
    (List.range (2 ^ n))
    ((disjunction_component (((blueprint.empty : blueprint F).allocate n).2.allocate 1).2
      ((blueprint.empty : blueprint F).allocate n).1
      ((((blueprint.empty : blueprint F).allocate n).2.allocate 1).1.headD
        0)).1.generate_r1cs_constraints
      (disjunction_component (((blueprint.empty : blueprint F).allocate n).2.allocate 1).2
      ((blueprint.empty : blueprint F).allocate n).1
      ((((blueprint.empty : blueprint F).allocate n).2.allocate 1).1.headD 0)).2)
  rw [List.length_range] at h
  exact h

end snark

namespace snark

variable {F : Type}

theorem FpExtT.length_mul [Field F] (E : FpExtT F) (x y : List F) :
    (E.mul x y).length = E.degree := by
  simp [FpExtT.mul]

theorem FpExtT.pow_succ_succ [Field F] (E : FpExtT F) (x : List F) (n : Nat) :
    E.pow x (n + 2) = E.mul (E.pow x (n + 1)) x := by
  rw [FpExtT.pow, if_neg (Nat.succ_ne_zero n)]

theorem FpExtT.pow_one [Field F] (E : FpExtT F) (x : List F) : E.pow x 1 = x := by
  rw [FpExtT.pow, if_pos rfl]

theorem FpExtT.length_pow [Field F] (E : FpExtT F) (x : List F) (hx : x.length = E.degree)
    (n : Nat) : (E.pow x (n + 1)).length = E.degree := by
  cases n with
  | zero => rw [FpExtT.pow_one]; exact hx
  | succ n => rw [FpExtT.pow_succ_succ, FpExtT.length_mul]

/-- Powers multiply: `x ^ (m + 1) * x ^ (n + 1) = x ^ (m + n + 2)`. -/
theorem FpExtT.pow_mul_pow [Field F] (E : FpExtT F) (hE : E.associative) (x : List F)
    (hx : x.length = E.degree) (m n : Nat) :
    E.mul (E.pow x (m + 1)) (E.pow x (n + 1)) = E.pow x (m + n + 2) := by
  induction n with
  | zero => rw [FpExtT.pow_one, Nat.add_zero, FpExtT.pow_succ_succ]
  | succ n ih =>
    have h1 : E.pow x (m + (n + 1) + 2) = E.mul (E.pow x (m + n + 2)) x :=
      E.pow_succ_succ x (m + n + 1)
    rw [h1, E.pow_succ_succ x n, ← hE _ _ _ (E.length_pow x hx m) (E.length_pow x hx n) hx, ih]

theorem FpExtT.ladder_value_append [Field F] (E : FpExtT F) (x : List F) (o1 o2 : List Bool)
    (acc : List F) :
    E.ladder_value x (o1 ++ o2) acc = E.ladder_value x o2 (E.ladder_value x o1 acc) := by
  simp [FpExtT.ladder_value, List.foldl_append]

theorem ladder_ops_append (b1 b2 : List Bool) :
    ladder_ops (b1 ++ b2) = ladder_ops b1 ++ ladder_ops b2 := by
  simp [ladder_ops, List.flatMap_append]

/-- The ladder computes the power: for a positive exponent, the bits start
with a set bit and the steps for the remaining bits, run from the base, give
the native power. -/
theorem FpExtT.ladder_value_eq_pow [Field F] (E : FpExtT F) (hE : E.associative)
    (x : List F) (hx : x.length = E.degree) (power : Nat) (hp : 0 < power) :
    (exponent_bits power).head? = some true ∧
    E.ladder_value x (ladder_ops (exponent_bits power).tail) x = E.pow x power := by
  induction power using Nat.binaryRec with
  | z => exact absurd hp (by decide)
  | f b m ih =>
    by_cases hm : m = 0
    · subst hm
      cases b with
      | false => simp at hp
      | true =>
        have : exponent_bits (Nat.bit true 0) = [true] := by
          simp [exponent_bits, Nat.bit]
        rw [this]
        refine ⟨rfl, ?_⟩
        simp [ladder_ops, FpExtT.ladder_value, FpExtT.pow]
    · have hm0 : 0 < m := Nat.pos_of_ne_zero hm
      obtain ⟨h1, h2⟩ := ih hm0
      have hb : exponent_bits (Nat.bit b m) = exponent_bits m ++ [b] := by
        unfold exponent_bits
        rw [Nat.bits_append_bit m b (fun h => absurd h hm), List.reverse_cons]
      obtain ⟨k, rfl⟩ : ∃ k, m = k + 1 := ⟨m - 1, by omega⟩
      cases hbits : exponent_bits (k + 1) with
      | nil => rw [hbits] at h1; simp at h1
      | cons c rest =>
        rw [hbits] at h1 h2
        simp only [List.tail_cons] at h2
        rw [hb, hbits]
        refine ⟨h1, ?_⟩
        simp only [List.cons_append, List.tail_cons]
        rw [ladder_ops_append, FpExtT.ladder_value_append, h2]
        cases b with
        | false =>
          simp only [ladder_ops, List.flatMap_cons, List.flatMap_nil, List.append_nil,
            FpExtT.ladder_value, List.foldl_cons, List.foldl_nil, FpExtT.ladder_step_value,
            FpExtT.squared, Bool.false_eq_true, if_false]
          rw [E.pow_mul_pow hE x hx]
          congr 1
          simp [Nat.bit]
          omega
        | true =>
          simp only [ladder_ops, List.flatMap_cons, List.flatMap_nil, List.append_nil,
            FpExtT.ladder_value, List.foldl_cons, List.foldl_nil, FpExtT.ladder_step_value,
            FpExtT.squared, Bool.false_eq_true, if_false, if_true, List.cons_append,
            List.nil_append]
          rw [E.pow_mul_pow hE x hx, ← FpExtT.pow_succ_succ]
          congr 1
          simp [Nat.bit]
          omega

end snark

namespace snark

variable {F : Type}

theorem getD_lt_of_forall (l : List Nat) (i n : Nat) (hn : 0 < n) (h : ∀ v ∈ l, v < n) :
    l.getD i 0 < n := by
  by_cases hi : i < l.length
  · rw [List.getD_eq_getElem l 0 hi]
    exact h _ (List.getElem_mem hi)
  · rw [List.getD_eq_default l 0 (by omega)]
    exact hn

/-- The constraints of a formula mention only the operands, the products and
the result. -/
theorem formula_vars_lt [Field F] (A B result : VarT) (pairs : List (Nat × Nat))
    (products : List Nat) (coefficient : Nat → Nat → Nat → F) (d n : Nat) (hn : 0 < n)
    (hA : ∀ v ∈ A.vars, v < n) (hB : ∀ v ∈ B.vars, v < n) (hP : ∀ v ∈ products, v < n)
    (hR : ∀ v ∈ result.vars, v < n) :
    ∀ c ∈ product_constraints A B pairs products
        ++ linear_constraints coefficient pairs products result d,
      ∀ v ∈ c.vars, v < n := by
  intro c hc v hv
  rcases List.mem_append.mp hc with hc | hc
  · obtain ⟨q, hq, rfl⟩ := List.mem_map.mp hc
    simp only [r1cs_constraint.product, r1cs_constraint.vars, linear_combination.vars,
      linear_combination.of_variable, List.map_cons, List.map_nil, List.cons_append,
      List.nil_append, List.mem_cons, List.not_mem_nil, or_false] at hv
    rcases hv with rfl | rfl | rfl
    · exact getD_lt_of_forall _ _ _ hn hA
    · exact getD_lt_of_forall _ _ _ hn hB
    · exact hP _ (List.of_mem_zip hq).2
  · obtain ⟨k, -, rfl⟩ := List.mem_map.mp hc
    simp only [linear_constraint, product_combination, r1cs_constraint.vars,
      linear_combination.vars, linear_combination.of_variable, linear_combination.of_constant,
      List.map_cons, List.map_nil, List.append_nil, List.mem_append, List.mem_map,
      List.mem_singleton, List.map_map] at hv
    rcases hv with ⟨q, hq, rfl⟩ | rfl
    · exact hP _ (List.of_mem_zip hq).2
    · exact getD_lt_of_forall _ _ _ hn hR

end snark

namespace snark

variable {F : Type}

/-- A squaring component whose result and products are the variables
allocated from position `n0` on, run on an assignment in which its operand,
allocated before `n0`, holds `x`: it records the square, satisfies its
constraints, leaves the variables before `n0` alone, and its constraints
mention only variables allocated so far. -/
theorem SqrT.sqr_step_correct [Field F] [DecidableEq F] (g : SqrT F) (n0 : Nat) (b : blueprint F)
    (x : List F) (hn : 0 < n0)
    (hA : b.get_vals g.A.vars = x.map some) (hAl : g.A.vars.length = g.E.degree)
    (hAb : ∀ v ∈ g.A.vars, v < n0)
    (hr : g.result.vars = List.range' n0 g.E.degree)
    (hp : g.products = List.range' (n0 + g.E.degree) (sqr_pairs g.E.degree).length)
    (hb : n0 + g.E.degree + (sqr_pairs g.E.degree).length ≤ b.values.length) :
    (g.generate_r1cs_witness b).get_vals g.result.vars = (g.E.squared x).map some ∧
    (∀ c ∈ g.constraints, c.is_satisfied (g.generate_r1cs_witness b).values = true) ∧
    (∀ v < n0, (g.generate_r1cs_witness b).val v = b.val v) ∧
    (g.generate_r1cs_witness b).values.length = b.values.length ∧
    (∀ c ∈ g.constraints, ∀ v ∈ c.vars,
      v < n0 + g.E.degree + (sqr_pairs g.E.degree).length) := by
  have hrm : ∀ v ∈ g.result.vars, n0 ≤ v ∧ v < n0 + g.E.degree := by
    intro v hv
    rw [hr] at hv
    exact mem_range_bounds hv
  have hpm : ∀ v ∈ g.products,
      n0 + g.E.degree ≤ v ∧ v < n0 + g.E.degree + (sqr_pairs g.E.degree).length := by
    intro v hv
    rw [hp] at hv
    exact mem_range_bounds hv
  obtain ⟨h1, h2⟩ := g.sqr_pass_correct b x hA hAl (by rw [hr]; simp) (by rw [hp]; simp)
    (by rw [hp]; exact List.nodup_range' _ _) (by rw [hr]; exact List.nodup_range' _ _)
    (fun v hv => by have := hpm v hv; omega) (fun v hv => by have := hrm v hv; omega)
    (fun v hv hv2 => by have := hpm v hv; have := hrm v hv2; omega)
    (fun v hv => ⟨fun h => by have := hpm v h; have := hAb v hv; omega,
      fun h => by have := hrm v h; have := hAb v hv; omega⟩)
  refine ⟨h1, h2, ?_, ?_, ?_⟩
  · intro v hv
    unfold SqrT.generate_r1cs_witness
    rw [blueprint.val_set_vals_of_not_mem _ _ _ _ (fun h => by have := hrm v h; omega),
      blueprint.val_set_vals_of_not_mem _ _ _ _ (fun h => by have := hpm v h; omega)]
  · unfold SqrT.generate_r1cs_witness
    rw [(blueprint.set_vals_frame _ _ _).2, (blueprint.set_vals_frame _ _ _).2]
  · exact formula_vars_lt g.A g.A g.result _ g.products _ _ _ (by omega)
      (fun v hv => by have := hAb v hv; omega) (fun v hv => by have := hAb v hv; omega)
      (fun v hv => (hpm v hv).2) (fun v hv => by have := hrm v hv; omega)

/-- The same for a multiplication component. -/
theorem MulT.mul_step_correct [Field F] [DecidableEq F] (g : MulT F) (n0 : Nat) (b : blueprint F)
    (x y : List F) (hn : 0 < n0)
    (hA : b.get_vals g.A.vars = x.map some) (hAl : g.A.vars.length = g.E.degree)
    (hAb : ∀ v ∈ g.A.vars, v < n0)
    (hB : b.get_vals g.B.vars = y.map some) (hBl : g.B.vars.length = g.E.degree)
    (hBb : ∀ v ∈ g.B.vars, v < n0)
    (hr : g.result.vars = List.range' n0 g.E.degree)
    (hp : g.products = List.range' (n0 + g.E.degree) (mul_pairs g.E.degree).length)
    (hb : n0 + g.E.degree + (mul_pairs g.E.degree).length ≤ b.values.length) :
    (g.generate_r1cs_witness b).get_vals g.result.vars = (g.E.mul x y).map some ∧
    (∀ c ∈ g.constraints, c.is_satisfied (g.generate_r1cs_witness b).values = true) ∧
    (∀ v < n0, (g.generate_r1cs_witness b).val v = b.val v) ∧
    (g.generate_r1cs_witness b).values.length = b.values.length ∧
    (∀ c ∈ g.constraints, ∀ v ∈ c.vars,
      v < n0 + g.E.degree + (mul_pairs g.E.degree).length) := by
  have hrm : ∀ v ∈ g.result.vars, n0 ≤ v ∧ v < n0 + g.E.degree := by
    intro v hv
    rw [hr] at hv
    exact mem_range_bounds hv
  have hpm : ∀ v ∈ g.products,
      n0 + g.E.degree ≤ v ∧ v < n0 + g.E.degree + (mul_pairs g.E.degree).length := by
    intro v hv
    rw [hp] at hv
    exact mem_range_bounds hv
  obtain ⟨h1, h2⟩ := g.mul_pass_correct b x y hA hB hAl hBl (by rw [hr]; simp)
    (by rw [hp]; simp)
    (by rw [hp]; exact List.nodup_range' _ _) (by rw [hr]; exact List.nodup_range' _ _)
    (fun v hv => by have := hpm v hv; omega) (fun v hv => by have := hrm v hv; omega)
    (fun v hv hv2 => by have := hpm v hv; have := hrm v hv2; omega)
    (fun v hv => ⟨fun h => by have := hpm v h; have := hAb v hv; omega,
      fun h => by have := hrm v h; have := hAb v hv; omega⟩)
    (fun v hv => ⟨fun h => by have := hpm v h; have := hBb v hv; omega,
      fun h => by have := hrm v h; have := hBb v hv; omega⟩)
  refine ⟨h1, h2, ?_, ?_, ?_⟩
  · intro v hv
    unfold MulT.generate_r1cs_witness
    rw [blueprint.val_set_vals_of_not_mem _ _ _ _ (fun h => by have := hrm v h; omega),
      blueprint.val_set_vals_of_not_mem _ _ _ _ (fun h => by have := hpm v h; omega)]
  · unfold MulT.generate_r1cs_witness
    rw [(blueprint.set_vals_frame _ _ _).2, (blueprint.set_vals_frame _ _ _).2]
  · exact formula_vars_lt g.A g.B g.result _ g.products _ _ _ (by omega)
      (fun v hv => by have := hAb v hv; omega) (fun v hv => by have := hBb v hv; omega)
      (fun v hv => (hpm v hv).2) (fun v hv => by have := hrm v hv; omega)

end snark

namespace snark

variable {F : Type}

/-- One step of the ladder, built on a blueprint on which the base and the
accumulator are allocated, and run on an assignment in which they hold `x`
and `y`: its output holds the value of the step, its constraints hold, the
variables allocated before it are left alone, and its constraints mention
only variables allocated so far. -/
theorem ladder_step.construct_correct [Field F] [DecidableEq F] (E : FpExtT F)
    (bp0 : blueprint F) (elt acc : VarT) (op : Bool) (b : blueprint F) (x y : List F)
    (hn : 0 < bp0.values.length)
    (hel : elt.vars.length = E.degree) (helb : ∀ v ∈ elt.vars, v < bp0.values.length)
    (hal : acc.vars.length = E.degree) (hab : ∀ v ∈ acc.vars, v < bp0.values.length)
    (hx : b.get_vals elt.vars = x.map some) (hy : b.get_vals acc.vars = y.map some)
    (hb : (ladder_step.construct E bp0 elt acc op).2.2.values.length ≤ b.values.length) :
    ((ladder_step.construct E bp0 elt acc op).1.generate_r1cs_witness b).get_vals
        (ladder_step.construct E bp0 elt acc op).2.1.vars
      = (E.ladder_step_value x op y).map some ∧
    (∀ c ∈ (ladder_step.construct E bp0 elt acc op).1.constraints,
      c.is_satisfied
        ((ladder_step.construct E bp0 elt acc op).1.generate_r1cs_witness b).values = true) ∧
    (∀ v < bp0.values.length,
      ((ladder_step.construct E bp0 elt acc op).1.generate_r1cs_witness b).val v = b.val v) ∧
    ((ladder_step.construct E bp0 elt acc op).1.generate_r1cs_witness b).values.length
      = b.values.length ∧
    (∀ c ∈ (ladder_step.construct E bp0 elt acc op).1.constraints, ∀ v ∈ c.vars,
      v < (ladder_step.construct E bp0 elt acc op).2.2.values.length) ∧
    (ladder_step.construct E bp0 elt acc op).2.1.vars.length = E.degree ∧
    (∀ v ∈ (ladder_step.construct E bp0 elt acc op).2.1.vars,
      v < (ladder_step.construct E bp0 elt acc op).2.2.values.length) ∧
    bp0.values.length ≤ (ladder_step.construct E bp0 elt acc op).2.2.values.length := by
  cases op with
  | false =>
    simp only [ladder_step.construct, Bool.false_eq_true, if_false, SqrT.construct,
      VarT.construct, blueprint.allocate, List.length_append, List.length_replicate,
      ladder_step.generate_r1cs_witness, ladder_step.constraints, FpExtT.ladder_step_value,
      List.length_range'] at hb ⊢
    obtain ⟨h1, h2, h3, h4, h5⟩ := SqrT.sqr_step_correct
      (⟨E, acc, ⟨List.range' bp0.values.length E.degree⟩,
        List.range' (bp0.values.length + E.degree) (sqr_pairs E.degree).length⟩ : SqrT F)
      bp0.values.length b y hn hy hal hab rfl rfl hb
    refine ⟨h1, h2, h3, h4, h5, trivial, ?_, by omega⟩
    intro v hv
    have := mem_range_bounds hv
    omega
  | true =>
    simp only [ladder_step.construct, if_true, MulT.construct,
      VarT.construct, blueprint.allocate, List.length_append, List.length_replicate,
      ladder_step.generate_r1cs_witness, ladder_step.constraints, FpExtT.ladder_step_value,
      List.length_range'] at hb ⊢
    obtain ⟨h1, h2, h3, h4, h5⟩ := MulT.mul_step_correct
      (⟨E, acc, elt, ⟨List.range' bp0.values.length E.degree⟩,
        List.range' (bp0.values.length + E.degree) (mul_pairs E.degree).length⟩ : MulT F)
      bp0.values.length b y x hn hy hal hab hx hel helb rfl rfl hb
    refine ⟨h1, h2, h3, h4, h5, trivial, ?_, by omega⟩
    intro v hv
    have := mem_range_bounds hv
    omega

end snark

namespace snark

variable {F : Type}

theorem ladder_step.construct_length_le (E : FpExtT F) (bp0 : blueprint F) (elt acc : VarT)
    (op : Bool) :
    bp0.values.length ≤ (ladder_step.construct E bp0 elt acc op).2.2.values.length := by
  cases op with
  | false =>
    simp only [ladder_step.construct, Bool.false_eq_true, if_false, SqrT.construct,
      VarT.construct, blueprint.allocate, List.length_append, List.length_replicate]
    omega
  | true =>
    simp only [ladder_step.construct, if_true, MulT.construct,
      VarT.construct, blueprint.allocate, List.length_append, List.length_replicate]
    omega

theorem build_ladder_length_le (E : FpExtT F) (elt : VarT) (ops : List Bool) (acc : VarT)
    (bp0 : blueprint F) :
    bp0.values.length ≤ (build_ladder E elt ops acc bp0).2.2.values.length := by
  induction ops generalizing acc bp0 with
  | nil => exact le_refl _
  | cons op ops ih =>
    simp only [build_ladder]
    exact le_trans (ladder_step.construct_length_le E bp0 elt acc op) (ih _ _)

/-- The ladder, built on a blueprint on which the base and the accumulator
are allocated, and run on an assignment in which they hold `x` and `y`: its
output holds the value of the ladder, the constraints of all its steps hold,
and the variables allocated before it are left alone. -/
theorem build_ladder_correct [Field F] [DecidableEq F] (E : FpExtT F) (elt : VarT)
    (x : List F) (hel : elt.vars.length = E.degree) (ops : List Bool) (acc : VarT)
    (bp0 b : blueprint F) (y : List F)
    (hn : 0 < bp0.values.length)
    (helb : ∀ v ∈ elt.vars, v < bp0.values.length)
    (hal : acc.vars.length = E.degree) (hab : ∀ v ∈ acc.vars, v < bp0.values.length)
    (hx : b.get_vals elt.vars = x.map some) (hy : b.get_vals acc.vars = y.map some)
    (hb : (build_ladder E elt ops acc bp0).2.2.values.length ≤ b.values.length) :
    (((build_ladder E elt ops acc bp0).1.foldl (fun b s => s.generate_r1cs_witness b)
        b).get_vals (build_ladder E elt ops acc bp0).2.1.vars
      = (E.ladder_value x ops y).map some) ∧
    (∀ s ∈ (build_ladder E elt ops acc bp0).1, ∀ c ∈ s.constraints,
      c.is_satisfied ((build_ladder E elt ops acc bp0).1.foldl
        (fun b s => s.generate_r1cs_witness b) b).values = true) ∧
    (∀ v < bp0.values.length,
      ((build_ladder E elt ops acc bp0).1.foldl (fun b s => s.generate_r1cs_witness b)
        b).val v = b.val v) ∧
    ((build_ladder E elt ops acc bp0).1.foldl (fun b s => s.generate_r1cs_witness b)
      b).values.length = b.values.length := by
  induction ops generalizing acc bp0 b y with
  | nil =>
    exact ⟨hy, fun s hs => absurd hs (List.not_mem_nil s), fun v _ => rfl, rfl⟩
  | cons op ops ih =>
    simp only [build_ladder] at hb
    have hle := build_ladder_length_le E elt ops (ladder_step.construct E bp0 elt acc op).2.1
      (ladder_step.construct E bp0 elt acc op).2.2
    obtain ⟨s1, s2, s3, s4, s5, s6, s7, s8⟩ := ladder_step.construct_correct E bp0 elt acc op
      b x y hn hel helb hal hab hx hy (le_trans hle hb)
    have hx1 : ((ladder_step.construct E bp0 elt acc op).1.generate_r1cs_witness b).get_vals
        elt.vars = x.map some := by
      rw [← hx]
      exact List.map_congr_left fun v hv => s3 v (helb v hv)
    obtain ⟨i1, i2, i3, i4⟩ := ih (ladder_step.construct E bp0 elt acc op).2.1
      (ladder_step.construct E bp0 elt acc op).2.2
      ((ladder_step.construct E bp0 elt acc op).1.generate_r1cs_witness b)
      (E.ladder_step_value x op y) (by omega) (fun v hv => by have := helb v hv; omega)
      s6 s7 hx1 s1 (by rw [s4]; exact hb)
    simp only [build_ladder, List.foldl_cons, FpExtT.ladder_value, List.mem_cons,
      forall_eq_or_imp]
    refine ⟨i1, ⟨?_, i2⟩, ?_, ?_⟩
    · intro c hc
      rw [← s2 c hc]
      exact r1cs_constraint.is_satisfied_congr c _ _ (fun v hv => i3 v (s5 c hc v hv))
    · intro v hv
      rw [i3 v (by omega), s3 v hv]
    · rw [i4, s4]

end snark

namespace snark

variable {F : Type}

theorem ladder_step.witness_frame [Field F] (s : ladder_step F) (b : blueprint F) :
    (s.generate_r1cs_witness b).constraints = b.constraints := by
  cases s with
  | sqr g =>
    simp only [ladder_step.generate_r1cs_witness, SqrT.generate_r1cs_witness]
    rw [(blueprint.set_vals_frame _ _ _).1, (blueprint.set_vals_frame _ _ _).1]
  | mul g =>
    simp only [ladder_step.generate_r1cs_witness, MulT.generate_r1cs_witness]
    rw [(blueprint.set_vals_frame _ _ _).1, (blueprint.set_vals_frame _ _ _).1]

theorem ladder_steps_witness_frame [Field F] (steps : List (ladder_step F)) (b : blueprint F) :
    (steps.foldl (fun b s => s.generate_r1cs_witness b) b).constraints = b.constraints := by
  induction steps generalizing b with
  | nil => rfl
  | cons s steps ih => rw [List.foldl_cons, ih, ladder_step.witness_frame]

theorem ladder_step.construct_constraints (E : FpExtT F) (bp0 : blueprint F) (elt acc : VarT)
    (op : Bool) :
    (ladder_step.construct E bp0 elt acc op).2.2.constraints = bp0.constraints := by
  cases op with
  | false => rfl
  | true => rfl

theorem build_ladder_constraints (E : FpExtT F) (elt : VarT) (ops : List Bool) (acc : VarT)
    (bp0 : blueprint F) :
    (build_ladder E elt ops acc bp0).2.2.constraints = bp0.constraints := by
  induction ops generalizing acc bp0 with
  | nil => rfl
  | cons op ops ih =>
    simp only [build_ladder]
    rw [ih, ladder_step.construct_constraints]

/-- The steps of the ladder are of the kinds asked for, in order. -/
theorem build_ladder_kinds (E : FpExtT F) (elt : VarT) (ops : List Bool) (acc : VarT)
    (bp0 : blueprint F) :
    (build_ladder E elt ops acc bp0).1.map ladder_step.is_mul = ops := by
  induction ops generalizing acc bp0 with
  | nil => rfl
  | cons op ops ih =>
    simp only [build_ladder, List.map_cons]
    rw [ih]
    cases op with
    | false => rfl
    | true => rfl

/-- The test of the exponentiation component on the exponent `power`: the
result holds the native power and every constraint on the blueprint holds. -/
theorem test_exponentiation_run [Field F] [DecidableEq F] (E : FpExtT F) (limb_bits : Nat)
    (limbs : List Nat) (a : List (Option F)) (x_val : List F)
    (hE : E.associative) (hd : 0 < E.degree)
    (hp : 0 < exponent_of_limbs limb_bits limbs) (hx : x_val.length = E.degree)
    (ha : a.length = (test_exponentiation_setup E limb_bits limbs).2.2.num_variables) :
    (test_exponentiation_setup E limb_bits limbs).2.1.result.get_element
        (test_exponentiation_component E limb_bits limbs a x_val)
      = (E.pow x_val (exponent_of_limbs limb_bits limbs)).map some ∧
    (test_exponentiation_component E limb_bits limbs a x_val).is_satisfied = true := by
  simp only [test_exponentiation_component, test_exponentiation_setup,
    exponentiation_component.construct, exponentiation_component.generate_r1cs_constraints,
    exponentiation_component.generate_r1cs_witness, foldl_add_r1cs_constraint,
    build_ladder_constraints, VarT.construct, blueprint.allocate, blueprint.empty,
    List.length_nil, List.nil_append, blueprint.with_values, VarT.generate_r1cs_witness,
    VarT.get_element, blueprint.num_variables] at ha ⊢
  generalize hops : ladder_ops (exponent_bits (exponent_of_limbs limb_bits limbs)).tail = ops
    at ha ⊢
  have hpow := (E.ladder_value_eq_pow hE x_val hx _ hp).2
  rw [hops] at hpow
  have hle := build_ladder_length_le E ⟨List.range' 0 E.degree⟩ ops ⟨List.range' 0 E.degree⟩
    { values := List.replicate E.degree none, constraints := [] }
  simp only [List.length_replicate] at hle
  generalize hcs : List.flatMap
    (build_ladder E ⟨List.range' 0 E.degree⟩ ops ⟨List.range' 0 E.degree⟩
      ⟨List.replicate E.degree none, []⟩).1 ladder_step.constraints = cs0
  have hxv : ∀ cs : List (r1cs_constraint F),
      (blueprint.set_vals ⟨a, cs⟩ (List.range' 0 E.degree) x_val).get_vals
        (List.range' 0 E.degree) = x_val.map some := by
    intro cs
    apply blueprint.get_vals_set_vals
    · exact List.nodup_range' _ _
    · intro v hv
      have := mem_range_bounds hv
      simp only
      omega
    · simp [hx]
  obtain ⟨r1, r2, -, -⟩ := build_ladder_correct E ⟨List.range' 0 E.degree⟩ x_val (by simp) ops
    ⟨List.range' 0 E.degree⟩ { values := List.replicate E.degree none, constraints := [] }
    (blueprint.set_vals ⟨a, cs0⟩ (List.range' 0 E.degree) x_val) x_val (by simpa using hd)
    (fun v hv => by have := mem_range_bounds hv; simp only [List.length_replicate]; omega)
    (by simp)
    (fun v hv => by have := mem_range_bounds hv; simp only [List.length_replicate]; omega)
    (hxv _) (hxv _) (by rw [(blueprint.set_vals_frame _ _ _).2]; exact le_of_eq ha.symm)
  refine ⟨by rw [r1, hpow], ?_⟩
  apply is_satisfied_of_all _ _ rfl
  rw [ladder_steps_witness_frame, (blueprint.set_vals_frame _ _ _).1]
  intro c hc
  rw [← hcs] at hc
  obtain ⟨s, hs, hc2⟩ := List.mem_flatMap.mp hc
  exact r2 s hs c hc2

end snark

namespace snark

variable {F : Type}

theorem small_extension_associative : small_extension.associative := by
  intro x y z hx hy hz
  have hd : small_extension.degree = 2 := rfl
  rw [hd] at hx hy hz
  obtain ⟨x0, x1, rfl⟩ := List.length_eq_two.mp hx
  obtain ⟨y0, y1, rfl⟩ := List.length_eq_two.mp hy
  obtain ⟨z0, z1, rfl⟩ := List.length_eq_two.mp hz
  simp only [FpExtT.mul, small_extension, FpExtT.binomial, List.range_succ, List.range_zero,
    List.nil_append, List.cons_append, List.map_cons, List.map_nil, List.sum_cons,
    List.sum_nil, List.getD_cons_zero, List.getD_cons_succ]
  norm_num
  constructor <;> ring

/-- C13. Fixed-exponent exponentiation component: for every extension with an
associative product, every positive public exponent given as limbs and every
base `x`, on any assignment left by earlier turns of the test, the ladder
consists, for each exponent bit after the leading one, taken from the most to
the least significant, of one squaring followed by one multiplication by the
base when the bit is set; after the witness pass its output holds the native
power of `x` and the blueprint is satisfied. -/
theorem exponentiation_component_correct [Field F] [DecidableEq F] (E : FpExtT F)
    (limb_bits : Nat) (limbs : List Nat) (a : List (Option F)) (x_val : List F)
    (hE : E.associative) (hd : 0 < E.degree)
    (hp : 0 < exponent_of_limbs limb_bits limbs) (hx : x_val.length = E.degree)
    (ha : a.length = (test_exponentiation_setup E limb_bits limbs).2.2.num_variables) :
    (exponent_bits (exponent_of_limbs limb_bits limbs)).head? = some true ∧
    (test_exponentiation_setup E limb_bits limbs).2.1.steps.map ladder_step.is_mul
      = ladder_ops (exponent_bits (exponent_of_limbs limb_bits limbs)).tail ∧
    (test_exponentiation_setup E limb_bits limbs).2.1.result.get_element
        (test_exponentiation_component E limb_bits limbs a x_val)
      = (E.pow x_val (exponent_of_limbs limb_bits limbs)).map some ∧
    (test_exponentiation_component E limb_bits limbs a x_val).is_satisfied = true := by
  obtain ⟨h1, h2⟩ := test_exponentiation_run E limb_bits limbs a x_val hE hd hp hx ha
  exact ⟨(E.ladder_value_eq_pow hE x_val hx _ hp).1, build_ladder_kinds E _ _ _ _, h1, h2⟩

/-- The fifth power of `1 + 2i` in the small extension, the exponent given as
one limb: the bits after the leading one are `0, 1`, so the ladder is a
squaring, a squaring and a multiplication. -/
theorem exponentiation_component_correct_witness :
    (exponent_bits (exponent_of_limbs 64 [5])).head? = some true ∧
    (test_exponentiation_setup small_extension 64 [5]).2.1.steps.map ladder_step.is_mul
      = ladder_ops (exponent_bits (exponent_of_limbs 64 [5])).tail ∧
    (test_exponentiation_setup small_extension 64 [5]).2.1.result.get_element
        (test_exponentiation_component small_extension 64 [5]
          (List.replicate
            (test_exponentiation_setup small_extension 64 [5]).2.2.num_variables none)
          [1, 2])
      = (small_extension.pow [1, 2] (exponent_of_limbs 64 [5])).map some ∧
    (test_exponentiation_component small_extension 64 [5]
      (List.replicate (test_exponentiation_setup small_extension 64 [5]).2.2.num_variables none)
      [1, 2]).is_satisfied = true :=
  exponentiation_component_correct small_extension 64 [5]
    (List.replicate (test_exponentiation_setup small_extension 64 [5]).2.2.num_variables none)
    [1, 2] small_extension_associative (by decide) (by simp [exponent_of_limbs]) rfl
    (List.length_replicate _ _)

end snark

namespace snark

variable {F : Type}

theorem AdjoinRoot_root_pow [Field F] (d : Nat) (nr : F) :
    (AdjoinRoot.root (Polynomial.X ^ d - Polynomial.C nr)) ^ d
      = AdjoinRoot.of (Polynomial.X ^ d - Polynomial.C nr) nr := by
  have h := @AdjoinRoot.mk_self F _ (Polynomial.X ^ d - Polynomial.C nr)
  rw [map_sub, map_pow, AdjoinRoot.mk_X, AdjoinRoot.mk_C, sub_eq_zero] at h
  exact h

theorem binomial_basis_product [Field F] (d : Nat) (nr : F) (i j : Nat) (hi : i < d)
    (hj : j < d) :
    (∑ k in Finset.range d,
      AdjoinRoot.of (Polynomial.X ^ d - Polynomial.C nr)
          ((FpExtT.binomial d nr).structure_constant i j k)
        * (AdjoinRoot.root (Polynomial.X ^ d - Polynomial.C nr)) ^ k)
      = (AdjoinRoot.root (Polynomial.X ^ d - Polynomial.C nr)) ^ (i + j) := by
  simp only [FpExtT.binomial]
  by_cases h : i + j < d
  · rw [Finset.sum_eq_single (i + j)]
    · simp
    · intro k _ hk
      rw [if_neg (fun hh => hk hh.symm), if_neg (by omega)]
      simp
    · intro hh
      exact absurd (Finset.mem_range.mpr h) hh
  · rw [Finset.sum_eq_single (i + j - d)]
    · rw [if_neg (by omega), if_pos (by omega), ← AdjoinRoot_root_pow, ← pow_add]
      congr 1
      omega
    · intro k hk hk2
      have hk3 := Finset.mem_range.mp hk
      rw [if_neg (by omega), if_neg (by omega)]
      simp
    · intro hh
      exact absurd (Finset.mem_range.mpr (by omega)) hh

end snark

namespace snark

variable {F : Type}

theorem binomial_mul_getD [Field F] (d : Nat) (nr : F) (x y : List F) (k : Nat) (hk : k < d) :
    ((FpExtT.binomial d nr).mul x y).getD k 0
      = ∑ i in Finset.range d, ∑ j in Finset.range d,
          (FpExtT.binomial d nr).structure_constant i j k * (x.getD i 0 * y.getD j 0) := by
  unfold FpExtT.mul
  have hd : (FpExtT.binomial d nr).degree = d := rfl
  rw [hd, getD_map_range _ _ _ hk, sum_map_range]
  exact Finset.sum_congr rfl fun i _ => sum_map_range _ _

/-- The product of the binomial extension is the product of polynomials modulo
`X ^ d - non_residue`. -/
theorem binomial_mul_adjoinRoot [Field F] (d : Nat) (nr : F) (x y : List F) :
    (∑ k in Finset.range d,
      AdjoinRoot.of (Polynomial.X ^ d - Polynomial.C nr)
          (((FpExtT.binomial d nr).mul x y).getD k 0)
        * (AdjoinRoot.root (Polynomial.X ^ d - Polynomial.C nr)) ^ k)
      = (∑ i in Finset.range d,
          AdjoinRoot.of (Polynomial.X ^ d - Polynomial.C nr) (x.getD i 0)
            * (AdjoinRoot.root (Polynomial.X ^ d - Polynomial.C nr)) ^ i)
        * (∑ j in Finset.range d,
          AdjoinRoot.of (Polynomial.X ^ d - Polynomial.C nr) (y.getD j 0)
            * (AdjoinRoot.root (Polynomial.X ^ d - Polynomial.C nr)) ^ j) := by
  rw [Finset.sum_mul_sum]
  have h1 : ∀ k ∈ Finset.range d,
      AdjoinRoot.of (Polynomial.X ^ d - Polynomial.C nr)
          (((FpExtT.binomial d nr).mul x y).getD k 0)
        * (AdjoinRoot.root (Polynomial.X ^ d - Polynomial.C nr)) ^ k
      = ∑ i in Finset.range d, ∑ j in Finset.range d,
          (AdjoinRoot.of (Polynomial.X ^ d - Polynomial.C nr) (x.getD i 0)
            * AdjoinRoot.of (Polynomial.X ^ d - Polynomial.C nr) (y.getD j 0))
          * (AdjoinRoot.of (Polynomial.X ^ d - Polynomial.C nr)
              ((FpExtT.binomial d nr).structure_constant i j k)
            * (AdjoinRoot.root (Polynomial.X ^ d - Polynomial.C nr)) ^ k) := by
    intro k hk
    rw [binomial_mul_getD d nr x y k (Finset.mem_range.mp hk), map_sum, Finset.sum_mul]
    refine Finset.sum_congr rfl fun i _ => ?_
    rw [map_sum, Finset.sum_mul]
    refine Finset.sum_congr rfl fun j _ => ?_
    rw [map_mul, map_mul]
    ring
  rw [Finset.sum_congr rfl h1, Finset.sum_comm]
  refine Finset.sum_congr rfl fun i hi => ?_
  rw [Finset.sum_comm]
  refine Finset.sum_congr rfl fun j hj => ?_
  rw [← Finset.mul_sum, binomial_basis_product d nr i j (Finset.mem_range.mp hi)
    (Finset.mem_range.mp hj), pow_add]
  ring

end snark

namespace snark

variable {F : Type}

theorem binomial_pow_adjoinRoot [Field F] (d : Nat) (nr : F) (x : List F) (n : Nat) :
    (∑ k in Finset.range d,
      AdjoinRoot.of (Polynomial.X ^ d - Polynomial.C nr)
          (((FpExtT.binomial d nr).pow x (n + 1)).getD k 0)
        * (AdjoinRoot.root (Polynomial.X ^ d - Polynomial.C nr)) ^ k)
      = (∑ k in Finset.range d,
          AdjoinRoot.of (Polynomial.X ^ d - Polynomial.C nr) (x.getD k 0)
            * (AdjoinRoot.root (Polynomial.X ^ d - Polynomial.C nr)) ^ k) ^ (n + 1) := by
  induction n with
  | zero => rw [FpExtT.pow_one, Nat.zero_add, pow_one]
  | succ n ih => rw [FpExtT.pow_succ_succ, binomial_mul_adjoinRoot, ih, ← pow_succ]

theorem pow_char_pow_eq_self [Field F] (p : Nat) (hF : ∀ a : F, a ^ p = a) (a : F) (i : Nat) :
    a ^ p ^ i = a := by
  induction i with
  | zero => simp
  | succ i ih => rw [pow_succ, pow_mul, ih, hF]

/-- The Frobenius map on polynomials over the prime field: the `p ^ i`-th power
of a polynomial is obtained by raising the powers of the indeterminate. -/
theorem frobenius_polynomial [Field F] (p : Nat) [Fact p.Prime] [CharP F p]
    (hF : ∀ a : F, a ^ p = a) (d i : Nat) (x : List F) :
    (∑ k in Finset.range d, Polynomial.C (x.getD k 0) * Polynomial.X ^ k) ^ p ^ i
      = ∑ k in Finset.range d, Polynomial.C (x.getD k 0) * Polynomial.X ^ (k * p ^ i) := by
  rw [sum_pow_char_pow]
  refine Finset.sum_congr rfl fun k _ => ?_
  rw [mul_pow, ← map_pow, pow_char_pow_eq_self p hF, ← pow_mul]

theorem root_pow_frobenius [Field F] (d : Nat) (nr : F) (k m n : Nat) (h : n = 1 + d * m) :
    (AdjoinRoot.root (Polynomial.X ^ d - Polynomial.C nr)) ^ (k * n)
      = AdjoinRoot.of (Polynomial.X ^ d - Polynomial.C nr) (nr ^ (k * m))
        * (AdjoinRoot.root (Polynomial.X ^ d - Polynomial.C nr)) ^ k := by
  rw [h, map_pow, ← AdjoinRoot_root_pow, ← pow_mul, ← pow_add]
  congr 1
  ring

end snark

namespace snark

variable {F : Type}

theorem coeff_sum_C_mul_X_pow [Field F] (d : Nat) (a : Nat → F) (m : Nat) :
    (∑ k in Finset.range d, Polynomial.C (a k) * Polynomial.X ^ k).coeff m
      = if m < d then a m else 0 := by
  rw [Polynomial.finset_sum_coeff]
  simp only [Polynomial.coeff_C_mul_X_pow]
  rw [Finset.sum_ite_eq]
  simp only [Finset.mem_range]

theorem mk_sum_C_mul_X_pow [Field F] (g : Polynomial F) (d : Nat) (a : Nat → F) :
    AdjoinRoot.mk g (∑ k in Finset.range d, Polynomial.C (a k) * Polynomial.X ^ k)
      = ∑ k in Finset.range d, AdjoinRoot.of g (a k) * (AdjoinRoot.root g) ^ k := by
  rw [map_sum]
  refine Finset.sum_congr rfl fun k _ => ?_
  rw [map_mul, map_pow, AdjoinRoot.mk_C, AdjoinRoot.mk_X]

/-- Two values of the binomial extension that are equal modulo
`X ^ d - non_residue` have the same coordinates. -/
theorem binomial_adjoinRoot_injective [Field F] (d : Nat) (nr : F) (hd : 0 < d)
    (l1 l2 : List F) (h1 : l1.length = d) (h2 : l2.length = d)
    (h : (∑ k in Finset.range d,
        AdjoinRoot.of (Polynomial.X ^ d - Polynomial.C nr) (l1.getD k 0)
          * (AdjoinRoot.root (Polynomial.X ^ d - Polynomial.C nr)) ^ k)
      = ∑ k in Finset.range d,
        AdjoinRoot.of (Polynomial.X ^ d - Polynomial.C nr) (l2.getD k 0)
          * (AdjoinRoot.root (Polynomial.X ^ d - Polynomial.C nr)) ^ k) :
    l1 = l2 := by
  rw [← mk_sum_C_mul_X_pow, ← mk_sum_C_mul_X_pow, AdjoinRoot.mk_eq_mk] at h
  have hdeg : ((∑ k in Finset.range d, Polynomial.C (l1.getD k 0) * Polynomial.X ^ k)
      - ∑ k in Finset.range d, Polynomial.C (l2.getD k 0) * Polynomial.X ^ k).degree
      < (Polynomial.X ^ d - Polynomial.C nr).degree := by
    rw [Polynomial.degree_X_pow_sub_C hd, Polynomial.degree_lt_iff_coeff_zero]
    intro m hm
    rw [Polynomial.coeff_sub, coeff_sum_C_mul_X_pow, coeff_sum_C_mul_X_pow,
      if_neg (by omega), if_neg (by omega), sub_zero]
  have hz := Polynomial.eq_zero_of_dvd_of_degree_lt h hdeg
  apply List.ext_getElem (by rw [h1, h2])
  intro k hk1 hk2
  have hc := congrArg (fun q => Polynomial.coeff q k) hz
  simp only [Polynomial.coeff_sub, coeff_sum_C_mul_X_pow, Polynomial.coeff_zero] at hc
  rw [if_pos (by omega), if_pos (by omega), sub_eq_zero,
    List.getD_eq_getElem _ _ hk1, List.getD_eq_getElem _ _ hk2] at hc
  exact hc

end snark

namespace snark

variable {F : Type}

/-- The native Frobenius map of the binomial extension over the prime field
multiplies each coordinate by a constant. -/
theorem frobenius_binomial [Field F] (p : Nat) [Fact p.Prime] [CharP F p]
    (hF : ∀ a : F, a ^ p = a) (d : Nat) (nr : F) (hd : 0 < d) (hdiv : d ∣ p - 1)
    (x : List F) (hx : x.length = d) (i : Nat) :
    (FpExtT.binomial d nr).Frobenius_map p x i
      = (List.range d).map fun k => Frobenius_coefficient p d nr i k * x.getD k 0 := by
  have hpos : 0 < p ^ i := Nat.pow_pos (Nat.Prime.pos (Fact.out))
  obtain ⟨n, hn⟩ : ∃ n, p ^ i = n + 1 := ⟨p ^ i - 1, by omega⟩
  have hdiv2 : d ∣ p ^ i - 1 := by
    have := nat_sub_dvd_pow_sub_pow p 1 i
    rw [one_pow] at this
    exact dvd_trans hdiv this
  obtain ⟨m, hm⟩ := hdiv2
  have hm2 : p ^ i = 1 + d * m := by omega
  have hdm : (p ^ i - 1) / d = m := by
    rw [hm, Nat.mul_div_cancel_left m hd]
  unfold FpExtT.Frobenius_map
  apply binomial_adjoinRoot_injective d nr hd
  · rw [hn]
    exact FpExtT.length_pow _ x hx n
  · simp
  · rw [hn, binomial_pow_adjoinRoot, ← hn, ← mk_sum_C_mul_X_pow, ← map_pow,
      frobenius_polynomial p hF, map_sum]
    refine Finset.sum_congr rfl fun k hk => ?_
    rw [getD_map_range _ _ _ (Finset.mem_range.mp hk), map_mul, map_pow, AdjoinRoot.mk_C,
      AdjoinRoot.mk_X, root_pow_frobenius d nr k m _ hm2, Frobenius_coefficient, hdm, map_mul]
    ring

end snark

namespace snark

variable {F : Type}

theorem linear_combination.evaluate_single [Field F] (a : List (Option F)) (c : F) (v : Nat)
    (x : F) (h : a.getD v none = some x) :
    ({ terms := [(c, v)], constant := 0 } : linear_combination F).evaluate a
      = some (c * x) := by
  unfold linear_combination.evaluate
  simp only [List.foldr_cons, List.foldr_nil, h]
  simp

/-- C12. Frobenius map: for the extension obtained by adjoining a `d`-th root
of a non-residue to the prime field of characteristic `p` (with `d` dividing
`p - 1`), for every power `i` and every value `x`, the variable returned by
`x.Frobenius_map(i)` evaluates to `x` raised to `p ^ i`, the native Frobenius
map; building it adds no constraint, and the blueprint, which has no
constraint, is satisfied. -/
theorem Frobenius_map_correct [Field F] [DecidableEq F] (p : Nat) [Fact p.Prime] [CharP F p]
    (hF : ∀ a : F, a ^ p = a) (d : Nat) (non_residue : F) (hd : 0 < d) (hdiv : d ∣ p - 1)
    (i : Nat) (x_val : List F) (hx : x_val.length = d) :
    (test_Frobenius p d non_residue i x_val).1
      = ((FpExtT.binomial d non_residue).Frobenius_map p x_val i).map some ∧
    (test_Frobenius p d non_residue i x_val).2.num_constraints = 0 ∧
    (test_Frobenius p d non_residue i x_val).2.is_satisfied = true := by
  have hdeg : (FpExtT.binomial d non_residue).degree = d := rfl
  have hc : (test_Frobenius p d non_residue i x_val).2.constraints = [] := by
    simp only [test_Frobenius, VarT.generate_r1cs_witness, VarT.construct,
      blueprint.allocate, blueprint.empty]
    rw [(blueprint.set_vals_frame _ _ _).1]
  refine ⟨?_, by rw [blueprint.num_constraints, hc]; rfl,
    is_satisfied_of_all _ [] hc (fun c h => absurd h (List.not_mem_nil c))⟩
  rw [frobenius_binomial p hF d non_residue hd hdiv x_val hx i]
  simp only [test_Frobenius, VarT.generate_r1cs_witness, VarT.construct, blueprint.allocate,
    blueprint.empty, VarT.Frobenius_map, VarT_combination.get_element, hdeg,
    List.length_nil, List.nil_append, List.map_map]
  apply List.map_congr_left
  intro k hk
  have hk2 : k < d := List.mem_range.mp hk
  have hg : (blueprint.set_vals ⟨List.replicate d none, []⟩ (List.range' 0 d) x_val).get_vals
      (List.range' 0 d) = x_val.map some := by
    apply blueprint.get_vals_set_vals
    · exact List.nodup_range' _ _
    · intro v hv
      have := mem_range_bounds hv
      simp only [List.length_replicate]
      omega
    · simp [hx]
  have hv := blueprint.val_of_get_vals _ _ _ hg k (by simpa using hk2)
  simp only [Function.comp]
  exact linear_combination.evaluate_single _ _ _ _ hv

end snark

namespace snark

/-- The field of nine elements, the integers modulo three with a square root
of two adjoined: the cube of `1 + 2u` read from the variable is the native
one. -/
theorem Frobenius_map_correct_witness :
    (test_Frobenius 3 2 (2 : ZMod 3) 1 [1, 2]).1
      = ((FpExtT.binomial 2 (2 : ZMod 3)).Frobenius_map 3 [1, 2] 1).map some ∧
    (test_Frobenius 3 2 (2 : ZMod 3) 1 [1, 2]).2.num_constraints = 0 ∧
    (test_Frobenius 3 2 (2 : ZMod 3) 1 [1, 2]).2.is_satisfied = true :=
  Frobenius_map_correct 3 (fun a => ZMod.pow_card a) 2 (2 : ZMod 3) (by decide) (by decide) 1
    [1, 2] rfl

end snark
